import Mathlib

/-!
# Shortcircuit XT: sample normalisation and loading

A shallow embedding of `src/sample/sample.cpp` (class `scxt::sample::Sample`).

Conventions of the embedding

* C++ machine integers are mathematical integers with the wrap-around written
  out (`toInt16`, `toInt32`, `toUInt32`).
* The untyped source pointer `void *data` is a byte memory `Nat → Nat`
  (the byte stored at `data + k`, read modulo 256).
* A channel buffer obtained from `malloc` is a list of cells; a cell that was
  never written is `none`.
* Undefined behaviour of the C++ code (write through a null pointer, write
  outside a buffer, array index out of range) is the result `none`.
* `float` is an abstract type `F` together with the operations the code uses
  (`FloatOps`).
* Declarations that live in headers outside `src/` (`FIRipol_N`, `FIRoffset`,
  the enumerator `SF2_FILE`) are fields of `Consts`.
-/

namespace scxt

/-! ## Machine integers -/

/-- Conversion to `short` / `int16_t`: reduction modulo `2^16` into `[-2^15, 2^15)`. -/
def toInt16 (x : Int) : Int := (x + 32768) % 65536 - 32768

/-- Conversion to `int` / `int32_t`: reduction modulo `2^32` into `[-2^31, 2^31)`. -/
def toInt32 (x : Int) : Int := (x + 2147483648) % 4294967296 - 2147483648

/-- Conversion to `unsigned int`: reduction modulo `2^32`. -/
def toUInt32 (x : Int) : Nat := (x % 4294967296).toNat

/-- The operator `<<` on `int`: multiplication by a power of two, wrapped to 32 bits. -/
def shl32 (x : Int) (k : Nat) : Int := toInt32 (x * 2 ^ k)

/-! ## Source memory -/

/-- The source bytes behind `void *data`: the byte at `data + k` is `data k % 256`. -/
abbrev Bytes := Nat → Nat

/-- Read `*((unsigned char *)data + off)`. -/
def ubyteAt (data : Bytes) (off : Nat) : Nat := data off % 256

/-- Read `*((char *)data + off)`; `charSigned` tells whether plain `char` is signed on the
target (it is implementation-defined). -/
def charAt (charSigned : Bool) (data : Bytes) (off : Nat) : Int :=
  if charSigned then
    (if 128 ≤ ubyteAt data off then (ubyteAt data off : Int) - 256 else (ubyteAt data off : Int))
  else (ubyteAt data off : Int)

/-- The unsigned value of `w` consecutive bytes at `off`, least significant byte first. -/
def leWord (data : Bytes) : Nat → Nat → Nat
  | _, 0 => 0
  | off, w + 1 => ubyteAt data off + 256 * leWord data (off + 1) w

/-- The unsigned value of `w` consecutive bytes at `off`, most significant byte first. -/
def beWord (data : Bytes) : Nat → Nat → Nat
  | _, 0 => 0
  | off, w + 1 => ubyteAt data off * 256 ^ w + beWord data (off + 1) w

/-- The unsigned value of a `w`-byte object at `off` as the host sees it. -/
def hostWord (hostBE : Bool) (data : Bytes) (off w : Nat) : Nat :=
  if hostBE then beWord data off w else leWord data off w

/-- Read `*(short *)((char *)data + off)`. -/
def readShort (hostBE : Bool) (data : Bytes) (off : Nat) : Int :=
  toInt16 (hostWord hostBE data off 2)

/-- Read `*(int *)((char *)data + off)`. -/
def readInt (hostBE : Bool) (data : Bytes) (off : Nat) : Int :=
  toInt32 (hostWord hostBE data off 4)

/-- Reverse the order of the `w` bytes of an unsigned value. -/
def bswap : Nat → Nat → Nat
  | 0, _ => 0
  | w + 1, u => (u % 256) * 256 ^ w + bswap w (u / 256)

/-- Modelled from the spec: `endian_read_int16LE` of `sst/basic-blocks/mechanics/endian-ops.h`
(a library header, not in `src/`) turns a little-endian 16-bit word into host order: the
identity on a little-endian host, a byte swap on a big-endian host. -/
def endian_read_int16LE (hostBE : Bool) (t : Int) : Int :=
  if hostBE then toInt16 (bswap 2 (t % 65536).toNat) else t

/-- Modelled from the spec: `endian_read_int16BE` turns a big-endian 16-bit word into host
order: a byte swap on a little-endian host, the identity on a big-endian host. -/
def endian_read_int16BE (hostBE : Bool) (t : Int) : Int :=
  if hostBE then t else toInt16 (bswap 2 (t % 65536).toNat)

/-- Modelled from the spec: `endian_read_int32LE`, the 32-bit analogue of
`endian_read_int16LE`. -/
def endian_read_int32LE (hostBE : Bool) (t : Int) : Int :=
  if hostBE then toInt32 (bswap 4 (t % 4294967296).toNat) else t

/-- Modelled from the spec: `endian_read_int32BE`, the 32-bit analogue of
`endian_read_int16BE`. -/
def endian_read_int32BE (hostBE : Bool) (t : Int) : Int :=
  if hostBE then t else toInt32 (bswap 4 (t % 4294967296).toNat)

/-! ## Floating point -/

/-- The operations on `float` that `sample.cpp` uses, over an abstract carrier. -/
structure FloatOps (F : Type) where
  /-- The value whose object representation is all zero bytes (what `memset` leaves). -/
  zero : F
  /-- The literal `1.f`. -/
  one : F
  /-- A decimal literal with suffix `f`. -/
  lit : ℚ → F
  /-- The conversion `(float)x` of an integer. -/
  ofInt : Int → F
  /-- Multiplication of two floats. -/
  mul : F → F → F
  /-- Division of two floats. -/
  div : F → F → F
  /-- The float whose object representation is the given 32-bit word: `*(float *)p`. -/
  ofBits32 : Nat → F
  /-- The conversion `(float)d` of the double whose representation is the given 64-bit word. -/
  ofBits64 : Nat → F

/-- Exact rational arithmetic as an instance of `FloatOps` (no rounding; bit patterns are
read as their integer value). Used to run the loaders on concrete inputs. -/
def exactOps : FloatOps ℚ where
  zero := 0
  one := 1
  lit := fun q => q
  ofInt := fun x => (x : ℚ)
  mul := fun a b => a * b
  div := fun a b => a / b
  ofBits32 := fun w => (w : ℚ)
  ofBits64 := fun w => (w : ℚ)

/-! ## Per-frame conversions (the right-hand sides of the loader loops) -/

/-- Frame conversion of `load_data_ui8`:
`(((short)*((unsigned char *)data + off)) - 128) << 8`, stored into a `short`. -/
def conv_ui8 (data : Bytes) (off : Nat) : Int :=
  toInt16 (shl32 ((ubyteAt data off : Int) - 128) 8)

/-- Frame conversion of `load_data_i8`: `((short)*((char *)data + off)) << 8`, stored into a
`short`. -/
def conv_i8 (charSigned : Bool) (data : Bytes) (off : Nat) : Int :=
  toInt16 (shl32 (charAt charSigned data off) 8)

/-- Frame conversion of `load_data_i16`:
`endian_read_int16LE(*(short *)((char *)data + off))`. -/
def conv_i16 (hostBE : Bool) (data : Bytes) (off : Nat) : Int :=
  endian_read_int16LE hostBE (readShort hostBE data off)

/-- Frame conversion of `load_data_i16BE`:
`endian_read_int16BE(*(short *)((char *)data + off))`. -/
def conv_i16BE (hostBE : Bool) (data : Bytes) (off : Nat) : Int :=
  endian_read_int16BE hostBE (readShort hostBE data off)

/-- The integer `value` of `load_data_i24` for the bytes `cval[0]`, `cval[1]`, `cval[2]`:
`value = (cval[2] << 16) | (cval[1] << 8) | cval[0]; value -= (value & 0x800000) << 1;`.
The operands are non-negative and below `2^25`, so no 32-bit wrap occurs. -/
def i24Value (c0 c1 c2 : Nat) : Int :=
  let value : Nat := (c2 <<< 16) ||| (c1 <<< 8) ||| c0
  (value : Int) - (((value &&& 0x800000) <<< 1 : Nat) : Int)

/-- The integer `value` of `load_data_i24BE` for the bytes `cval[0]`, `cval[1]`, `cval[2]`:
`value = (cval[0] << 16) | (cval[1] << 8) | cval[2]; value -= (value & 0x800000) << 1;`. -/
def i24ValueBE (c0 c1 c2 : Nat) : Int :=
  let value : Nat := (c0 <<< 16) ||| (c1 <<< 8) ||| c2
  (value : Int) - (((value &&& 0x800000) <<< 1 : Nat) : Int)

/-- The decimal literal `0.00000011920928955078f` of `load_data_i24`, as a rational. -/
def i24ScaleLit : ℚ := 11920928955078 / 100000000000000000000

/-- The decimal literal `4.6566128730772E-10f` of `load_data_i32`, as a rational. -/
def i32ScaleLit : ℚ := 46566128730772 / 100000000000000000000000

/-- Frame conversion of `load_data_i24`: `0.00000011920928955078f * float(value)` with
`cval = (unsigned char *)data + off`. -/
def conv_i24 {F : Type} (fo : FloatOps F) (data : Bytes) (off : Nat) : F :=
  fo.mul (fo.lit i24ScaleLit)
    (fo.ofInt (i24Value (ubyteAt data off) (ubyteAt data (off + 1)) (ubyteAt data (off + 2))))

/-- Frame conversion of `load_data_i24BE`: `0.00000011920928955078f * float(value)` with the
`value` of `i24ValueBE`. -/
def conv_i24BE {F : Type} (fo : FloatOps F) (data : Bytes) (off : Nat) : F :=
  fo.mul (fo.lit i24ScaleLit)
    (fo.ofInt (i24ValueBE (ubyteAt data off) (ubyteAt data (off + 1)) (ubyteAt data (off + 2))))

/-- Frame conversion of `load_data_i32`:
`int x = endian_read_int32LE(*(int *)((char *)data + off)); 4.6566128730772E-10f * (float)x`. -/
def conv_i32 {F : Type} (fo : FloatOps F) (hostBE : Bool) (data : Bytes) (off : Nat) : F :=
  fo.mul (fo.lit i32ScaleLit) (fo.ofInt (endian_read_int32LE hostBE (readInt hostBE data off)))

/-- Frame conversion of `load_data_i32BE`. -/
def conv_i32BE {F : Type} (fo : FloatOps F) (hostBE : Bool) (data : Bytes) (off : Nat) : F :=
  fo.mul (fo.lit i32ScaleLit) (fo.ofInt (endian_read_int32BE hostBE (readInt hostBE data off)))

/-- Frame conversion of `load_data_f32`: `*(float *)((char *)data + off)`. -/
def conv_f32 {F : Type} (fo : FloatOps F) (hostBE : Bool) (data : Bytes) (off : Nat) : F :=
  fo.ofBits32 (hostWord hostBE data off 4)

/-- Frame conversion of `load_data_f64`: `(float)(*(double *)((char *)data + off))`. -/
def conv_f64 {F : Type} (fo : FloatOps F) (hostBE : Bool) (data : Bytes) (off : Nat) : F :=
  fo.ofBits64 (hostWord hostBE data off 8)

/-! ## The `Sample` object and its channel buffers -/

/-- Constants declared in headers outside `src/`: `scxt::dsp::FIRipol_N` and
`scxt::dsp::FIRoffset` of `dsp/resampling.h`, and the enumerator `Sample::SF2_FILE` of
`sample.h`. -/
structure Consts where
  FIRipol_N : Nat
  FIRoffset : Nat
  SF2_FILE : Nat

/-- A block obtained from `malloc`, typed by the element type it was allocated for.
A cell holding `none` has never been written. -/
inductive ChannelData (F : Type) where
  | i16 (cells : List (Option Int))
  | f32 (cells : List (Option F))

/-- A file-system path (`fs::path`). -/
abbrev Path := String

/-- The data members of `scxt::sample::Sample` that `sample.cpp` reads or writes. The array
`sampleData` has one entry per channel (at most two channels); `none` is the null pointer. -/
structure Sample (F : Type) where
  mFileName : Path
  displayName : String
  instrument : Int
  region : Int
  type : Nat
  UseInt16 : Bool
  channels : Nat
  sample_length : Nat
  sample_rate : Nat
  InvSampleRate : F
  sample_loaded : Bool
  sampleData0 : Option (ChannelData F)
  sampleData1 : Option (ChannelData F)

/-- Read `sampleData[Channel]`; the outer `none` is an index outside the array. -/
def Sample.getData {F : Type} (s : Sample F) : Nat → Option (Option (ChannelData F))
  | 0 => some s.sampleData0
  | 1 => some s.sampleData1
  | _ => none

/-- Assign `sampleData[Channel] = d`; `none` is an index outside the array. -/
def Sample.setData {F : Type} (s : Sample F) (Channel : Nat) (d : Option (ChannelData F)) :
    Option (Sample F) :=
  match Channel with
  | 0 => some { s with sampleData0 := d }
  | 1 => some { s with sampleData1 := d }
  | _ => none

/-- A non-null `short *` or `float *` into a channel buffer: element `idx` of
`sampleData[chan]`. -/
structure CellPtr where
  chan : Nat
  idx : Nat

/-- `memset(p + start, 0, len * sizeof(T))` on a block of cells, `z` being the value of an
all-zero element; `none` when the range is not inside the block. -/
def memsetZero {α : Type} (z : α) (buf : List (Option α)) (start : Int) (len : Nat) :
    Option (List (Option α)) :=
  if 0 ≤ start ∧ start.toNat + len ≤ buf.length then
    some (buf.mapIdx (fun j c => if start.toNat ≤ j ∧ j < start.toNat + len then some z else c))
  else none

/-- Allocation step shared by `allocateI16` and `allocateF32`: the fresh block of
`samplesizewithmargin` cells with the two `memset` calls applied. -/
def clearedBlock {α : Type} (k : Consts) (z : α) (samplesizewithmargin Samples : Int) :
    Option (List (Option α)) :=
  (memsetZero z (List.replicate samplesizewithmargin.toNat none) 0 k.FIRoffset).bind
    (fun b => memsetZero z b (Samples + k.FIRoffset) k.FIRoffset)

/-- `Sample::allocateI16(Channel, Samples)`. `mallocOk` says whether the allocator has memory
for this call; a negative element count becomes a request of nearly `2^64` bytes, which
`malloc` refuses. The sum `Samples + FIRipol_N` is reduced to `int`. The previous block is
freed and replaced; when `malloc` returns null the function returns `false` before `UseInt16`
is assigned. -/
def allocateI16 {F : Type} (k : Consts) (mallocOk : Bool) (s : Sample F) (Channel : Nat)
    (Samples : Int) : Option (Bool × Sample F) :=
  let samplesizewithmargin : Int := toInt32 (Samples + k.FIRipol_N)
  if mallocOk ∧ 0 ≤ samplesizewithmargin then
    (clearedBlock k (0 : Int) samplesizewithmargin Samples).bind (fun b =>
      ({ s with UseInt16 := true }.setData Channel (some (ChannelData.i16 b))).map
        (fun s1 => (true, s1)))
  else
    (s.setData Channel none).map (fun s1 => (false, s1))

/-- `Sample::allocateF32(Channel, Samples)`. -/
def allocateF32 {F : Type} (fo : FloatOps F) (k : Consts) (mallocOk : Bool) (s : Sample F)
    (Channel : Nat) (Samples : Int) : Option (Bool × Sample F) :=
  let samplesizewithmargin : Int := toInt32 (Samples + k.FIRipol_N)
  if mallocOk ∧ 0 ≤ samplesizewithmargin then
    (clearedBlock k fo.zero samplesizewithmargin Samples).bind (fun b =>
      ({ s with UseInt16 := false }.setData Channel (some (ChannelData.f32 b))).map
        (fun s1 => (true, s1)))
  else
    (s.setData Channel none).map (fun s1 => (false, s1))

/-- `Sample::GetSamplePtrI16(Channel)`; `none` is the null pointer. -/
def GetSamplePtrI16 {F : Type} (k : Consts) (s : Sample F) (Channel : Nat) : Option CellPtr :=
  if !s.UseInt16 then none else some ⟨Channel, k.FIRoffset⟩

/-- `Sample::GetSamplePtrF32(Channel)`; `none` is the null pointer. -/
def GetSamplePtrF32 {F : Type} (k : Consts) (s : Sample F) (Channel : Nat) : Option CellPtr :=
  if s.UseInt16 then none else some ⟨Channel, k.FIRoffset⟩

/-- The assignment `sampledata[i] = v` through a `short *`. -/
def storeI16 {F : Type} (s : Sample F) (sampledata : Option CellPtr) (i : Nat) (v : Int) :
    Option (Sample F) :=
  match sampledata with
  | none => none
  | some q =>
    match s.getData q.chan with
    | some (some (ChannelData.i16 cells)) =>
      if q.idx + i < cells.length then
        s.setData q.chan (some (ChannelData.i16 (cells.set (q.idx + i) (some v))))
      else none
    | _ => none

/-- The assignment `sampledata[i] = v` through a `float *`. -/
def storeF32 {F : Type} (s : Sample F) (sampledata : Option CellPtr) (i : Nat) (v : F) :
    Option (Sample F) :=
  match sampledata with
  | none => none
  | some q =>
    match s.getData q.chan with
    | some (some (ChannelData.f32 cells)) =>
      if q.idx + i < cells.length then
        s.setData q.chan (some (ChannelData.f32 (cells.set (q.idx + i) (some v))))
      else none
    | _ => none

/-- The loop `for (i = i0; i < i0 + cnt; i++) body`, stopping at the first undefined step. -/
def forLoop {σ : Type} (body : Nat → σ → Option σ) : Nat → Nat → σ → Option σ
  | _, 0, st => some st
  | i, cnt + 1, st => (body i st).bind (forLoop body (i + 1) cnt)

/-- The body shared by the four loaders into 16-bit storage: `allocateI16`, `GetSamplePtrI16`,
then `sampledata[i] = conv(data + i * stride)` for `i < samplesize`, the product of `int i`
and `unsigned int stride` being taken in `unsigned int`. The result of `allocateI16` is not
looked at. A `samplesize` that does not fit `int` leaves a block shorter than `samplesize`
cells (or none), so the loop ends in `none` before the counter could overflow. -/
def loadI16With {F : Type} (conv : Bytes → Nat → Int) (k : Consts) (mallocOk : Bool)
    (s : Sample F) (channel : Nat) (data : Bytes) (samplesize stride : Nat) :
    Option (Bool × Sample F) :=
  (allocateI16 k mallocOk s channel (toInt32 samplesize)).bind (fun r =>
    let sampledata := GetSamplePtrI16 k r.2 channel
    (forLoop (fun i st => storeI16 st sampledata i (conv data (toUInt32 (i * stride))))
      0 samplesize r.2).map (fun s2 => (true, s2)))

/-- The body shared by the six loaders into float storage. -/
def loadF32With {F : Type} (fo : FloatOps F) (conv : Bytes → Nat → F) (k : Consts)
    (mallocOk : Bool) (s : Sample F) (channel : Nat) (data : Bytes) (samplesize stride : Nat) :
    Option (Bool × Sample F) :=
  (allocateF32 fo k mallocOk s channel (toInt32 samplesize)).bind (fun r =>
    let sampledata := GetSamplePtrF32 k r.2 channel
    (forLoop (fun i st => storeF32 st sampledata i (conv data (toUInt32 (i * stride))))
      0 samplesize r.2).map (fun s2 => (true, s2)))

/-- `Sample::load_data_ui8`. -/
def load_data_ui8 {F : Type} (k : Consts) (mallocOk : Bool) (s : Sample F) (channel : Nat)
    (data : Bytes) (samplesize stride : Nat) : Option (Bool × Sample F) :=
  loadI16With conv_ui8 k mallocOk s channel data samplesize stride

/-- `Sample::load_data_i8`. -/
def load_data_i8 {F : Type} (charSigned : Bool) (k : Consts) (mallocOk : Bool) (s : Sample F)
    (channel : Nat) (data : Bytes) (samplesize stride : Nat) : Option (Bool × Sample F) :=
  loadI16With (conv_i8 charSigned) k mallocOk s channel data samplesize stride

/-- `Sample::load_data_i16`. -/
def load_data_i16 {F : Type} (hostBE : Bool) (k : Consts) (mallocOk : Bool) (s : Sample F)
    (channel : Nat) (data : Bytes) (samplesize stride : Nat) : Option (Bool × Sample F) :=
  loadI16With (conv_i16 hostBE) k mallocOk s channel data samplesize stride

/-- `Sample::load_data_i16BE`. -/
def load_data_i16BE {F : Type} (hostBE : Bool) (k : Consts) (mallocOk : Bool) (s : Sample F)
    (channel : Nat) (data : Bytes) (samplesize stride : Nat) : Option (Bool × Sample F) :=
  loadI16With (conv_i16BE hostBE) k mallocOk s channel data samplesize stride

/-- `Sample::load_data_i32`. -/
def load_data_i32 {F : Type} (fo : FloatOps F) (hostBE : Bool) (k : Consts) (mallocOk : Bool)
    (s : Sample F) (channel : Nat) (data : Bytes) (samplesize stride : Nat) :
    Option (Bool × Sample F) :=
  loadF32With fo (conv_i32 fo hostBE) k mallocOk s channel data samplesize stride

/-- `Sample::load_data_i32BE`. -/
def load_data_i32BE {F : Type} (fo : FloatOps F) (hostBE : Bool) (k : Consts) (mallocOk : Bool)
    (s : Sample F) (channel : Nat) (data : Bytes) (samplesize stride : Nat) :
    Option (Bool × Sample F) :=
  loadF32With fo (conv_i32BE fo hostBE) k mallocOk s channel data samplesize stride

/-- `Sample::load_data_i24`. -/
def load_data_i24 {F : Type} (fo : FloatOps F) (k : Consts) (mallocOk : Bool) (s : Sample F)
    (channel : Nat) (data : Bytes) (samplesize stride : Nat) : Option (Bool × Sample F) :=
  loadF32With fo (conv_i24 fo) k mallocOk s channel data samplesize stride

/-- `Sample::load_data_i24BE`. -/
def load_data_i24BE {F : Type} (fo : FloatOps F) (k : Consts) (mallocOk : Bool) (s : Sample F)
    (channel : Nat) (data : Bytes) (samplesize stride : Nat) : Option (Bool × Sample F) :=
  loadF32With fo (conv_i24BE fo) k mallocOk s channel data samplesize stride

/-- `Sample::load_data_f32`. -/
def load_data_f32 {F : Type} (fo : FloatOps F) (hostBE : Bool) (k : Consts) (mallocOk : Bool)
    (s : Sample F) (channel : Nat) (data : Bytes) (samplesize stride : Nat) :
    Option (Bool × Sample F) :=
  loadF32With fo (conv_f32 fo hostBE) k mallocOk s channel data samplesize stride

/-- `Sample::load_data_f64`. -/
def load_data_f64 {F : Type} (fo : FloatOps F) (hostBE : Bool) (k : Consts) (mallocOk : Bool)
    (s : Sample F) (channel : Nat) (data : Bytes) (samplesize stride : Nat) :
    Option (Bool × Sample F) :=
  loadF32With fo (conv_f64 fo hostBE) k mallocOk s channel data samplesize stride

/-! ## Metadata and file loading -/

/-- `Sample::SetMeta(Channels, SampleRate, SampleLength)`: the returned flag and the object
afterwards. The members are taken to be wide enough to hold an `unsigned int`. -/
def SetMeta {F : Type} (fo : FloatOps F) (s : Sample F) (Channels SampleRate SampleLength : Nat) :
    Bool × Sample F :=
  if Channels > 2 then (false, s)
  else
    (true, { s with
      channels := Channels
      sample_length := SampleLength
      sample_rate := SampleRate
      InvSampleRate := fo.div fo.one (fo.ofInt (SampleRate : Int)) })

/-- The services of `std::filesystem` and `infrastructure::FileMapView` that `Sample::load`
calls: `fs::exists`, `path::extension`, `path::filename` and the mapped file contents with
their size. -/
structure FileSystem where
  fsExists : Path → Bool
  extension : Path → String
  filename : Path → String
  fileData : Path → Bytes
  fileDataSize : Path → Nat

/-- `Sample::load(path)`. The member functions `clear_data` and `parse_riff_wave` are defined
outside `src/` and are parameters: `clear_data` maps the object to the cleared object,
`parse_riff_wave` returns its flag and the object it leaves. -/
def load {F : Type} (fsys : FileSystem) (clear_data : Sample F → Sample F)
    (parse_riff_wave : Sample F → Bytes → Nat → Bool × Sample F) (s : Sample F) (path : Path) :
    Bool × Sample F :=
  if !fsys.fsExists path then (false, s)
  else if fsys.extension path = ".wav" then
    let data := fsys.fileData path
    let datasize := fsys.fileDataSize path
    let s1 := clear_data s
    let r := parse_riff_wave s1 data datasize
    (true, { r.2 with
      sample_loaded := true
      mFileName := path
      displayName := fsys.filename path })
  else (false, s)

/-- What `Sample::loadFromSF2` asks of the `sf2::Sample` it is given (library `libgig`). -/
structure SF2Sample where
  FrameSize : Nat
  ChannelCount : Nat
  TotalFrameCount : Nat
  SampleRate : Nat
  Name : String
  pStart : Bytes
  Size : Nat

/-- What `Sample::loadFromSF2` asks of the `sf2::File`: the sample of a region of an
instrument, and the name of the underlying RIFF file. -/
structure SF2File where
  GetSample : Int → Int → SF2Sample
  GetFileName : Path

/-- `Sample::loadFromSF2(p, f, inst, reg)`. -/
def loadFromSF2 {F : Type} (fsys : FileSystem) (hostBE : Bool) (k : Consts) (mallocOk : Bool)
    (s : Sample F) (p : Path) (f : SF2File) (inst reg : Int) : Option (Bool × Sample F) :=
  let s1 : Sample F := { s with mFileName := p, instrument := inst, region := reg,
                                type := k.SF2_FILE }
  let sfsample := f.GetSample inst s1.region
  let s2 : Sample F := { s1 with
    UseInt16 := (sfsample.FrameSize == 2)
    channels := sfsample.ChannelCount
    sample_length := sfsample.TotalFrameCount
    sample_rate := sfsample.SampleRate }
  let s3 : Sample F := { s2 with
    displayName := sfsample.Name ++ " (" ++ fsys.filename f.GetFileName ++ "/" ++
      toString inst ++ "/" ++ toString s2.region ++ ")" }
  if !s3.UseInt16 then some (false, s3)
  else if sfsample.ChannelCount != 1 then some (false, s3)
  else
    (load_data_i16 hostBE k mallocOk s3 0 sfsample.pStart (toUInt32 sfsample.Size)
      sfsample.FrameSize).map (fun r => (true, r.2))

/-! ## Reading a loaded channel -/

/-- The cells of channel `Channel` when its block holds 16-bit integers. -/
def Sample.cellsI16 {F : Type} (s : Sample F) (Channel : Nat) : Option (List (Option Int)) :=
  match s.getData Channel with
  | some (some (ChannelData.i16 cells)) => some cells
  | _ => none

/-- The cells of channel `Channel` when its block holds floats. -/
def Sample.cellsF32 {F : Type} (s : Sample F) (Channel : Nat) : Option (List (Option F)) :=
  match s.getData Channel with
  | some (some (ChannelData.f32 cells)) => some cells
  | _ => none

/-- The `n` data cells of a block: those `GetSamplePtr*` points at, after the leading guard. -/
def dataRegion {α : Type} (k : Consts) (n : Nat) (cells : List (Option α)) : List (Option α) :=
  (cells.drop k.FIRoffset).take n

/-- The guard cells before the data: the first `FIRoffset` cells. -/
def guardBefore {α : Type} (k : Consts) (cells : List (Option α)) : List (Option α) :=
  cells.take k.FIRoffset

/-- The guard cells after the data: the `FIRoffset` cells that follow the `n` data cells. -/
def guardAfter {α : Type} (k : Consts) (n : Nat) (cells : List (Option α)) : List (Option α) :=
  (cells.drop (k.FIRoffset + n)).take k.FIRoffset

/-- A sample object before any load, over exact rational arithmetic. -/
def blankSample : Sample ℚ where
  mFileName := ""
  displayName := ""
  instrument := 0
  region := 0
  type := 0
  UseInt16 := false
  channels := 0
  sample_length := 0
  sample_rate := 0
  InvSampleRate := 0
  sample_loaded := false
  sampleData0 := none
  sampleData1 := none

/-- Concrete values for the header constants: a 16-tap kernel with an 8-cell guard. -/
def consts16 : Consts where
  FIRipol_N := 16
  FIRoffset := 8
  SF2_FILE := 1

/-! ## Closed forms, encodings and the vocabulary of the statements -/

/-- Closed form of a channel block with data cells `mid`: `FIRoffset` zero cells, the data
cells, `FIRoffset` zero cells, and the `FIRipol_N - 2 * FIRoffset` cells that are never
written. -/
def blockOf {α : Type} (k : Consts) (z : α) (mid : List (Option α)) : List (Option α) :=
  List.replicate k.FIRoffset (some z) ++ (mid ++ (List.replicate k.FIRoffset (some z) ++
    List.replicate (k.FIRipol_N - 2 * k.FIRoffset) none))

/-- The cells after the stores `cells[o + j] = vals j` for `j = i, i + 1, .., i + cnt - 1`. -/
def storeRange {α : Type} (vals : Nat → α) (o : Nat) :
    Nat → Nat → List (Option α) → List (Option α)
  | _, 0, cells => cells
  | i, cnt + 1, cells => storeRange vals o (i + 1) cnt (cells.set (o + i) (some (vals i)))

/-- The frame values a loader stores: frame `i` is `conv` at byte offset `i * stride`
reduced to `unsigned int`. -/
def framesOf {α : Type} (conv : Bytes → Nat → α) (data : Bytes) (n stride : Nat) :
    List (Option α) :=
  (List.range n).map (fun (i : Nat) => some (conv data (toUInt32 ((i : Int) * (stride : Int)))))

/-- The two's-complement value of the `bits`-bit unsigned word `u`. -/
def twosComplement (bits : Nat) (u : Nat) : Int :=
  if u < 2 ^ (bits - 1) then (u : Int) else (u : Int) - 2 ^ bits

/-- The unsigned 16-bit pattern of a `short` value. -/
def u16Of (v : Int) : Nat := (v % 65536).toNat

/-- Little-endian byte encoding of a sequence of 16-bit frames with the given stride: frame `i`
has its low byte at offset `i * stride` and its high byte at `i * stride + 1`; every other
byte is padding. -/
def encodeI16LE (vs : List Int) (stride : Nat) : Bytes := fun off =>
  if off % stride = 0 then u16Of (vs.getD (off / stride) 0) % 256
  else if off % stride = 1 then u16Of (vs.getD (off / stride) 0) / 256
  else 0

/-- Big-endian byte encoding of a sequence of 16-bit frames with the given stride: frame `i`
has its high byte at offset `i * stride` and its low byte at `i * stride + 1`. -/
def encodeI16BE (vs : List Int) (stride : Nat) : Bytes := fun off =>
  if off % stride = 0 then u16Of (vs.getD (off / stride) 0) / 256
  else if off % stride = 1 then u16Of (vs.getD (off / stride) 0) % 256
  else 0

/-- The outcome `r` of a loader is a normal return of `true` that leaves exactly the values
`vs`, in order, in the `vs.length` data cells of channel `ch`. -/
def YieldsI16 {F : Type} (k : Consts) (ch : Nat) (vs : List Int)
    (r : Option (Bool × Sample F)) : Prop :=
  ∃ s1, r = some (true, s1) ∧
    (s1.cellsI16 ch).map (dataRegion k vs.length) = some (vs.map some)

/-- The outcome `r` of a loader is a normal return of `true` with the sample in 16-bit integer
storage: `UseInt16` is true and `GetSamplePtrF32` is null for every channel. -/
def StoresInt16 {F : Type} (k : Consts) (r : Option (Bool × Sample F)) : Prop :=
  ∃ s1, r = some (true, s1) ∧ s1.UseInt16 = true ∧ ∀ c, GetSamplePtrF32 k s1 c = none

/-- The outcome `r` of a loader is a normal return of `true` with the sample in 32-bit float
storage: `UseInt16` is false and `GetSamplePtrI16` is null for every channel. -/
def StoresFloat32 {F : Type} (k : Consts) (r : Option (Bool × Sample F)) : Prop :=
  ∃ s1, r = some (true, s1) ∧ s1.UseInt16 = false ∧ ∀ c, GetSamplePtrI16 k s1 c = none

/-- The byte pattern used to run the loaders: byte `off` is `off` modulo 251. -/
def rampBytes : Bytes := fun off => off % 251

/-- Outcome of a loader into 16-bit storage, related to the outcome `alloc` of the allocation
it starts with: both return normally; in the loaded block of channel `ch` the `FIRoffset` cells
before the `n` data cells and the `FIRoffset` cells after them all hold zero; and the loader
changed nothing but data cells: the block has the same length, every cell outside the data
region is as `allocateI16` left it, and the rest of the object is the same. -/
def KeepsGuardsI16 {F : Type} (k : Consts) (n ch : Nat)
    (alloc res : Option (Bool × Sample F)) : Prop :=
  ∃ s1 s2 cells1 cells2,
    alloc = some (true, s1) ∧ res = some (true, s2) ∧
    s1.cellsI16 ch = some cells1 ∧ s2.cellsI16 ch = some cells2 ∧
    guardBefore k cells2 = List.replicate k.FIRoffset (some 0) ∧
    guardAfter k n cells2 = List.replicate k.FIRoffset (some 0) ∧
    cells2.length = cells1.length ∧
    (∀ j, j < k.FIRoffset ∨ k.FIRoffset + n ≤ j → cells2[j]? = cells1[j]?) ∧
    s1.setData ch (some (ChannelData.i16 cells2)) = some s2

/-- The same for a loader into float storage; zero is the float with all-zero bytes. -/
def KeepsGuardsF32 {F : Type} (fo : FloatOps F) (k : Consts) (n ch : Nat)
    (alloc res : Option (Bool × Sample F)) : Prop :=
  ∃ s1 s2 cells1 cells2,
    alloc = some (true, s1) ∧ res = some (true, s2) ∧
    s1.cellsF32 ch = some cells1 ∧ s2.cellsF32 ch = some cells2 ∧
    guardBefore k cells2 = List.replicate k.FIRoffset (some fo.zero) ∧
    guardAfter k n cells2 = List.replicate k.FIRoffset (some fo.zero) ∧
    cells2.length = cells1.length ∧
    (∀ j, j < k.FIRoffset ∨ k.FIRoffset + n ≤ j → cells2[j]? = cells1[j]?) ∧
    s1.setData ch (some (ChannelData.f32 cells2)) = some s2

/-- Two source buffers hold the same `w` bytes at every frame offset `i * stride`, `i < n`. -/
def AgreeOnFrames (w n stride : Nat) (d1 d2 : Bytes) : Prop :=
  ∀ i, i < n → ∀ j, j < w → ubyteAt d1 (i * stride + j) = ubyteAt d2 (i * stride + j)

/-- A frame conversion reads only the `w` bytes starting at its offset. -/
def ConvLocal {α : Type} (w : Nat) (conv : Bytes → Nat → α) : Prop :=
  ∀ (d1 d2 : Bytes) (off : Nat),
    (∀ j, j < w → ubyteAt d1 (off + j) = ubyteAt d2 (off + j)) → conv d1 off = conv d2 off

/-- Frame-wise behaviour of a loader of frame width `w` with frame conversion `conv`: the
conversion reads only `w` bytes; for every source buffer the call returns `true` and data cell
`i`, for each of the `n` frames, holds the conversion of the bytes at offset `i * stride`; and
two source buffers that agree on those bytes leave the same object. -/
def FrameWise {F α : Type} (cellsOf : Sample F → Option (List (Option α))) (k : Consts)
    (w : Nat) (conv : Bytes → Nat → α) (load : Bytes → Nat → Nat → Option (Bool × Sample F))
    (n stride : Nat) : Prop :=
  ConvLocal w conv ∧
  (∀ d, ∃ s1, load d n stride = some (true, s1) ∧
    (cellsOf s1).map (dataRegion k n) =
      some ((List.range n).map (fun (i : Nat) => some (conv d (i * stride))))) ∧
  (∀ d1 d2, AgreeOnFrames w n stride d1 d2 → load d1 n stride = load d2 n stride)

/-- The pointer `(char *)data + o`. -/
def shiftBytes (data : Bytes) (o : Nat) : Bytes := fun off => data (o + off)

/-- Interleaved little-endian 16-bit stereo: frame `i` has the left value at offsets
`4 * i`, `4 * i + 1` and the right value at `4 * i + 2`, `4 * i + 3`. -/
def encodeStereoI16LE (ls rs : List Int) : Bytes := fun off =>
  if off % 4 = 0 then u16Of (ls.getD (off / 4) 0) % 256
  else if off % 4 = 1 then u16Of (ls.getD (off / 4) 0) / 256
  else if off % 4 = 2 then u16Of (rs.getD (off / 4) 0) % 256
  else u16Of (rs.getD (off / 4) 0) / 256

/-- A source buffer of zero bytes. -/
def zeroBytes : Bytes := fun _ => 0

/-- A source buffer of zero bytes except for byte 8. -/
def spikeBytes : Bytes := fun off => if off = 8 then 1 else 0

/-- A file system with two existing files, `tone.wav` and `TONE.WAV`. -/
def demoFs : FileSystem where
  fsExists := fun p => p == "tone.wav" || p == "TONE.WAV"
  extension := fun p => if p == "tone.wav" then ".wav" else if p == "TONE.WAV" then ".WAV" else ""
  filename := fun p => p
  fileData := fun _ => zeroBytes
  fileDataSize := fun _ => 0

/-- An SF2 sample with 4-byte frames (24- or 32-bit data), one channel. -/
def wideSF2Sample : SF2Sample where
  FrameSize := 4
  ChannelCount := 1
  TotalFrameCount := 100
  SampleRate := 48000
  Name := "Piano C4"
  pStart := zeroBytes
  Size := 400

/-- An SF2 file every region of which refers to `wideSF2Sample`. -/
def wideSF2File : SF2File where
  GetSample := fun _ _ => wideSF2Sample
  GetFileName := "bank.sf2"

/-! ## Sequences of loader calls -/

/-- The ten loaders `Sample::load_data_*`. -/
inductive LoaderKind where
  | ui8 | i8 | i16 | i16BE | i32 | i32BE | i24 | i24BE | f32 | f64

/-- Whether a loader allocates with `allocateI16` (true) or with `allocateF32` (false). -/
def LoaderKind.isInt16 : LoaderKind → Bool
  | .ui8 | .i8 | .i16 | .i16BE => true
  | .i32 | .i32BE | .i24 | .i24BE | .f32 | .f64 => false

/-- One call `load_data_<kind>(channel, data, samplesize, stride)`. -/
structure LoadCall where
  kind : LoaderKind
  channel : Nat
  data : Bytes
  samplesize : Nat
  stride : Nat

/-- Run one loader call on a sample. -/
def runLoad {F : Type} (fo : FloatOps F) (charSigned hostBE : Bool) (k : Consts)
    (mallocOk : Bool) (s : Sample F) (c : LoadCall) : Option (Bool × Sample F) :=
  match c.kind with
  | .ui8 => load_data_ui8 k mallocOk s c.channel c.data c.samplesize c.stride
  | .i8 => load_data_i8 charSigned k mallocOk s c.channel c.data c.samplesize c.stride
  | .i16 => load_data_i16 hostBE k mallocOk s c.channel c.data c.samplesize c.stride
  | .i16BE => load_data_i16BE hostBE k mallocOk s c.channel c.data c.samplesize c.stride
  | .i32 => load_data_i32 fo hostBE k mallocOk s c.channel c.data c.samplesize c.stride
  | .i32BE => load_data_i32BE fo hostBE k mallocOk s c.channel c.data c.samplesize c.stride
  | .i24 => load_data_i24 fo k mallocOk s c.channel c.data c.samplesize c.stride
  | .i24BE => load_data_i24BE fo k mallocOk s c.channel c.data c.samplesize c.stride
  | .f32 => load_data_f32 fo hostBE k mallocOk s c.channel c.data c.samplesize c.stride
  | .f64 => load_data_f64 fo hostBE k mallocOk s c.channel c.data c.samplesize c.stride

/-- Run a sequence of loader calls, one after the other, on the same sample. -/
def runLoads {F : Type} (fo : FloatOps F) (charSigned hostBE : Bool) (k : Consts)
    (mallocOk : Bool) : List LoadCall → Sample F → Option (Sample F)
  | [], s => some s
  | c :: cs, s =>
    (runLoad fo charSigned hostBE k mallocOk s c).bind
      (fun r => runLoads fo charSigned hostBE k mallocOk cs r.2)

/-- Whether a block holds 16-bit integers. -/
def ChannelData.isI16 {F : Type} : ChannelData F → Bool
  | .i16 _ => true
  | .f32 _ => false

/-- Every allocated channel block of the sample holds the encoding `b`. -/
def Sample.BlocksEncoded {F : Type} (s : Sample F) (b : Bool) : Prop :=
  ∀ ch d, s.getData ch = some (some d) → d.isI16 = b

/-- Every allocated channel block holds the encoding that `UseInt16` reports. -/
def Sample.UniformEncoding {F : Type} (s : Sample F) : Prop :=
  s.BlocksEncoded s.UseInt16

/-- A loader call whose behaviour is defined: channel inside the array and a frame count that,
with the margin, fits `int`. -/
def LoadCall.InDomain (k : Consts) (c : LoadCall) : Prop :=
  c.channel < 2 ∧ c.samplesize + k.FIRipol_N < 2147483648

/-- An SF2 sample with 2-byte frames, one channel, two frames at 44100 Hz. -/
def monoSF2Sample : SF2Sample where
  FrameSize := 2
  ChannelCount := 1
  TotalFrameCount := 2
  SampleRate := 44100
  Name := "Snare"
  pStart := rampBytes
  Size := 4

/-- An SF2 file every region of which refers to `monoSF2Sample`. -/
def monoSF2File : SF2File where
  GetSample := fun _ _ => monoSF2Sample
  GetFileName := "kit.sf2"

/-! ## The voice modulation matrix: binding targets (`modulation/voice_matrix.cpp`) -/

/-- The operations on `float` that `voice_matrix.cpp` and the routing filter use beyond those of
`FloatOps`, with the three facts of IEEE arithmetic the statements rely on: `x - 0` is `x`,
`==` on (exactly representable) integers up to `2^24` is equality of the integers, and
`std::numeric_limits<float>::min()` equals itself. -/
structure MatrixFloat (F : Type) extends FloatOps F where
  /-- Subtraction of two floats. -/
  sub : F → F → F
  /-- The operator `==` on floats. -/
  feq : F → F → Bool
  /-- The constant `std::numeric_limits<float>::min()`. -/
  fltMin : F
  sub_zero : ∀ x, sub x (ofInt 0) = x
  feq_ofInt : ∀ a b : Int, -16777216 ≤ a → a ≤ 16777216 → -16777216 ≤ b → b ≤ 16777216 →
    feq (ofInt a) (ofInt b) = decide (a = b)
  feq_fltMin : feq fltMin fltMin = true

/-- Exact rational arithmetic as an instance of `MatrixFloat`. -/
def exactMatrixFloat : MatrixFloat ℚ where
  toFloatOps := exactOps
  sub := fun a b => a - b
  feq := fun a b => decide (a = b)
  fltMin := 1 / 2 ^ 126
  sub_zero := by intro x; simp [exactOps]
  feq_ofInt := by intro a b _ _ _ _; simp [exactOps]
  feq_fltMin := by simp

/-- Constants declared in headers outside `src/`: `scxt::maxProcessorFloatParams`
(`configuration.h`) and the enumerator `dsp::processor::proct_none` (`processor.h`). -/
structure ModConsts where
  maxProcessorFloatParams : Nat
  proct_none : Nat

/-- The value of a four-character literal such as `'proc'`: the characters packed most
significant first, as GCC, Clang and MSVC do (the value is implementation-defined). -/
def multichar (c0 c1 c2 c3 : Char) : Nat :=
  ((c0.toNat * 256 + c1.toNat) * 256 + c2.toNat) * 256 + c3.toNat

/-- `MatrixConfig::TargetIdentifier`: group code, element code and index, each a `uint32_t`. -/
structure TargetIdentifier where
  gid : Nat
  tid : Nat
  index : Nat
deriving DecidableEq

/-- The object a `bindEl` payload argument refers to. -/
inductive PayloadRef where
  | mapping
  | outputInfo
  | processorStorage (index : Nat)
  | modulatorStorage (index : Nat)
  | egStorage (index : Nat)
deriving DecidableEq

/-- The float member a `float &tgs` argument of `bindEl` refers to. -/
inductive FieldRef where
  | pitchOffset
  | amplitude
  | pan
  | zeroBase
  | mix
  | floatParam (i : Nat)
  | named (name : String)
deriving DecidableEq

/-- A reference `float &tgs`: the member it refers to and the value stored there now. -/
structure FloatRef (F : Type) where
  field : FieldRef
  value : F

/-- The part of the parameter metadata that `bindEl` reads. -/
structure ParamMetaData (F : Type) where
  minVal : F
  maxVal : F

/-- One element of `Matrix::routingValuePointers`, with the two members `bindEl` touches:
the pointer `target` (`none` is the null pointer, `some a` the output slot `a`) and
`depthScale`. -/
structure RoutingValuePointers (F : Type) where
  target : Option Nat
  depthScale : F

/-- The members of `Matrix` that `bindEl` reads or writes: the map
`routingTable.targetToOutputIndex`, the array `routingValuePointers`, and the base values
recorded by `bindTargetBaseValue`. -/
structure Matrix (F : Type) where
  targetToOutputIndex : List (TargetIdentifier × Nat)
  routingValuePointers : List (RoutingValuePointers F)
  baseValues : List (TargetIdentifier × FloatRef F)

/-- Modelled from the spec: `Matrix::bindTargetBaseValue` (`voice_matrix.h`, not in `src/`)
"registers a target's underlying storage address and its base value"; it replaces an earlier
registration of the same target and touches neither the routing table nor the routing value
pointers. -/
def Matrix.bindTargetBaseValue {F : Type} (m : Matrix F) (tg : TargetIdentifier)
    (tgs : FloatRef F) : Matrix F :=
  { m with baseValues := (tg, tgs) :: m.baseValues.filter (fun e => decide (e.1 ≠ tg)) }

/-- Modelled from the spec: `Matrix::getTargetValuePointer` (`voice_matrix.h`, not in `src/`)
gives the "direct addressable parameter slot" of a target: the output slot the routing table
assigns to it, or the null pointer when the table has no entry for the target. -/
def Matrix.getTargetValuePointer {F : Type} (m : Matrix F) (tg : TargetIdentifier) :
    Option Nat :=
  m.targetToOutputIndex.lookup tg

/-- The function template `bindEl(m, payload, tg, tgs, p, minVal, maxVal)`: the matrix
afterwards and the pointer stored in `p`. A failed `assert` is `none`. `describeValue`
(`datamodel/metadata.h`, not in `src/`) is a parameter; the call under `BUILD_IS_DEBUG`
discards its result and is left out. -/
def bindEl {F : Type} (fm : MatrixFloat F)
    (describeValue : PayloadRef → FieldRef → ParamMetaData F) (m : Matrix F)
    (payload : PayloadRef) (tg : TargetIdentifier) (tgs : FloatRef F) (minVal maxVal : F) :
    Option (Matrix F × Option Nat) :=
  if tg.gid = 0 then none
  else if tg.tid = 0 then none
  else
    let m1 := m.bindTargetBaseValue tg tgs
    let p := m1.getTargetValuePointer tg
    match m1.targetToOutputIndex.lookup tg with
    | none => some (m1, p)
    | some _ =>
      let rg : F :=
        if fm.feq maxVal minVal then
          let metaData := describeValue payload tgs.field
          fm.sub metaData.maxVal metaData.minVal
        else fm.sub maxVal minVal
      let pt := m1.getTargetValuePointer tg
      some ({ m1 with
        routingValuePointers := m1.routingValuePointers.map
          (fun r => if r.target = pt then { r with depthScale := rg } else r) }, p)

/-- The call `bindEl(m, payload, tg, tgs, p)` with both default arguments,
`std::numeric_limits<float>::min()` for `minVal` and for `maxVal`. -/
def bindElDefault {F : Type} (fm : MatrixFloat F)
    (describeValue : PayloadRef → FieldRef → ParamMetaData F) (m : Matrix F)
    (payload : PayloadRef) (tg : TargetIdentifier) (tgs : FloatRef F) :
    Option (Matrix F × Option Nat) :=
  bindEl fm describeValue m payload tg tgs fm.fltMin fm.fltMin

/-- `FloatControlDescription`: the members `voice_matrix.cpp` reads. -/
structure FloatControlDescription (F : Type) where
  name : String
  minVal : F
  maxVal : F

/-- `ProcessorDescription`: the members `voice_matrix.cpp` reads. -/
structure ProcessorDescription (F : Type) where
  type : Nat
  typeDisplayName : String
  floatControlDescriptions : Nat → FloatControlDescription F

/-- `ProcessorStorage`: the members `voice_matrix.cpp` reads. -/
structure ProcessorStorage (F : Type) where
  mix : F
  floatParams : Nat → F

/-- `Zone::ZoneMappingData`: the float members `MappingTarget::bind` binds. -/
structure ZoneMappingData (F : Type) where
  pitchOffset : F
  amplitude : F
  pan : F

/-- The members of `engine::Zone` that the target binding reads. The arrays are indexed by
functions; indices stay inside the arrays by construction of the endpoints. -/
structure Zone (F : Type) where
  mapping : ZoneMappingData F
  processorStorage : Nat → ProcessorStorage F
  processorDescription : Nat → ProcessorDescription F

/-- `MatrixEndpoints::MappingTarget`: its four target identifiers, the member `zeroBase`, and
the four value pointers that `bind` stores. -/
structure MappingTarget (F : Type) where
  pitchOffsetT : TargetIdentifier
  ampT : TargetIdentifier
  panT : TargetIdentifier
  playbackRatioT : TargetIdentifier
  zeroBase : F
  pitchOffsetP : Option Nat
  ampP : Option Nat
  panP : Option Nat
  playbackRatioP : Option Nat

/-- `MatrixEndpoints::MappingTarget::bind(m, z)`. -/
def MappingTarget.bind {F : Type} (fm : MatrixFloat F)
    (describeValue : PayloadRef → FieldRef → ParamMetaData F) (t : MappingTarget F)
    (m : Matrix F) (z : Zone F) : Option (Matrix F × MappingTarget F) :=
  (bindElDefault fm describeValue m .mapping t.pitchOffsetT
      ⟨.pitchOffset, z.mapping.pitchOffset⟩).bind fun r1 =>
  (bindElDefault fm describeValue r1.1 .mapping t.ampT
      ⟨.amplitude, z.mapping.amplitude⟩).bind fun r2 =>
  (bindElDefault fm describeValue r2.1 .mapping t.panT ⟨.pan, z.mapping.pan⟩).bind fun r3 =>
  (bindEl fm describeValue r3.1 .mapping t.playbackRatioT ⟨.zeroBase, t.zeroBase⟩
      (fm.ofInt 0) (fm.ofInt 2)).map fun r4 =>
  (r4.1, { t with pitchOffsetP := r1.2, ampP := r2.2, panP := r3.2, playbackRatioP := r4.2 })

/-- `MatrixEndpoints::ProcessorTarget`: the slot index, the identifier of the mix target and of
each float parameter, and the value pointers that `bind` stores. -/
structure ProcessorTarget where
  index : Nat
  mixT : TargetIdentifier
  fpT : Nat → TargetIdentifier
  mixP : Option Nat
  floatP : Nat → Option Nat

/-- The element code the constructor gives float parameter `i`:
`'fp  ' + (uint32_t)(i + '0' - ' ')`, computed in `uint32_t`. -/
def fpTid (i : Nat) : Nat :=
  toUInt32 ((multichar 'f' 'p' ' ' ' ' : Int) +
    (toUInt32 ((i : Int) + ('0'.toNat : Int) - (' '.toNat : Int)) : Int))

/-- The identifiers the constructor `ProcessorTarget::ProcessorTarget(e, p)` assigns:
`mixT{'proc', 'mix ', p}` and `fpT[i] = TG{'proc', 'fp  ' + (uint32_t)(i + '0' - ' '), p}`. -/
def ProcessorTarget.create (p : Nat) : ProcessorTarget where
  index := p
  mixT := ⟨multichar 'p' 'r' 'o' 'c', multichar 'm' 'i' 'x' ' ', p⟩
  fpT := fun i => ⟨multichar 'p' 'r' 'o' 'c', fpTid i, p⟩
  mixP := none
  floatP := fun _ => none

/-- One step of the loop of `ProcessorTarget::bind`: the `bindEl` call for float parameter
`i`. -/
def ProcessorTarget.bindFloatParam {F : Type} (fm : MatrixFloat F)
    (describeValue : PayloadRef → FieldRef → ParamMetaData F) (z : Zone F) (i : Nat)
    (st : Matrix F × ProcessorTarget) : Option (Matrix F × ProcessorTarget) :=
  let p := z.processorStorage st.2.index
  let d := z.processorDescription st.2.index
  let fcd := d.floatControlDescriptions i
  (bindEl fm describeValue st.1 (.processorStorage st.2.index) (st.2.fpT i)
      ⟨.floatParam i, p.floatParams i⟩ fcd.minVal fcd.maxVal).map fun r =>
    (r.1, { st.2 with floatP := fun j => if j = i then r.2 else st.2.floatP j })

/-- `MatrixEndpoints::ProcessorTarget::bind(m, z)`. -/
def ProcessorTarget.bind {F : Type} (fm : MatrixFloat F) (mc : ModConsts)
    (describeValue : PayloadRef → FieldRef → ParamMetaData F) (t : ProcessorTarget)
    (m : Matrix F) (z : Zone F) : Option (Matrix F × ProcessorTarget) :=
  let p := z.processorStorage t.index
  (bindEl fm describeValue m (.processorStorage t.index) t.mixT ⟨.mix, p.mix⟩
      (fm.ofInt 0) (fm.ofInt 1)).bind fun r =>
    forLoop (ProcessorTarget.bindFloatParam fm describeValue z) 0 mc.maxProcessorFloatParams
      (r.1, { t with mixP := r.2 })

/-- The depth scales of the routings that point at output slot `pt`. -/
def Matrix.depthScalesAt {F : Type} (m : Matrix F) (pt : Option Nat) : List F :=
  (m.routingValuePointers.filter (fun r => decide (r.target = pt))).map (fun r => r.depthScale)

/-- Parameter metadata that gives every field the range `[0, 1]`. -/
def unitMeta : PayloadRef → FieldRef → ParamMetaData ℚ := fun _ _ => ⟨0, 1⟩

/-- A target identifier used to run `bindEl`: group `'zmap'`, element `'ampl'`, index 0. -/
def demoTarget : TargetIdentifier :=
  ⟨multichar 'z' 'm' 'a' 'p', multichar 'a' 'm' 'p' 'l', 0⟩

/-- A matrix whose routing table gives `demoTarget` output slot 3, with one routing that points
at slot 3 and one that points at slot 5, both with depth scale 7. -/
def demoMatrix : Matrix ℚ where
  targetToOutputIndex := [(demoTarget, 3)]
  routingValuePointers := [⟨some 3, 7⟩, ⟨some 5, 7⟩]
  baseValues := []

/-- A zone whose processors all have the type code 0 and float controls of range `[0, 0]`. -/
def demoZone : Zone ℚ where
  mapping := ⟨0, 1, 0⟩
  processorStorage := fun _ => ⟨1, fun _ => 0⟩
  processorDescription := fun _ => ⟨0, "", fun _ => ⟨"", 0, 0⟩⟩

/-- The header constants used to run the binding: 9 float parameters, `proct_none = 0`. -/
def demoModConsts : ModConsts where
  maxProcessorFloatParams := 9
  proct_none := 0

/-! ## The voice modulation matrix: metadata enumeration (`getVoiceMatrixMetadata`) -/

/-- Lexicographic `<` on character sequences, characters compared by code. -/
def charsLt : List Char → List Char → Bool
  | _, [] => false
  | [], _ :: _ => true
  | a :: as, b :: bs =>
    if a.toNat < b.toNat then true
    else if a.toNat = b.toNat then charsLt as bs
    else false

/-- The operator `<` on `std::string`. -/
def stringLt (a b : String) : Bool := charsLt a.toList b.toList

/-- `MatrixConfig::SourceIdentifier`: group code, element code and index. -/
structure SourceIdentifier where
  gid : Nat
  tid : Nat
  index : Nat
deriving DecidableEq

/-- `identifierDisplayName_t`: the display path (`first`) and the display name (`second`). -/
abbrev identifierDisplayName_t := String × String

/-- The lambda `identCmp` of `getVoiceMatrixMetadata`, on entries (identifier, display name),
`hash` being `std::hash` of the identifier type. -/
def identCmp {I : Type} (hash : I → Nat) (a b : I × identifierDisplayName_t) : Bool :=
  let ida := a.2
  let idb := b.2
  if ida.1 = idb.1 then
    if ida.2 = idb.2 then decide (hash a.1 < hash b.1)
    else stringLt ida.2 idb.2
  else stringLt ida.1 idb.1

/-- The lambda `tgtCmp` of `getVoiceMatrixMetadata`. -/
def tgtCmp (hash : TargetIdentifier → Nat)
    (a b : TargetIdentifier × identifierDisplayName_t) : Bool :=
  let ta := a.1
  let tb := b.1
  if ta.gid = multichar 'p' 'r' 'o' 'c' ∧ tb.gid = ta.gid ∧ tb.index = ta.index then
    decide (ta.tid < tb.tid)
  else identCmp hash a b

/-- Whether `lt` is a strict weak ordering on the elements of `l`: irreflexive, transitive, and
with transitive incomparability. -/
def strictWeakOn {α : Type} (lt : α → α → Bool) (l : List α) : Bool :=
  l.all (fun a => !lt a a) &&
  l.all (fun a => l.all (fun b => l.all (fun c => !(lt a b && lt b c) || lt a c))) &&
  l.all (fun a => l.all (fun b => l.all (fun c =>
    !(!lt a b && !lt b a && !lt b c && !lt c b) || (!lt a c && !lt c a))))

/-- Insert `x` before the first element of `l` that is greater than `x`. -/
def orderedInsertBy {α : Type} (lt : α → α → Bool) (x : α) : List α → List α
  | [] => [x]
  | y :: ys => if lt x y then x :: y :: ys else y :: orderedInsertBy lt x ys

/-- Insertion sort by the comparison `lt`. -/
def insertionSortBy {α : Type} (lt : α → α → Bool) : List α → List α
  | [] => []
  | x :: xs => orderedInsertBy lt x (insertionSortBy lt xs)

/-- The call `std::sort(first, last, comp)` of the C++ standard library. Its behaviour is
undefined unless `comp` is a strict weak ordering on the elements (`none`); otherwise it leaves
the elements sorted by `comp`. The order it gives to equivalent elements is unspecified; here
it is the one of insertion sort. -/
def stdSort {α : Type} (lt : α → α → Bool) (l : List α) : Option (List α) :=
  if strictWeakOn lt l then some (insertionSortBy lt l) else none

/-- A function that gives, for a zone and an identifier, part of a display name. -/
abbrev DisplayFn (Z I : Type) := Z → I → String

/-- The members of `engine::Engine` that `getVoiceMatrixMetadata` reads: the registered
voice-modulation targets and sources, each with its path function and its name function. The
maps are given as the lists of their entries, in iteration order. -/
structure Engine (Z : Type) where
  voiceModTargets : List (TargetIdentifier × DisplayFn Z TargetIdentifier ×
    DisplayFn Z TargetIdentifier)
  voiceModSources : List (SourceIdentifier × DisplayFn Z SourceIdentifier ×
    DisplayFn Z SourceIdentifier)

/-- `scxt::modulation::ModulationCurves` (not in `src/`): the array `allCurves` and the map
`curveNames`, curves being the values of an enumeration. -/
structure ModulationCurves where
  allCurves : List Nat
  curveNames : List (Nat × String)

/-- `voiceMatrixMetadata_t`: the flag, the sources, the targets and the curves. -/
structure voiceMatrixMetadata_t where
  flag : Bool
  sources : List (SourceIdentifier × identifierDisplayName_t)
  targets : List (TargetIdentifier × identifierDisplayName_t)
  curves : List (Nat × identifierDisplayName_t)

/-- The last loop of `getVoiceMatrixMetadata`: one entry per curve of `allCurves`, with an empty
path and the name found in `curveNames`; `none` when the assertion that the name is found
fails. -/
def curveEntries (mcv : ModulationCurves) : List Nat → Option (List (Nat × identifierDisplayName_t))
  | [] => some []
  | c :: cs =>
    match mcv.curveNames.lookup c with
    | none => none
    | some n => (curveEntries mcv cs).map (fun rest => (c, ("", n)) :: rest)

/-- The entries (identifier, display name) built from a list of registrations for the zone. -/
def namedEntries {Z I : Type} (z : Z) (regs : List (I × DisplayFn Z I × DisplayFn Z I)) :
    List (I × identifierDisplayName_t) :=
  regs.map (fun r => (r.1, (r.2.1 z r.1, r.2.2 z r.1)))

/-- `getVoiceMatrixMetadata(z)`, with `e = z.getEngine()`, the two `std::hash` specialisations
and the curve tables as parameters. -/
def getVoiceMatrixMetadata {Z : Type} (hashT : TargetIdentifier → Nat)
    (hashS : SourceIdentifier → Nat) (mcv : ModulationCurves) (e : Engine Z) (z : Z) :
    Option voiceMatrixMetadata_t :=
  (stdSort (tgtCmp hashT) (namedEntries z e.voiceModTargets)).bind fun tg =>
  (stdSort (identCmp hashS) (namedEntries z e.voiceModSources)).bind fun sr =>
  (curveEntries mcv mcv.allCurves).map fun cr =>
    { flag := true, sources := sr, targets := tg, curves := cr }

/-- The lambda `ptFn` of the `ProcessorTarget` constructor. -/
def ptFn {F : Type} (mc : ModConsts) : DisplayFn (Zone F) TargetIdentifier := fun z t =>
  let d := z.processorDescription t.index
  if d.type = mc.proct_none then ""
  else "P" ++ toString (toUInt32 ((t.index : Int) + 1)) ++ " " ++ d.typeDisplayName

/-- The lambda `mixFn` of the `ProcessorTarget` constructor. -/
def mixFn {F : Type} (mc : ModConsts) : DisplayFn (Zone F) TargetIdentifier := fun z t =>
  let d := z.processorDescription t.index
  if d.type = mc.proct_none then "" else "mix"

/-- The lambda `elFn` of the `ProcessorTarget` constructor, for float parameter `icopy`. -/
def elFn {F : Type} (mc : ModConsts) (icopy : Nat) : DisplayFn (Zone F) TargetIdentifier :=
  fun z t =>
    let d := z.processorDescription t.index
    if d.type = mc.proct_none then "" else (d.floatControlDescriptions icopy).name

/-- The calls `registerVoiceModTarget` of the constructor `ProcessorTarget::ProcessorTarget(e, p)`
for a non-null engine, in order: the mix target, then every float parameter. -/
def ProcessorTarget.registrations {F : Type} (mc : ModConsts) (p : Nat) :
    List (TargetIdentifier × DisplayFn (Zone F) TargetIdentifier ×
      DisplayFn (Zone F) TargetIdentifier) :=
  ((ProcessorTarget.create p).mixT, ptFn mc, mixFn mc) ::
    (List.range mc.maxProcessorFloatParams).map
      (fun i => ((ProcessorTarget.create p).fpT i, ptFn mc, elFn mc i))

/-- Whether a target belongs to processor slot `p`: group `'proc'` and index `p`. -/
def inProcSlot (p : Nat) (a : TargetIdentifier × identifierDisplayName_t) : Prop :=
  a.1.gid = multichar 'p' 'r' 'o' 'c' ∧ a.1.index = p

instance (p : Nat) (a : TargetIdentifier × identifierDisplayName_t) :
    Decidable (inProcSlot p a) :=
  inferInstanceAs (Decidable (_ ∧ _))

/-- The targets of processor slot `p` are contiguous in the list: whatever lies between two of
them is one of them. -/
def SlotContiguous (p : Nat) (l : List (TargetIdentifier × identifierDisplayName_t)) : Prop :=
  ∀ (i j k : Nat) a b c, i < k → k < j → l[i]? = some a → l[j]? = some b → l[k]? = some c →
    inProcSlot p a → inProcSlot p b → inProcSlot p c

/-- The targets of processor slot `p` appear in increasing order of element code. -/
def SlotOrdered (p : Nat) (l : List (TargetIdentifier × identifierDisplayName_t)) : Prop :=
  ∀ (i j : Nat) a b, i < j → l[i]? = some a → l[j]? = some b → inProcSlot p a → inProcSlot p b →
    a.1.tid < b.1.tid

/-- The engine after the constructors of the processor targets of slots 0 and 1 ran: their
registrations and no source. -/
def twoSlotEngine (mc : ModConsts) : Engine (Zone ℚ) where
  voiceModTargets := ProcessorTarget.registrations mc 0 ++ ProcessorTarget.registrations mc 1
  voiceModSources := []

/-- A hash of target identifiers used to run the enumeration: `2 * tid + index`. -/
def demoTargetHash (t : TargetIdentifier) : Nat := 2 * t.tid + t.index

/-- A hash of source identifiers used to run the enumeration: `tid`. -/
def demoSourceHash (s : SourceIdentifier) : Nat := s.tid

/-- Curve tables with two curves, named `"a"` and `"b"`. -/
def demoCurves : ModulationCurves where
  allCurves := [0, 1]
  curveNames := [(0, "a"), (1, "b")]

/-- A zone whose processors all have the type code 1, the type name `"F"` and float controls
named `"c"`. -/
def filterZone : Zone ℚ where
  mapping := ⟨0, 1, 0⟩
  processorStorage := fun _ => ⟨1, fun _ => 0⟩
  processorDescription := fun _ => ⟨1, "F", fun _ => ⟨"c", 0, 1⟩⟩

/-- Header constants with two float parameters per processor and `proct_none = 0`. -/
def smallModConsts : ModConsts where
  maxProcessorFloatParams := 2
  proct_none := 0

/-- Entry `a` does not come after entry `b` in the order of display path, then display name,
then hash of the identifier. -/
def DisplayLe {I : Type} (hash : I → Nat) (a b : I × identifierDisplayName_t) : Prop :=
  stringLt b.2.1 a.2.1 = false ∧
  (a.2.1 = b.2.1 → stringLt b.2.2 a.2.2 = false) ∧
  (a.2.1 = b.2.1 → a.2.2 = b.2.2 → hash a.1 ≤ hash b.1)

/-- A list of entries is in the order of display path, then display name, then hash. -/
def DisplaySorted {I : Type} (hash : I → Nat) (l : List (I × identifierDisplayName_t)) : Prop :=
  ∀ (i j : Nat) a b, i < j → l[i]? = some a → l[j]? = some b → DisplayLe hash a b

/-- Two targets are in the same processor slot: group `'proc'` on both and the same index. -/
def SameProcSlot (a b : TargetIdentifier × identifierDisplayName_t) : Prop :=
  a.1.gid = multichar 'p' 'r' 'o' 'c' ∧ b.1.gid = multichar 'p' 'r' 'o' 'c' ∧
    a.1.index = b.1.index

/-- An engine with two targets and two sources, none of group `'proc'`: in each pair the entry
with group code 1 has the path `"B"` and the entry with group code 2 has the path `"A"`. -/
def swappedEngine : Engine Unit where
  voiceModTargets := [(⟨1, 7, 0⟩, fun _ _ => "B", fun _ _ => "x"),
                      (⟨2, 7, 0⟩, fun _ _ => "A", fun _ _ => "x")]
  voiceModSources := [(⟨1, 7, 0⟩, fun _ _ => "B", fun _ _ => "x"),
                      (⟨2, 7, 0⟩, fun _ _ => "A", fun _ _ => "x")]

/-! ## Streaming the routing table of a zone (`json/engine_traits.h`) -/

/-- `VoiceModMatrix::Routing` (declared outside `src/`): the members that the streaming of a zone
reads. `S`, `D` and `C` are the types of the source, of the target and of the curve. -/
structure Routing (S D C F : Type) where
  active : Bool
  src : S
  dst : D
  curve : C
  depth : F

/-- The sentinels `scxt::modulation::vms_none`, `vmd_none` and `vmc_none` (declared outside
`src/`). -/
structure NoneSentinels (S D C : Type) where
  vms_none : S
  vmd_none : D
  vmc_none : C

/-- The predicate that `scxt_traits<Zone>::assign` passes to `toIndexedArrayIf`:
`r.dst != vmd_none || r.src != vms_none || r.depth != 0 || !r.active || r.curve != vmc_none`. -/
def routingPredicate {S D C F : Type} [DecidableEq S] [DecidableEq D] [DecidableEq C]
    (fm : MatrixFloat F) (nn : NoneSentinels S D C) (r : Routing S D C F) : Bool :=
  decide (r.dst ≠ nn.vmd_none) || decide (r.src ≠ nn.vms_none) ||
    !(fm.feq r.depth (fm.ofInt 0)) || !r.active || decide (r.curve ≠ nn.vmc_none)

/-- Modelled from the spec: the helper `toIndexedArrayIf` (declared outside `src/`). The
persisted array holds the entries of the table that pass the filter, each with its index in the
table (the table is restored by index). -/
def toIndexedArrayIf {α : Type} (table : List α) (pred : α → Bool) : List (Nat × α) :=
  table.enum.filter (fun x => pred x.2)

/-- The value that `scxt_traits<Zone>::assign` stores under the key `"routingTable"`, for a
zone with the routing table `table`. -/
def assignRoutingTable {S D C F : Type} [DecidableEq S] [DecidableEq D] [DecidableEq C]
    (fm : MatrixFloat F) (nn : NoneSentinels S D C) (table : List (Routing S D C F)) :
    List (Nat × Routing S D C F) :=
  toIndexedArrayIf table (routingPredicate fm nn)

/-- Sentinels used to run the filter: the code 0 for each of the three. -/
def demoSentinels : NoneSentinels Nat Nat Nat := ⟨0, 0, 0⟩

/-- A routing table with four entries: an inactive entry from source 1 to target 2 with depth
1; an active entry from source 1 to target 2 with depth 0; an active entry with depth 1 whose
source and target are both the sentinel; and an active entry with depth 0, no curve, and the
sentinel on both ends. -/
def demoRoutingTable : List (Routing Nat Nat Nat ℚ) :=
  [⟨false, 1, 2, 0, 1⟩, ⟨true, 1, 2, 0, 0⟩, ⟨true, 0, 0, 0, 1⟩, ⟨true, 0, 0, 0, 0⟩]

/-- Modelled from the spec: the default-constructed `VoiceModMatrix::Routing` (declared outside
`src/`): source none, target none, depth 0, active, curve none. -/
def defaultRouting {S D C F : Type} (fm : MatrixFloat F) (nn : NoneSentinels S D C) :
    Routing S D C F :=
  ⟨true, nn.vms_none, nn.vmd_none, nn.vmc_none, fm.ofInt 0⟩

/-- Modelled from the spec: the helper `fromIndexedArray` (declared outside `src/`). The table
is "restored by index": every persisted entry is written to the slot of its index, the other
slots are left as they are. -/
def fromIndexedArray {α : Type} (arr : List (Nat × α)) (table : List α) : List α :=
  arr.foldl (fun t x => t.set x.1 x.2) table

/-- The routing-table part of `scxt_traits<Zone>::to`: `std::fill` of the zone's table with
`Routing()`, then `fromIndexedArray` of the document's `"routingTable"` array. -/
def toRoutingTable {S D C F : Type} (fm : MatrixFloat F) (nn : NoneSentinels S D C)
    (arr : List (Nat × Routing S D C F)) (table : List (Routing S D C F)) :
    List (Routing S D C F) :=
  fromIndexedArray arr (table.map (fun _ => defaultRouting fm nn))

/-! ## Binding the targets of a processor slot, whatever its type -/

/-- The zone `z` with the type and the type name of every processor slot replaced, the storage
and the float control descriptions being kept. -/
def Zone.withProcessorTypes {F : Type} (z : Zone F) (ty : Nat → Nat) (nm : Nat → String) :
    Zone F :=
  { z with processorDescription := fun q =>
      { z.processorDescription q with type := ty q, typeDisplayName := nm q } }

/-- The targets that have a base value bound in the matrix. -/
def Matrix.boundTargets {F : Type} (m : Matrix F) : List TargetIdentifier :=
  m.baseValues.map (fun x => x.1)

/-- A matrix whose routing table gives the mix target of processor slot 0 the output slot 3,
with one routing that points at slot 3 with depth scale 7, and no base value bound. -/
def procMatrix : Matrix ℚ where
  targetToOutputIndex := [((ProcessorTarget.create 0).mixT, 3)]
  routingValuePointers := [⟨some 3, 7⟩]
  baseValues := []

/-! ## The processor registry (`dsp/processor/processor_defs.h`) -/

/-- An implementation type after alias resolution: the effect template (inside
`sst::voice_effects`), the argument `N` of its `SCXTVFXConfig<N>`, and the template arguments
that follow the configuration. -/
structure ImplType where
  tmpl : String
  config : Nat
  extra : List Nat
deriving DecidableEq

/-- An implementation argument of `DEFINE_PROC` as it is written: a template instantiated with
`SCXTVFXConfig<config>`, or one of the aliases of `procimpl::detail`. -/
inductive ImplArg where
  | direct (tmpl : String) (config : Nat)
  | named (name : String)
deriving DecidableEq

/-- One `DEFINE_PROC` invocation: the class name, the two implementation arguments, the type
id (an enumerator of `ProcessorType`, declared outside `src/`, given by its name), the display
name, the display group, the streaming name, and the optional trailing argument. -/
structure ProcRegistration where
  procClass : String
  baseImpl : ImplArg
  osImpl : ImplArg
  typeId : String
  name : String
  displayGroup : String
  streamingName : String
  extraArg : Option String
deriving DecidableEq

/-- The `using` declarations of `procimpl::detail`. -/
def procimplAliases : List (String × ImplType) :=
  [("eq1impl", ⟨"eq::EqNBandParametric", 1, [1]⟩),
   ("eq2impl", ⟨"eq::EqNBandParametric", 1, [2]⟩),
   ("eq3impl", ⟨"eq::EqNBandParametric", 1, [3]⟩),
   ("eq1impl_os", ⟨"eq::EqNBandParametric", 2, [1]⟩),
   ("eq2impl_os", ⟨"eq::EqNBandParametric", 2, [2]⟩),
   ("eq3impl_os", ⟨"eq::EqNBandParametric", 2, [3]⟩)]

/-- The type an implementation argument names; `none` for an alias that is not declared. -/
def resolveImpl : ImplArg → Option ImplType
  | .direct t c => some ⟨t, c, []⟩
  | .named n => procimplAliases.lookup n

/-- The `DEFINE_PROC` invocations of `processor_defs.h`, in order. -/
def procRegistrations : List ProcRegistration :=
  [⟨"MicroGate", .direct "distortion::MicroGate" 1, .direct "distortion::MicroGate" 2,
    "proct_fx_microgate", "MicroGate", "Distortion", "micro-gate-fx", none⟩,
   ⟨"BitCrusher", .direct "distortion::BitCrusher" 1, .direct "distortion::BitCrusher" 2,
    "proct_fx_bitcrusher", "BitCrusher", "Distortion", "bit-crusher-fx", none⟩,
   ⟨"WaveShaper", .direct "waveshaper::WaveShaper" 1, .direct "waveshaper::WaveShaper" 2,
    "proct_fx_waveshaper", "WaveShaper", "Distortion", "waveshaper-fx", none⟩,
   ⟨"Slewer", .direct "distortion::Slewer" 1, .direct "distortion::Slewer" 2,
    "proct_fx_slewer", "Slewer", "Distortion", "slewer-fx", none⟩,
   ⟨"EQ1Band", .named "eq1impl", .named "eq1impl_os",
    "proct_eq_1band_parametric_A", "1 Band Parametric", "EQ", "eq-parm-1band", none⟩,
   ⟨"EQ2Band", .named "eq2impl", .named "eq2impl_os",
    "proct_eq_2band_parametric_A", "2 Band Parametric", "EQ", "eq-parm-2band", none⟩,
   ⟨"EQ3Band", .named "eq3impl", .named "eq3impl_os",
    "proct_eq_3band_parametric_A", "3 Band Parametric", "EQ", "eq-parm-3band", none⟩,
   ⟨"EQGraphic6Band", .direct "eq::EqGraphic6Band" 1, .direct "eq::EqGraphic6Band" 2,
    "proct_eq_6band", "6 Band Graphic", "EQ", "eq-grp-6", none⟩,
   ⟨"MorphEQ", .direct "eq::MorphEQ" 1, .direct "eq::MorphEQ" 2,
    "proct_eq_morph", "Morph", "EQ", "eq-morph", none⟩,
   ⟨"GenSin", .direct "generator::GenSin" 1, .direct "generator::GenSin" 2,
    "proct_osc_sin", "Sin", "Generators", "osc-sin", none⟩,
   ⟨"GenSaw", .direct "generator::GenSaw" 1, .direct "generator::GenSaw" 2,
    "proct_osc_saw", "Saw", "Generators", "osc-saw", none⟩,
   ⟨"GenPulseSync", .direct "generator::GenPulseSync" 1, .direct "generator::GenPulseSync" 2,
    "proct_osc_pulse_sync", "Pulse Sync", "Generators", "osc-pulse-sync", some "dsp::sincTable"⟩,
   ⟨"GenPhaseMod", .direct "generator::GenPhaseMod" 1, .direct "generator::GenPhaseMod" 2,
    "proct_osc_phasemod", "Phase Mod", "Generators", "osc-phase-mod", none⟩,
   ⟨"GenCorrelatedNoise", .direct "generator::GenCorrelatedNoise" 1, .direct "generator::GenCorrelatedNoise" 2,
    "proct_osc_correlatednoise", "Correlated Noise", "Generators", "osc-correlated-noise", none⟩,
   ⟨"PitchRing", .direct "pitch::PitchRing" 1, .direct "pitch::PitchRing" 2,
    "proct_fx_pitchring", "PitchRing", "Pitch and Frequency", "pitchring-fx", none⟩,
   ⟨"FauxStereo", .direct "delay::FauxStereo" 1, .direct "delay::FauxStereo" 2,
    "proct_fx_fauxstereo", "Faux Stereo", "Delay Based", "fxstereo-fx", some "dsp::surgeSincTable"⟩,
   ⟨"ShortDelay", .direct "delay::ShortDelay" 1, .direct "delay::ShortDelay" 2,
    "proct_fx_simple_delay", "Simple Delay", "Delay Based", "simpdel-fx", some "dsp::surgeSincTable"⟩,
   ⟨"StringExciter", .direct "delay::StringExciter" 1, .direct "delay::StringExciter" 2,
    "proct_StringExciter", "String Exciter", "Delay Based", "stringex-fx", some "dsp::surgeSincTable"⟩,
   ⟨"CytomicSVF", .direct "filter::CytomicSVF" 1, .direct "filter::CytomicSVF" 2,
    "proct_CytomicSVF", "Fast SVF", "Filters", "filt-cytomic", none⟩,
   ⟨"StaticPhaser", .direct "filter::StaticPhaser" 1, .direct "filter::StaticPhaser" 2,
    "proct_StaticPhaser", "Static Phaser", "Filters", "filt-statph", none⟩,
   ⟨"SurgeBiquads", .direct "filter::SurgeBiquads" 1, .direct "filter::SurgeBiquads" 2,
    "proct_SurgeBiquads", "Surge Biquads", "Filters", "filt-sstbiquad", none⟩,
   ⟨"SSTFilters", .direct "filter::SSTFilters" 1, .direct "filter::SSTFilters" 2,
    "proct_SurgeFilters", "Surge Filters", "Filters", "filt-sstfilters", none⟩]

/-- Whether a registration pairs a base variant with an oversampled variant of the same effect
template: the first implementation has `SCXTVFXConfig<1>`, the second `SCXTVFXConfig<2>`, and
template and further arguments agree. -/
def ProcRegistration.pairsVariants (r : ProcRegistration) : Bool :=
  match resolveImpl r.baseImpl, resolveImpl r.osImpl with
  | some b, some o =>
    decide (b.config = 1) && decide (o.config = 2) && decide (b.tmpl = o.tmpl) &&
      decide (b.extra = o.extra)
  | _, _ => false

/-! ## Part effects (`engine/part_effects.h`, `engine/part_effects.cpp`) -/

/-- `PartEffectStorage::maxPartEffectParams`. -/
def maxPartEffectParams : Nat := 12

/-- `PartEffectStorage`: the array `params`, as the list of its `maxPartEffectParams`
elements. -/
structure PartEffectStorage (F : Type) where
  params : List F

/-- What `paramAt(i)` of an effect returns (the type is declared outside `src/`): the member
`defaultVal` that `init` reads. -/
structure EffectParam (F : Type) where
  defaultVal : F

/-- The members of an effect class `T` (for instance `sst::effects::Reverb1<Config>`, declared
outside `src/`) that `Impl<T>` uses: `numParams`, `paramAt`, and `initialize`, which acts on
the state `St` of the effect and on the values. -/
structure EffectClass (F St : Type) where
  numParams : Int
  paramAt : Nat → EffectParam F
  initializeEffect : St × List F → St × List F

/-- The assignment `values[i] = v`; `none` when `i` is outside the array. -/
def storeValue {F : Type} (values : List F) (i : Nat) (v : F) : Option (List F) :=
  if i < values.length then some (values.set i v) else none

/-- The loop of `Impl<T>::init`, from counter `i`:
`for (; i < T::numParams && i < maxPartEffectParams; ++i) values[i] = paramAt(i).defaultVal`.
`fuel` bounds the number of condition tests; `none` when it runs out or a store is outside the
array. -/
def Impl.initLoop {F St : Type} (T : EffectClass F St) : Nat → Nat → List F → Option (List F)
  | 0, _, _ => none
  | fuel + 1, i, values =>
    if (i : Int) < T.numParams ∧ i < maxPartEffectParams then
      (storeValue values i (T.paramAt i).defaultVal).bind (Impl.initLoop T fuel (i + 1))
    else some values

/-- `Impl<T>::init()`: the loop, then `T::initialize()`. The condition is tested at most
`maxPartEffectParams + 1` times. -/
def Impl.init {F St : Type} (T : EffectClass F St) (st : St) (values : List F) :
    Option (St × List F) :=
  (Impl.initLoop T (maxPartEffectParams + 1) 0 values).map (fun v => T.initializeEffect (st, v))

/-- The enumeration `AvailablePartEffects`. -/
inductive AvailablePartEffects where
  | reverb1
  | flanger
deriving DecidableEq

/-- The object a non-null result of `createEffect` points to: which effect class `Impl` wraps,
and the three constructor arguments (the engine, the storage, and the values pointer, given by
the storage whose `params` it points at). -/
structure EffectImpl (E P : Type) where
  effect : String
  engine : E
  pes : P
  values : P
deriving DecidableEq

/-- `createEffect(p, e, s)`; `none` is the null pointer. The engine and the storage are
identified by values of `E` and `P`. -/
def createEffect {E P : Type} (p : AvailablePartEffects) (e : E) (s : P) :
    Option (EffectImpl E P) :=
  match p with
  | .reverb1 => some ⟨"sst::effects::Reverb1<dtl::Config>", e, s, s⟩
  | .flanger => none

/-- `dtl::EngineBiquadAdapter::sampleRateInv(e)`, with the engine's `getSampleRateInv`
(`engine.h`, not in `src/`) as a parameter. -/
def EngineBiquadAdapter.sampleRateInv {E F : Type} (getSampleRateInv : E → F) (e : E) : F :=
  getSampleRateInv e

/-- `dtl::Config::sampleRate(s)`. -/
def Config.sampleRate {E F : Type} (fo : FloatOps F) (_s : E) : F := fo.ofInt 48000

/-- An effect class with three parameters whose defaults are 10, 20, 30 and whose `initialize`
does nothing. -/
def demoEffect : EffectClass ℚ Unit where
  numParams := 3
  paramAt := fun i => ⟨10 * ((i : ℚ) + 1)⟩
  initializeEffect := fun x => x

/-! ## Streaming an `AssociatedSample` (`engine/zone.h`, `json/engine_traits.h`) -/

/-- `Zone::PlayMode`. -/
inductive PlayMode where
  | NORMAL
  | ONE_SHOT
  | ON_RELEASE
deriving DecidableEq

/-- `Zone::LoopMode`. -/
inductive LoopMode where
  | LOOP_DURING_VOICE
  | LOOP_WHILE_GATED
  | LOOP_FOR_COUNT
deriving DecidableEq

/-- `Zone::LoopDirection`. -/
inductive LoopDirection where
  | FORWARD_ONLY
  | ALTERNATE_DIRECTIONS
deriving DecidableEq

/-- `Zone::AssociatedSample`, `ID` being the type `SampleID` (declared outside `src/`). The
members of type `int64_t` and `int` hold integers of their range. -/
structure AssociatedSample (ID : Type) where
  active : Bool
  sampleID : ID
  startSample : Int
  endSample : Int
  startLoop : Int
  endLoop : Int
  playMode : PlayMode
  loopActive : Bool
  playReverse : Bool
  loopMode : LoopMode
  loopDirection : LoopDirection
  loopCountWhenCounted : Int
  loopFade : Int
deriving DecidableEq

/-- A default-constructed `AssociatedSample`: the default member initialisers of `zone.h`, and
the default-constructed `SampleID` given as `sid`. -/
def AssociatedSample.create {ID : Type} (sid : ID) : AssociatedSample ID where
  active := false
  sampleID := sid
  startSample := -1
  endSample := -1
  startLoop := -1
  endLoop := -1
  playMode := .NORMAL
  loopActive := false
  playReverse := false
  loopMode := .LOOP_DURING_VOICE
  loopDirection := .FORWARD_ONLY
  loopCountWhenCounted := 0
  loopFade := 0

/-- The JSON traits of a type `T` (declared outside `src/`, for the enumerations by
`STREAM_ENUM`): how a value is turned into a JSON value, and how a JSON value is read back,
`none` when the reading throws. -/
structure JsonTraits (V T : Type) where
  toValue : T → V
  ofValue : V → Option T

/-- The traits of the member types of `AssociatedSample`. -/
structure SampleTraits (V ID : Type) where
  bool : JsonTraits V Bool
  int64 : JsonTraits V Int
  int : JsonTraits V Int
  sampleID : JsonTraits V ID
  playMode : JsonTraits V PlayMode
  loopMode : JsonTraits V LoopMode
  loopDirection : JsonTraits V LoopDirection

/-- Reading back what was written gives the value written. -/
def JsonTraits.Lossless {V T : Type} (tr : JsonTraits V T) : Prop :=
  ∀ x, tr.ofValue (tr.toValue x) = some x

/-- Every member type is read back as it was written. -/
def SampleTraits.Lossless {V ID : Type} (st : SampleTraits V ID) : Prop :=
  st.bool.Lossless ∧ st.int64.Lossless ∧ st.int.Lossless ∧ st.sampleID.Lossless ∧
    st.playMode.Lossless ∧ st.loopMode.Lossless ∧ st.loopDirection.Lossless

/-- A JSON object: its members, key and value. -/
abbrev Document (V : Type) := List (String × V)

/-- Modelled from the spec: the helper `findIf(v, key, r)` (declared outside `src/`): when the
document has the key, `r` becomes the value stored there; otherwise `r` is left as it is. -/
def findIf {V T : Type} (tr : JsonTraits V T) (v : Document V) (key : String) (r : T) :
    Option T :=
  match v.lookup key with
  | some x => tr.ofValue x
  | none => some r

/-- Modelled from the spec: the helper `findOrSet(v, key, d, r)` (declared outside `src/`):
when the document has the key, `r` becomes the value stored there; otherwise `r` becomes the
default `d`. -/
def findOrSet {V T : Type} (tr : JsonTraits V T) (v : Document V) (key : String) (d : T) :
    Option T :=
  match v.lookup key with
  | some x => tr.ofValue x
  | none => some d

/-- `scxt_traits<Zone::AssociatedSample>::assign(v, s)`: the document it stores in `v`. -/
def AssociatedSample.assign {V ID : Type} (st : SampleTraits V ID) (s : AssociatedSample ID) :
    Document V :=
  [("active", st.bool.toValue s.active),
   ("id", st.sampleID.toValue s.sampleID),
   ("startSample", st.int64.toValue s.startSample),
   ("endSample", st.int64.toValue s.endSample),
   ("startLoop", st.int64.toValue s.startLoop),
   ("endLoop", st.int64.toValue s.endLoop),
   ("playMode", st.playMode.toValue s.playMode),
   ("loopActive", st.bool.toValue s.loopActive),
   ("playReverse", st.bool.toValue s.playReverse),
   ("loopMode", st.loopMode.toValue s.loopMode),
   ("loopDirection", st.loopDirection.toValue s.loopDirection),
   ("loopCountWhenCounted", st.int.toValue s.loopCountWhenCounted),
   ("loopFade", st.int64.toValue s.loopFade)]

/-- `scxt_traits<Zone::AssociatedSample>::to(v, s)`: the value of `s` afterwards, `none` when a
reading throws. -/
def AssociatedSample.to {V ID : Type} (st : SampleTraits V ID) (v : Document V)
    (s : AssociatedSample ID) : Option (AssociatedSample ID) :=
  (findOrSet st.bool v "active" false).bind fun active =>
  (findIf st.sampleID v "id" s.sampleID).bind fun sampleID =>
  (findOrSet st.int64 v "startSample" (-1)).bind fun startSample =>
  (findOrSet st.int64 v "endSample" (-1)).bind fun endSample =>
  (findOrSet st.int64 v "startLoop" (-1)).bind fun startLoop =>
  (findOrSet st.int64 v "endLoop" (-1)).bind fun endLoop =>
  (findOrSet st.playMode v "playMode" PlayMode.NORMAL).bind fun playMode =>
  (findOrSet st.bool v "loopActive" false).bind fun loopActive =>
  (findOrSet st.bool v "playReverse" false).bind fun playReverse =>
  (findOrSet st.loopMode v "loopMode" LoopMode.LOOP_DURING_VOICE).bind fun loopMode =>
  (findOrSet st.loopDirection v "loopDirection" LoopDirection.FORWARD_ONLY).bind
    fun loopDirection =>
  (findOrSet st.int64 v "loopFade" 0).bind fun loopFade =>
  (findOrSet st.int v "loopCountWhenCounted" 0).map fun loopCountWhenCounted =>
    { active := active, sampleID := sampleID, startSample := startSample,
      endSample := endSample, startLoop := startLoop, endLoop := endLoop,
      playMode := playMode, loopActive := loopActive, playReverse := playReverse,
      loopMode := loopMode, loopDirection := loopDirection,
      loopCountWhenCounted := loopCountWhenCounted, loopFade := loopFade }

/-- The loop invariant of the spec: with `loopActive`,
`startSample ≤ startLoop ≤ endLoop ≤ endSample`. -/
def LoopInvariant {ID : Type} (s : AssociatedSample ID) : Prop :=
  s.loopActive = true →
    s.startSample ≤ s.startLoop ∧ s.startLoop ≤ s.endLoop ∧ s.endLoop ≤ s.endSample

/-- A small JSON value type used to run the streaming: booleans, integers and strings. -/
inductive JValue where
  | boolean (b : Bool)
  | integer (i : Int)
  | str (s : String)
deriving DecidableEq

/-- Traits over `JValue`: booleans and integers as themselves, a sample id as an integer, the
enumerations as the names of their enumerators. -/
def demoSampleTraits : SampleTraits JValue Int where
  bool := ⟨.boolean, fun v => match v with | .boolean b => some b | _ => none⟩
  int64 := ⟨.integer, fun v => match v with | .integer i => some i | _ => none⟩
  int := ⟨.integer, fun v => match v with | .integer i => some i | _ => none⟩
  sampleID := ⟨.integer, fun v => match v with | .integer i => some i | _ => none⟩
  playMode :=
    ⟨fun m => match m with
        | .NORMAL => .str "NORMAL" | .ONE_SHOT => .str "ONE_SHOT"
        | .ON_RELEASE => .str "ON_RELEASE",
      fun v => match v with
        | .str "NORMAL" => some .NORMAL | .str "ONE_SHOT" => some .ONE_SHOT
        | .str "ON_RELEASE" => some .ON_RELEASE | _ => none⟩
  loopMode :=
    ⟨fun m => match m with
        | .LOOP_DURING_VOICE => .str "LOOP_DURING_VOICE"
        | .LOOP_WHILE_GATED => .str "LOOP_WHILE_GATED"
        | .LOOP_FOR_COUNT => .str "LOOP_FOR_COUNT",
      fun v => match v with
        | .str "LOOP_DURING_VOICE" => some .LOOP_DURING_VOICE
        | .str "LOOP_WHILE_GATED" => some .LOOP_WHILE_GATED
        | .str "LOOP_FOR_COUNT" => some .LOOP_FOR_COUNT | _ => none⟩
  loopDirection :=
    ⟨fun m => match m with
        | .FORWARD_ONLY => .str "FORWARD_ONLY"
        | .ALTERNATE_DIRECTIONS => .str "ALTERNATE_DIRECTIONS",
      fun v => match v with
        | .str "FORWARD_ONLY" => some .FORWARD_ONLY
        | .str "ALTERNATE_DIRECTIONS" => some .ALTERNATE_DIRECTIONS | _ => none⟩

/-- A document that sets `loopActive` and `startLoop` only. -/
def loopDocument : Document JValue :=
  [("loopActive", .boolean true), ("startLoop", .integer 5)]

/-- A sample with an active loop from frame 100 to frame 200 inside the frames 0 to 1000. -/
def loopedSample : AssociatedSample Int where
  active := true
  sampleID := 7
  startSample := 0
  endSample := 1000
  startLoop := 100
  endLoop := 200
  playMode := .ONE_SHOT
  loopActive := true
  playReverse := false
  loopMode := .LOOP_FOR_COUNT
  loopDirection := .ALTERNATE_DIRECTIONS
  loopCountWhenCounted := 3
  loopFade := 16

/-! ## The target comparison as an ordering -/

/-- In the list, the targets of each processor slot have one display path, and no target
outside the slot has that path. -/
def SlotPathsSeparate (l : List (TargetIdentifier × identifierDisplayName_t)) : Prop :=
  ∀ a ∈ l, ∀ b ∈ l, a.1.gid = multichar 'p' 'r' 'o' 'c' → (SameProcSlot a b ↔ a.2.1 = b.2.1)

instance (a b : TargetIdentifier × identifierDisplayName_t) : Decidable (SameProcSlot a b) :=
  inferInstanceAs (Decidable (_ ∧ _ ∧ _))

instance (l : List (TargetIdentifier × identifierDisplayName_t)) :
    Decidable (SlotPathsSeparate l) :=
  inferInstanceAs (Decidable (∀ a ∈ l, ∀ b ∈ l, _ → (_ ↔ _)))

/-- A hash of target identifiers used to run the enumeration: the exclusive or of the three
members. -/
def xorHash (t : TargetIdentifier) : Nat := t.gid ^^^ t.tid ^^^ t.index

/-! ## Inputs and vocabulary of the statements on depth scales, signed zero and the
enumeration order -/

/-- The value `rg` that the `bindEl` call of float parameter `i` of slot `p` assigns. -/
def floatParamRange {F : Type} (fm : MatrixFloat F)
    (describeValue : PayloadRef → FieldRef → ParamMetaData F) (z : Zone F) (p i : Nat) : F :=
  let fcd := (z.processorDescription p).floatControlDescriptions i
  if fm.feq fcd.maxVal fcd.minVal then
    fm.sub (describeValue (.processorStorage p) (.floatParam i)).maxVal
      (describeValue (.processorStorage p) (.floatParam i)).minVal
  else fm.sub fcd.maxVal fcd.minVal

/-- The assignment in the loop of `bindEl`: a routing that points at output slot `idx` gets
the depth scale `rg`, any other routing is left as it is. -/
def setDepthScale {F : Type} (idx : Nat) (rg : F) (r : RoutingValuePointers F) :
    RoutingValuePointers F :=
  if r.target = some idx then { r with depthScale := rg } else r

/-- A zone whose processors all have the type code 1, the type name `"F"` and float controls
named `"c"` of range `[2, 7]`. -/
def wideZone : Zone ℚ where
  mapping := ⟨0, 1, 0⟩
  processorStorage := fun _ => ⟨1, fun _ => 0⟩
  processorDescription := fun _ => ⟨1, "F", fun _ => ⟨"c", 2, 7⟩⟩

/-- A matrix whose routing table gives the mix target of processor slot 0 the output slot 3 and
its float parameter 0 the output slot 4, with one routing to each and one routing to slot 5, all
with depth scale 9, and no base value bound. -/
def slotMatrix : Matrix ℚ where
  targetToOutputIndex :=
    [((ProcessorTarget.create 0).mixT, 3), ((ProcessorTarget.create 0).fpT 0, 4)]
  routingValuePointers := [⟨some 3, 9⟩, ⟨some 4, 9⟩, ⟨some 5, 9⟩]
  baseValues := []

/-- A mapping target used to run the binding: four identifiers of group `'zmap'`, with the
element codes 1 to 4. -/
def demoMappingTarget : MappingTarget ℚ where
  pitchOffsetT := ⟨multichar 'z' 'm' 'a' 'p', 1, 0⟩
  ampT := ⟨multichar 'z' 'm' 'a' 'p', 2, 0⟩
  panT := ⟨multichar 'z' 'm' 'a' 'p', 3, 0⟩
  playbackRatioT := ⟨multichar 'z' 'm' 'a' 'p', 4, 0⟩
  zeroBase := 0
  pitchOffsetP := none
  ampP := none
  panP := none
  playbackRatioP := none

/-- A matrix whose routing table gives the playback-ratio target of `demoMappingTarget` the
output slot 2 and its pan target the output slot 6, with one routing to each, both with depth
scale 9. -/
def mappingMatrix : Matrix ℚ where
  targetToOutputIndex := [(demoMappingTarget.playbackRatioT, 2), (demoMappingTarget.panT, 6)]
  routingValuePointers := [⟨some 2, 9⟩, ⟨some 6, 9⟩]
  baseValues := []

/-- Rational arithmetic with a signed zero, as an instance of `MatrixFloat`: the pair `(q, s)`
is the number `q`, and `(0, true)` is the negative zero of IEEE 754, which compares equal to
`(0, false)` and is a different value. Subtracting the positive zero leaves every value as it
is, also the negative zero; a product or quotient that is zero has the sign of its operands
combined. There is no rounding, no infinity and no NaN (a quotient by zero is zero). -/
def signedZeroFloat : MatrixFloat (ℚ × Bool) where
  zero := (0, false)
  one := (1, false)
  lit := fun q => (q, false)
  ofInt := fun x => ((x : ℚ), false)
  mul := fun a b => (a.1 * b.1, decide (a.1 * b.1 = 0) && xor (decide (a.1 < 0) || a.2)
    (decide (b.1 < 0) || b.2))
  div := fun a b => (a.1 / b.1, decide (a.1 / b.1 = 0) && xor (decide (a.1 < 0) || a.2)
    (decide (b.1 < 0) || b.2))
  ofBits32 := fun w => if w = 2147483648 then (0, true) else ((w : ℚ), false)
  ofBits64 := fun w => if w = 9223372036854775808 then (0, true) else ((w : ℚ), false)
  sub := fun a b => if b = (0, false) then a else (a.1 - b.1, false)
  feq := fun a b => decide (a.1 = b.1)
  fltMin := (1 / 2 ^ 126, false)
  sub_zero := by intro x; simp
  feq_ofInt := by intro a b _ _ _ _; simp
  feq_fltMin := by simp

/-- A routing table with one entry, default on source, target, curve and active flag, whose
depth is the negative zero. -/
def negZeroTable : List (Routing Nat Nat Nat (ℚ × Bool)) := [⟨true, 0, 0, 0, (0, true)⟩]

/-- A routing table with an inactive entry of depth 1 and a default entry of depth (positive)
zero. -/
def posZeroTable : List (Routing Nat Nat Nat (ℚ × Bool)) :=
  [⟨false, 1, 2, 0, (1, false)⟩, ⟨true, 0, 0, 0, (0, false)⟩]

/-- An engine with the registrations of processor slot 0 and one more target, of group code 1,
registered with the display path `"P1 F"` and the name `"d"`; no source. -/
def wedgeEngine : Engine (Zone ℚ) where
  voiceModTargets := ProcessorTarget.registrations smallModConsts 0 ++
    [(⟨1, 7, 0⟩, fun _ _ => "P1 F", fun _ _ => "d")]
  voiceModSources := []

/-- An engine with three targets of display path `"P"`: two of group `'proc'` and index 0,
with the element codes 1 and 2 and the names `"z"` and `"a"`, and one of group code 1 with the
name `"m"`; and two sources. -/
def cyclicEngine : Engine Unit where
  voiceModTargets := [(⟨multichar 'p' 'r' 'o' 'c', 1, 0⟩, fun _ _ => "P", fun _ _ => "z"),
                      (⟨multichar 'p' 'r' 'o' 'c', 2, 0⟩, fun _ _ => "P", fun _ _ => "a"),
                      (⟨1, 7, 0⟩, fun _ _ => "P", fun _ _ => "m")]
  voiceModSources := [(⟨1, 7, 0⟩, fun _ _ => "B", fun _ _ => "x"),
                      (⟨2, 7, 0⟩, fun _ _ => "A", fun _ _ => "x")]

/-- An engine with the registrations of processor slots 0 and 1, a target of group code 1 and
three sources. -/
def voicedEngine : Engine (Zone ℚ) where
  voiceModTargets := ProcessorTarget.registrations smallModConsts 0 ++
    ProcessorTarget.registrations smallModConsts 1 ++
    [(⟨1, 7, 0⟩, fun _ _ => "Mapping", fun _ _ => "Pan")]
  voiceModSources := [(⟨1, 7, 0⟩, fun _ _ => "LFO", fun _ _ => "LFO 2"),
                      (⟨1, 6, 0⟩, fun _ _ => "LFO", fun _ _ => "LFO 1"),
                      (⟨2, 1, 0⟩, fun _ _ => "EG", fun _ _ => "AEG")]

/-! ## Lemmas and theorems -/

theorem toInt32_of_small (n : Nat) (h : n < 2147483648) : toInt32 (n : Int) = n := by
  unfold toInt32; omega

theorem toUInt32_of_small (n : Nat) (h : n < 4294967296) : toUInt32 (n : Int) = n := by
  unfold toUInt32; omega

theorem toUInt32_natCast (n : Nat) : toUInt32 (n : Int) = n % 4294967296 := by
  unfold toUInt32; omega

theorem clearedBlock_eq {α : Type} (k : Consts) (z : α) (n : Nat)
    (hk : 2 * k.FIRoffset ≤ k.FIRipol_N) :
    clearedBlock k z ((n : Int) + k.FIRipol_N) n = some (blockOf k z (List.replicate n none)) := by
  unfold clearedBlock memsetZero
  have h1 : ((n : Int) + k.FIRipol_N).toNat = n + k.FIRipol_N := by omega
  have h2 : ((n : Int) + k.FIRoffset).toNat = n + k.FIRoffset := by omega
  simp only [h1, h2, List.length_replicate, le_refl, true_and, Int.toNat_zero, zero_add]
  rw [if_pos (by omega)]
  simp only [Option.some_bind, List.length_mapIdx, List.length_replicate]
  rw [if_pos (by constructor <;> omega)]
  congr 1
  apply List.ext_getElem?
  intro j
  simp only [blockOf, List.getElem?_mapIdx, List.getElem?_append, List.getElem?_replicate,
    List.length_replicate, List.length_append]
  by_cases a : j < k.FIRoffset
  · simp [a]; omega
  · by_cases b : j - k.FIRoffset < n
    · have : j < n + k.FIRipol_N := by omega
      simp [a, b, this]; omega
    · by_cases c : j - k.FIRoffset - n < k.FIRoffset
      · have : j < n + k.FIRipol_N := by omega
        simp [a, b, c, this]; omega
      · by_cases d : j < n + k.FIRipol_N
        · have : j - k.FIRoffset - n - k.FIRoffset < k.FIRipol_N - 2 * k.FIRoffset := by omega
          simp [a, b, c, d, this]; omega
        · have : ¬ j - k.FIRoffset - n - k.FIRoffset < k.FIRipol_N - 2 * k.FIRoffset := by omega
          simp [a, b, c, d, this]

theorem storeRange_length {α : Type} (vals : Nat → α) (o : Nat) :
    ∀ (cnt i : Nat) (cells : List (Option α)), (storeRange vals o i cnt cells).length = cells.length := by
  intro cnt
  induction cnt with
  | zero => intro i cells; rfl
  | succ cnt ih => intro i cells; simp [storeRange, ih]

theorem storeRange_getElem_opt {α : Type} (vals : Nat → α) (o : Nat) :
    ∀ (cnt i : Nat) (cells : List (Option α)) (j : Nat),
      (storeRange vals o i cnt cells)[j]? =
        if o + i ≤ j ∧ j < o + i + cnt then
          (if j < cells.length then some (some (vals (j - o))) else none)
        else cells[j]? := by
  intro cnt
  induction cnt with
  | zero =>
    intro i cells j
    have h0 : ¬ (o + i ≤ j ∧ j < o + i + 0) := by omega
    rw [if_neg h0]
    rfl
  | succ cnt ih =>
    intro i cells j
    simp only [storeRange]
    rw [ih, List.length_set, List.getElem?_set]
    by_cases h1 : o + i = j
    · subst h1
      have a : ¬ (o + (i + 1) ≤ o + i ∧ o + i < o + (i + 1) + cnt) := by omega
      have b : (o + i ≤ o + i ∧ o + i < o + i + (cnt + 1)) := by omega
      simp [a, b]
    · by_cases h2 : o + (i + 1) ≤ j ∧ j < o + (i + 1) + cnt
      · have b : (o + i ≤ j ∧ j < o + i + (cnt + 1)) := by omega
        rw [if_pos h2, if_pos b]
      · have b : ¬ (o + i ≤ j ∧ j < o + i + (cnt + 1)) := by omega
        rw [if_neg h2, if_neg b, if_neg h1]

theorem storeRange_blockOf {α : Type} (k : Consts) (z : α) (vals : Nat → α) (n : Nat) :
    storeRange vals k.FIRoffset 0 n (blockOf k z (List.replicate n none)) =
      blockOf k z ((List.range n).map (fun i => some (vals i))) := by
  apply List.ext_getElem?
  intro j
  rw [storeRange_getElem_opt]
  simp only [blockOf, List.getElem?_append, List.getElem?_replicate, List.length_replicate,
    List.length_append, List.length_map, List.length_range, List.getElem?_map]
  by_cases a : j < k.FIRoffset
  · have : ¬ (k.FIRoffset + 0 ≤ j ∧ j < k.FIRoffset + 0 + n) := by omega
    simp [a, this]
  · by_cases b : j - k.FIRoffset < n
    · have h : (k.FIRoffset + 0 ≤ j ∧ j < k.FIRoffset + 0 + n) := by omega
      have h' : j < k.FIRoffset + (n + (k.FIRoffset + (k.FIRipol_N - 2 * k.FIRoffset))) := by omega
      rw [if_pos h, if_pos h', if_neg a, if_pos b, List.getElem?_range b]
      rfl
    · have h : ¬ (k.FIRoffset + 0 ≤ j ∧ j < k.FIRoffset + 0 + n) := by omega
      rw [if_neg h, if_neg a, if_neg b, if_neg a, if_neg b]

theorem Sample.setData_of_getData {F : Type} (s : Sample F) (ch : Nat)
    (d : Option (ChannelData F)) (h : s.getData ch = some d) : s.setData ch d = some s := by
  match ch, h with
  | 0, h => simp [Sample.getData] at h; subst h; rfl
  | 1, h => simp [Sample.getData] at h; subst h; rfl
  | _ + 2, h => simp [Sample.getData] at h

theorem Sample.getData_setData {F : Type} (s s1 : Sample F) (ch : Nat)
    (d : Option (ChannelData F)) (h : s.setData ch d = some s1) : s1.getData ch = some d := by
  match ch, h with
  | 0, h => simp [Sample.setData] at h; subst h; rfl
  | 1, h => simp [Sample.setData] at h; subst h; rfl
  | _ + 2, h => simp [Sample.setData] at h

theorem Sample.setData_setData {F : Type} (s s1 : Sample F) (ch : Nat)
    (d e : Option (ChannelData F)) (h : s.setData ch d = some s1) :
    s1.setData ch e = s.setData ch e := by
  match ch, h with
  | 0, h => simp [Sample.setData] at h; subst h; rfl
  | 1, h => simp [Sample.setData] at h; subst h; rfl
  | _ + 2, h => simp [Sample.setData] at h

theorem Sample.setData_isSome {F : Type} (s : Sample F) (ch : Nat) (d : Option (ChannelData F))
    (hch : ch < 2) : ∃ s1, s.setData ch d = some s1 := by
  match ch, hch with
  | 0, _ => exact ⟨_, rfl⟩
  | 1, _ => exact ⟨_, rfl⟩

theorem forLoop_storeI16 {F : Type} (ch o : Nat) (vals : Nat → Int) (hch : ch < 2) :
    ∀ (cnt i : Nat) (s : Sample F) (cells : List (Option Int)),
      s.getData ch = some (some (ChannelData.i16 cells)) → o + i + cnt ≤ cells.length →
      forLoop (fun i st => storeI16 st (some ⟨ch, o⟩) i (vals i)) i cnt s =
        s.setData ch (some (ChannelData.i16 (storeRange vals o i cnt cells))) := by
  intro cnt
  induction cnt with
  | zero =>
    intro i s cells hg _
    simp only [forLoop, storeRange]
    exact (Sample.setData_of_getData s ch _ hg).symm
  | succ cnt ih =>
    intro i s cells hg hlen
    obtain ⟨s1, hs1⟩ := Sample.setData_isSome s ch
      (some (ChannelData.i16 (cells.set (o + i) (some (vals i))))) hch
    have hbody : storeI16 s (some ⟨ch, o⟩) i (vals i) = some s1 := by
      simp only [storeI16, hg]
      rw [if_pos (by omega)]
      exact hs1
    simp only [forLoop, hbody, Option.some_bind, storeRange]
    rw [ih (i + 1) s1 _ (Sample.getData_setData s s1 ch _ hs1)
      (by rw [List.length_set]; omega)]
    exact Sample.setData_setData s s1 ch _ _ hs1

theorem forLoop_storeF32 {F : Type} (ch o : Nat) (vals : Nat → F) (hch : ch < 2) :
    ∀ (cnt i : Nat) (s : Sample F) (cells : List (Option F)),
      s.getData ch = some (some (ChannelData.f32 cells)) → o + i + cnt ≤ cells.length →
      forLoop (fun i st => storeF32 st (some ⟨ch, o⟩) i (vals i)) i cnt s =
        s.setData ch (some (ChannelData.f32 (storeRange vals o i cnt cells))) := by
  intro cnt
  induction cnt with
  | zero =>
    intro i s cells hg _
    simp only [forLoop, storeRange]
    exact (Sample.setData_of_getData s ch _ hg).symm
  | succ cnt ih =>
    intro i s cells hg hlen
    obtain ⟨s1, hs1⟩ := Sample.setData_isSome s ch
      (some (ChannelData.f32 (cells.set (o + i) (some (vals i))))) hch
    have hbody : storeF32 s (some ⟨ch, o⟩) i (vals i) = some s1 := by
      simp only [storeF32, hg]
      rw [if_pos (by omega)]
      exact hs1
    simp only [forLoop, hbody, Option.some_bind, storeRange]
    rw [ih (i + 1) s1 _ (Sample.getData_setData s s1 ch _ hs1)
      (by rw [List.length_set]; omega)]
    exact Sample.setData_setData s s1 ch _ _ hs1

theorem blockOf_length {α : Type} (k : Consts) (z : α) (mid : List (Option α))
    (hk : 2 * k.FIRoffset ≤ k.FIRipol_N) :
    (blockOf k z mid).length = mid.length + k.FIRipol_N := by
  simp only [blockOf, List.length_append, List.length_replicate]
  omega

theorem Sample.setData_UseInt16 {F : Type} (s s1 : Sample F) (ch : Nat)
    (d : Option (ChannelData F)) (h : s.setData ch d = some s1) : s1.UseInt16 = s.UseInt16 := by
  match ch, h with
  | 0, h => simp [Sample.setData] at h; subst h; rfl
  | 1, h => simp [Sample.setData] at h; subst h; rfl
  | _ + 2, h => simp [Sample.setData] at h

/-- In its domain `allocateI16` succeeds and leaves the closed-form block. -/
theorem allocateI16_eq {F : Type} (k : Consts) (s : Sample F) (ch n : Nat)
    (hk : 2 * k.FIRoffset ≤ k.FIRipol_N) (hn : n + k.FIRipol_N < 2147483648) :
    allocateI16 k true s ch (toInt32 n) =
      ({ s with UseInt16 := true }.setData ch
        (some (ChannelData.i16 (blockOf k 0 (List.replicate n none))))).map
        (fun s1 => (true, s1)) := by
  have e1 : toInt32 (n : Int) = n := toInt32_of_small n (by omega)
  have e2 : toInt32 ((n : Int) + k.FIRipol_N) = (n : Int) + k.FIRipol_N := by
    have := toInt32_of_small (n + k.FIRipol_N) hn
    push_cast at this
    exact this
  unfold allocateI16
  simp only [e1, e2]
  rw [if_pos ⟨trivial, by omega⟩, clearedBlock_eq k 0 n hk]
  rfl

theorem allocateF32_eq {F : Type} (fo : FloatOps F) (k : Consts) (s : Sample F) (ch n : Nat)
    (hk : 2 * k.FIRoffset ≤ k.FIRipol_N) (hn : n + k.FIRipol_N < 2147483648) :
    allocateF32 fo k true s ch (toInt32 n) =
      ({ s with UseInt16 := false }.setData ch
        (some (ChannelData.f32 (blockOf k fo.zero (List.replicate n none))))).map
        (fun s1 => (true, s1)) := by
  have e1 : toInt32 (n : Int) = n := toInt32_of_small n (by omega)
  have e2 : toInt32 ((n : Int) + k.FIRipol_N) = (n : Int) + k.FIRipol_N := by
    have := toInt32_of_small (n + k.FIRipol_N) hn
    push_cast at this
    exact this
  unfold allocateF32
  simp only [e1, e2]
  rw [if_pos ⟨trivial, by omega⟩, clearedBlock_eq k fo.zero n hk]
  rfl

theorem loadI16With_eq {F : Type} (conv : Bytes → Nat → Int) (k : Consts) (s : Sample F)
    (ch : Nat) (data : Bytes) (n stride : Nat) (hch : ch < 2)
    (hk : 2 * k.FIRoffset ≤ k.FIRipol_N) (hn : n + k.FIRipol_N < 2147483648) :
    loadI16With conv k true s ch data n stride =
      ({ s with UseInt16 := true }.setData ch
        (some (ChannelData.i16 (blockOf k 0 (framesOf conv data n stride))))).map
        (fun s2 => (true, s2)) := by
  unfold loadI16With
  rw [allocateI16_eq k s ch n hk hn]
  obtain ⟨s1, hs1⟩ := Sample.setData_isSome { s with UseInt16 := true } ch
    (some (ChannelData.i16 (blockOf k 0 (List.replicate n none)))) hch
  have hu : s1.UseInt16 = true := Sample.setData_UseInt16 _ s1 ch _ hs1
  simp only [hs1, Option.map_some', Option.some_bind, GetSamplePtrI16, hu, Bool.not_true,
    Bool.false_eq_true, if_false]
  rw [forLoop_storeI16 ch k.FIRoffset (fun i => conv data (toUInt32 (i * stride))) hch n 0 s1 _
    (Sample.getData_setData _ s1 ch _ hs1)
    (by rw [blockOf_length k 0 _ hk, List.length_replicate]; omega)]
  rw [storeRange_blockOf, Sample.setData_setData _ s1 ch _ _ hs1]
  rfl

theorem loadF32With_eq {F : Type} (fo : FloatOps F) (conv : Bytes → Nat → F) (k : Consts)
    (s : Sample F) (ch : Nat) (data : Bytes) (n stride : Nat) (hch : ch < 2)
    (hk : 2 * k.FIRoffset ≤ k.FIRipol_N) (hn : n + k.FIRipol_N < 2147483648) :
    loadF32With fo conv k true s ch data n stride =
      ({ s with UseInt16 := false }.setData ch
        (some (ChannelData.f32 (blockOf k fo.zero (framesOf conv data n stride))))).map
        (fun s2 => (true, s2)) := by
  unfold loadF32With
  rw [allocateF32_eq fo k s ch n hk hn]
  obtain ⟨s1, hs1⟩ := Sample.setData_isSome { s with UseInt16 := false } ch
    (some (ChannelData.f32 (blockOf k fo.zero (List.replicate n none)))) hch
  have hu : s1.UseInt16 = false := Sample.setData_UseInt16 _ s1 ch _ hs1
  simp only [hs1, Option.map_some', Option.some_bind, GetSamplePtrF32, hu,
    Bool.false_eq_true, if_false]
  rw [forLoop_storeF32 ch k.FIRoffset (fun i => conv data (toUInt32 (i * stride))) hch n 0 s1 _
    (Sample.getData_setData _ s1 ch _ hs1)
    (by rw [blockOf_length k fo.zero _ hk, List.length_replicate]; omega)]
  rw [storeRange_blockOf, Sample.setData_setData _ s1 ch _ _ hs1]
  rfl

theorem ubyteAt_lt (data : Bytes) (off : Nat) : ubyteAt data off < 256 :=
  Nat.mod_lt _ (by norm_num)

theorem toInt16_of_range (x : Int) (h1 : -32768 ≤ x) (h2 : x < 32768) : toInt16 x = x := by
  unfold toInt16; omega

theorem conv_ui8_eq (data : Bytes) (off : Nat) :
    conv_ui8 data off = ((ubyteAt data off : Int) - 128) * 256 := by
  have := ubyteAt_lt data off
  unfold conv_ui8 shl32 toInt32 toInt16
  omega

theorem conv_i8_eq (charSigned : Bool) (data : Bytes) (off : Nat) :
    conv_i8 charSigned data off = twosComplement 8 (ubyteAt data off) * 256 := by
  have := ubyteAt_lt data off
  unfold conv_i8 shl32 toInt32 toInt16 charAt twosComplement
  cases charSigned <;> simp <;> split_ifs <;> omega

theorem unsigned_of_toInt16 (u : Nat) (h : u < 65536) :
    (toInt16 (u : Int) % 65536).toNat = u := by
  unfold toInt16; omega

theorem bswap2_bytes (hi lo : Nat) (hhi : hi < 256) (hlo : lo < 256) :
    bswap 2 (hi * 256 + lo) = lo * 256 + hi := by
  simp only [bswap]
  omega

theorem conv_i16_eq (hostBE : Bool) (data : Bytes) (off : Nat) :
    conv_i16 hostBE data off =
      twosComplement 16 (ubyteAt data off + 256 * ubyteAt data (off + 1)) := by
  have h0 := ubyteAt_lt data off
  have h1 := ubyteAt_lt data (off + 1)
  unfold conv_i16 endian_read_int16LE readShort hostWord
  cases hostBE
  · simp only [Bool.false_eq_true, if_false, leWord, toInt16, twosComplement]
    split_ifs <;> omega
  · have e : beWord data off 2 = ubyteAt data off * 256 + ubyteAt data (off + 1) := by
      simp only [beWord]; omega
    simp only [if_true, e]
    rw [unsigned_of_toInt16 _ (by omega), bswap2_bytes _ _ h0 h1]
    simp only [toInt16, twosComplement]
    split_ifs <;> omega

theorem conv_i16BE_eq (hostBE : Bool) (data : Bytes) (off : Nat) :
    conv_i16BE hostBE data off =
      twosComplement 16 (256 * ubyteAt data off + ubyteAt data (off + 1)) := by
  have h0 := ubyteAt_lt data off
  have h1 := ubyteAt_lt data (off + 1)
  unfold conv_i16BE endian_read_int16BE readShort hostWord
  cases hostBE
  · have e : leWord data off 2 = ubyteAt data (off + 1) * 256 + ubyteAt data off := by
      simp only [leWord]; omega
    simp only [Bool.false_eq_true, if_false, e]
    rw [unsigned_of_toInt16 _ (by omega), bswap2_bytes _ _ h1 h0]
    simp only [toInt16, twosComplement]
    split_ifs <;> omega
  · simp only [if_true, beWord, toInt16, twosComplement]
    split_ifs <;> omega

theorem lor_bytes3 (lo mid hi : Nat) (hlo : lo < 256) (hmid : mid < 256) :
    (hi <<< 16) ||| (mid <<< 8) ||| lo = lo + 256 * mid + 65536 * hi := by
  rw [Nat.shiftLeft_eq, Nat.shiftLeft_eq]
  have a : 2 ^ 8 * mid ||| lo = 2 ^ 8 * mid + lo :=
    (Nat.mul_add_lt_is_or (by simpa using hlo) mid).symm
  have hlt : 2 ^ 8 * mid + lo < 2 ^ 16 := by omega
  rw [Nat.lor_assoc, show mid * 2 ^ 8 = 2 ^ 8 * mid by ring, a,
    show hi * 2 ^ 16 = 2 ^ 16 * hi by ring, ← Nat.mul_add_lt_is_or hlt hi]
  omega

theorem land_signbit24 (v : Nat) (h : v < 2 ^ 24) :
    v &&& 0x800000 = if 2 ^ 23 ≤ v then 2 ^ 23 else 0 := by
  rw [show (0x800000 : Nat) = 2 ^ 23 by norm_num, Nat.and_two_pow, Nat.testBit_to_div_mod]
  split_ifs with hv
  · have e : v / 2 ^ 23 % 2 = 1 := by omega
    rw [e]; rfl
  · have e : v / 2 ^ 23 % 2 = 0 := by omega
    rw [e]; rfl

theorem i24Value_eq (c0 c1 c2 : Nat) (h0 : c0 < 256) (h1 : c1 < 256) (h2 : c2 < 256) :
    i24Value c0 c1 c2 = twosComplement 24 (c0 + 256 * c1 + 65536 * c2) := by
  unfold i24Value twosComplement
  simp only [lor_bytes3 c0 c1 c2 h0 h1]
  rw [land_signbit24 _ (by omega), Nat.shiftLeft_eq]
  split_ifs <;> omega

theorem i24ValueBE_eq (c0 c1 c2 : Nat) :
    i24ValueBE c0 c1 c2 = i24Value c2 c1 c0 := rfl

theorem dataRegion_blockOf {α : Type} (k : Consts) (z : α) (mid : List (Option α)) :
    dataRegion k mid.length (blockOf k z mid) = mid := by
  simp [dataRegion, blockOf]

theorem guardBefore_blockOf {α : Type} (k : Consts) (z : α) (mid : List (Option α)) :
    guardBefore k (blockOf k z mid) = List.replicate k.FIRoffset (some z) := by
  simp [guardBefore, blockOf]

theorem guardAfter_blockOf {α : Type} (k : Consts) (z : α) (mid : List (Option α)) :
    guardAfter k mid.length (blockOf k z mid) = List.replicate k.FIRoffset (some z) := by
  unfold guardAfter blockOf
  rw [← List.drop_drop, List.drop_left' (List.length_replicate _ _),
    List.drop_left, List.take_left' (List.length_replicate _ _)]

theorem framesOf_length {α : Type} (conv : Bytes → Nat → α) (data : Bytes) (n stride : Nat) :
    (framesOf conv data n stride).length = n := by
  simp [framesOf]

theorem Sample.cellsI16_setData {F : Type} (s s1 : Sample F) (ch : Nat)
    (cells : List (Option Int)) (h : s.setData ch (some (ChannelData.i16 cells)) = some s1) :
    s1.cellsI16 ch = some cells := by
  unfold Sample.cellsI16
  rw [Sample.getData_setData s s1 ch _ h]

theorem Sample.cellsF32_setData {F : Type} (s s1 : Sample F) (ch : Nat)
    (cells : List (Option F)) (h : s.setData ch (some (ChannelData.f32 cells)) = some s1) :
    s1.cellsF32 ch = some cells := by
  unfold Sample.cellsF32
  rw [Sample.getData_setData s s1 ch _ h]

/-- Existence form of `loadI16With_eq`. -/
theorem loadI16With_spec {F : Type} (conv : Bytes → Nat → Int) (k : Consts) (s : Sample F)
    (ch : Nat) (data : Bytes) (n stride : Nat) (hch : ch < 2)
    (hk : 2 * k.FIRoffset ≤ k.FIRipol_N) (hn : n + k.FIRipol_N < 2147483648) :
    ∃ s2, loadI16With conv k true s ch data n stride = some (true, s2) ∧
      { s with UseInt16 := true }.setData ch
        (some (ChannelData.i16 (blockOf k 0 (framesOf conv data n stride)))) = some s2 := by
  obtain ⟨s2, h2⟩ := Sample.setData_isSome { s with UseInt16 := true } ch
    (some (ChannelData.i16 (blockOf k 0 (framesOf conv data n stride)))) hch
  exact ⟨s2, by rw [loadI16With_eq conv k s ch data n stride hch hk hn, h2]; rfl, h2⟩

theorem loadF32With_spec {F : Type} (fo : FloatOps F) (conv : Bytes → Nat → F) (k : Consts)
    (s : Sample F) (ch : Nat) (data : Bytes) (n stride : Nat) (hch : ch < 2)
    (hk : 2 * k.FIRoffset ≤ k.FIRipol_N) (hn : n + k.FIRipol_N < 2147483648) :
    ∃ s2, loadF32With fo conv k true s ch data n stride = some (true, s2) ∧
      { s with UseInt16 := false }.setData ch
        (some (ChannelData.f32 (blockOf k fo.zero (framesOf conv data n stride)))) = some s2 := by
  obtain ⟨s2, h2⟩ := Sample.setData_isSome { s with UseInt16 := false } ch
    (some (ChannelData.f32 (blockOf k fo.zero (framesOf conv data n stride)))) hch
  exact ⟨s2, by rw [loadF32With_eq fo conv k s ch data n stride hch hk hn, h2]; rfl, h2⟩

theorem twosComplement16_u16Of (v : Int) (h1 : -32768 ≤ v) (h2 : v < 32768) :
    twosComplement 16 (u16Of v % 256 + 256 * (u16Of v / 256)) = v := by
  unfold twosComplement u16Of
  split_ifs <;> omega

theorem twosComplement16_u16Of_be (v : Int) (h1 : -32768 ≤ v) (h2 : v < 32768) :
    twosComplement 16 (256 * (u16Of v / 256) + u16Of v % 256) = v := by
  unfold twosComplement u16Of
  split_ifs <;> omega

theorem u16Of_lt (v : Int) : u16Of v < 65536 := by
  unfold u16Of; omega

theorem encodeI16LE_frame (vs : List Int) (stride i : Nat) (hs : 2 ≤ stride) :
    ubyteAt (encodeI16LE vs stride) (i * stride) = u16Of (vs.getD i 0) % 256 ∧
    ubyteAt (encodeI16LE vs stride) (i * stride + 1) = u16Of (vs.getD i 0) / 256 := by
  have hpos : 0 < stride := by omega
  have e1 : i * stride % stride = 0 := Nat.mul_mod_left i stride
  have e2 : i * stride / stride = i := Nat.mul_div_cancel i hpos
  have e3 : (i * stride + 1) % stride = 1 := by
    rw [Nat.add_mod, e1, zero_add, Nat.mod_mod, Nat.mod_eq_of_lt (by omega)]
  have e4 : (i * stride + 1) / stride = i := by
    rw [Nat.add_div hpos, e2, e1, Nat.div_eq_of_lt (by omega : 1 < stride),
      Nat.mod_eq_of_lt (by omega : 1 < stride)]
    simp; omega
  have hu := u16Of_lt (vs.getD i 0)
  constructor
  · simp only [ubyteAt, encodeI16LE, e1, e2, if_true]
    omega
  · simp only [ubyteAt, encodeI16LE, e3, e4, if_true]
    rw [if_neg (by omega)]
    omega

theorem encodeI16BE_frame (vs : List Int) (stride i : Nat) (hs : 2 ≤ stride) :
    ubyteAt (encodeI16BE vs stride) (i * stride) = u16Of (vs.getD i 0) / 256 ∧
    ubyteAt (encodeI16BE vs stride) (i * stride + 1) = u16Of (vs.getD i 0) % 256 := by
  have hpos : 0 < stride := by omega
  have e1 : i * stride % stride = 0 := Nat.mul_mod_left i stride
  have e2 : i * stride / stride = i := Nat.mul_div_cancel i hpos
  have e3 : (i * stride + 1) % stride = 1 := by
    rw [Nat.add_mod, e1, zero_add, Nat.mod_mod, Nat.mod_eq_of_lt (by omega)]
  have e4 : (i * stride + 1) / stride = i := by
    rw [Nat.add_div hpos, e2, e1, Nat.div_eq_of_lt (by omega : 1 < stride),
      Nat.mod_eq_of_lt (by omega : 1 < stride)]
    simp; omega
  have hu := u16Of_lt (vs.getD i 0)
  constructor
  · simp only [ubyteAt, encodeI16BE, e1, e2, if_true]
    omega
  · simp only [ubyteAt, encodeI16BE, e3, e4, if_true]
    rw [if_neg (by omega)]
    omega

theorem toUInt32_mul_of_lt (i stride : Nat) (h : i * stride < 4294967296) :
    toUInt32 ((i : Int) * (stride : Int)) = i * stride := by
  have := toUInt32_of_small (i * stride) h
  push_cast at this
  exact this

/-- A list of frames computed by index equals a given list when it does so cell by cell. -/
theorem framesOf_eq_map_some {α : Type} (conv : Bytes → Nat → α) (data : Bytes) (stride : Nat)
    (vs : List α)
    (h : ∀ i (hi : i < vs.length), conv data (toUInt32 ((i : Int) * (stride : Int))) = vs[i]) :
    framesOf conv data vs.length stride = vs.map some := by
  apply List.ext_getElem?
  intro i
  simp only [framesOf, List.getElem?_map]
  by_cases hi : i < vs.length
  · rw [List.getElem?_range hi, List.getElem?_eq_getElem hi]
    simp only [Option.map_some']
    rw [h i hi]
  · rw [List.getElem?_eq_none (by simpa using hi), List.getElem?_eq_none (by simpa using hi)]
    rfl

theorem framesOf_i16_encode (hostBE : Bool) (vs : List Int) (stride : Nat)
    (hv : ∀ v ∈ vs, -32768 ≤ v ∧ v < 32768) (hs : 2 ≤ stride)
    (hoff : ∀ i, i < vs.length → i * stride < 4294967296) :
    framesOf (conv_i16 hostBE) (encodeI16LE vs stride) vs.length stride = vs.map some := by
  apply framesOf_eq_map_some
  intro i hi
  rw [toUInt32_mul_of_lt i stride (hoff i hi), conv_i16_eq]
  obtain ⟨e1, e2⟩ := encodeI16LE_frame vs stride i hs
  rw [e1, e2, List.getD_eq_getElem _ _ hi]
  exact twosComplement16_u16Of _ (hv _ (List.getElem_mem hi)).1 (hv _ (List.getElem_mem hi)).2

theorem framesOf_i16BE_encode (hostBE : Bool) (vs : List Int) (stride : Nat)
    (hv : ∀ v ∈ vs, -32768 ≤ v ∧ v < 32768) (hs : 2 ≤ stride)
    (hoff : ∀ i, i < vs.length → i * stride < 4294967296) :
    framesOf (conv_i16BE hostBE) (encodeI16BE vs stride) vs.length stride = vs.map some := by
  apply framesOf_eq_map_some
  intro i hi
  rw [toUInt32_mul_of_lt i stride (hoff i hi), conv_i16BE_eq]
  obtain ⟨e1, e2⟩ := encodeI16BE_frame vs stride i hs
  rw [e1, e2, List.getD_eq_getElem _ _ hi]
  exact twosComplement16_u16Of_be _ (hv _ (List.getElem_mem hi)).1 (hv _ (List.getElem_mem hi)).2

/-- A loader into 16-bit storage yields the list `vs` when its frame values are `vs`. -/
theorem yieldsI16_of_frames {F : Type} (conv : Bytes → Nat → Int) (k : Consts) (s : Sample F)
    (ch : Nat) (data : Bytes) (stride : Nat) (vs : List Int) (hch : ch < 2)
    (hk : 2 * k.FIRoffset ≤ k.FIRipol_N) (hn : vs.length + k.FIRipol_N < 2147483648)
    (hf : framesOf conv data vs.length stride = vs.map some) :
    YieldsI16 k ch vs (loadI16With conv k true s ch data vs.length stride) := by
  obtain ⟨s2, h1, h2⟩ := loadI16With_spec conv k s ch data vs.length stride hch hk hn
  refine ⟨s2, h1, ?_⟩
  rw [Sample.cellsI16_setData _ s2 ch _ h2, hf]
  simp only [Option.map_some']
  have := dataRegion_blockOf k (0 : Int) (vs.map some)
  rw [List.length_map] at this
  rw [this]

/-- C1 (amended). For every sequence `vs` of signed 16-bit values and every stride `≥ 2`
such that every frame offset `i * stride` fits an `unsigned int`, `load_data_i16` applied to the
little-endian encoding of `vs` returns `true` and leaves exactly `vs`, in order, in the data
region of the channel, and `load_data_i16BE` does the same for the big-endian encoding; on
either host byte order, for a channel index inside the array, with `FIRipol_N` covering both
guards, a frame count that fits `int` together with the margin, and a successful `malloc`. -/
theorem load_data_i16_roundtrip {F : Type} (hostBE : Bool) (k : Consts) (s : Sample F)
    (ch : Nat) (vs : List Int) (stride : Nat)
    (hv : ∀ v ∈ vs, -32768 ≤ v ∧ v < 32768) (hs : 2 ≤ stride) (hch : ch < 2)
    (hk : 2 * k.FIRoffset ≤ k.FIRipol_N) (hn : vs.length + k.FIRipol_N < 2147483648)
    (hoff : ∀ i, i < vs.length → i * stride < 4294967296) :
    YieldsI16 k ch vs
      (load_data_i16 hostBE k true s ch (encodeI16LE vs stride) vs.length stride) ∧
    YieldsI16 k ch vs
      (load_data_i16BE hostBE k true s ch (encodeI16BE vs stride) vs.length stride) :=
  ⟨yieldsI16_of_frames _ k s ch _ stride vs hch hk hn
      (framesOf_i16_encode hostBE vs stride hv hs hoff),
   yieldsI16_of_frames _ k s ch _ stride vs hch hk hn
      (framesOf_i16BE_encode hostBE vs stride hv hs hoff)⟩

/-- An instance of C1 (amended): three frames with stride 4. -/
theorem load_data_i16_roundtrip_witness :
    YieldsI16 consts16 0 [5, -6, 7]
      (load_data_i16 false consts16 true blankSample 0 (encodeI16LE [5, -6, 7] 4) 3 4) ∧
    YieldsI16 consts16 0 [5, -6, 7]
      (load_data_i16BE false consts16 true blankSample 0 (encodeI16BE [5, -6, 7] 4) 3 4) :=
  load_data_i16_roundtrip false consts16 blankSample 0 [5, -6, 7] 4 (by decide) (by decide)
    (by decide) (by decide) (by decide) (by decide)

/-- C1 (as stated) fails: with stride `2^31` the offset of frame 2 wraps to 0 in `unsigned int`,
so the loader stores frame 0 again instead of the third value. -/
theorem load_data_i16_roundtrip_counterexample :
    ¬ YieldsI16 consts16 0 [5, 6, 7]
      (load_data_i16 false consts16 true blankSample 0 (encodeI16LE [5, 6, 7] 2147483648) 3
        2147483648) := by
  rintro ⟨s1, h1, h2⟩
  have h3 : ((load_data_i16 false consts16 true blankSample 0
      (encodeI16LE [5, 6, 7] 2147483648) 3 2147483648).bind
        (fun r => (r.2.cellsI16 0).map (dataRegion consts16 3))) =
      some [some 5, some 6, some 5] := by decide
  rw [h1] at h3
  simp only [Option.some_bind, List.length_cons, List.length_nil] at h2 h3
  rw [h3] at h2
  revert h2
  decide

/-- Frame `i` of the frames a loader reads is the conversion at byte offset `i * stride`,
the product taken in `unsigned int`. -/
theorem framesOf_getElem_opt {α : Type} (conv : Bytes → Nat → α) (data : Bytes) (n stride : Nat)
    (i : Nat) (hi : i < n) :
    (framesOf conv data n stride)[i]? =
      some (some (conv data (toUInt32 ((i : Int) * (stride : Int))))) := by
  unfold framesOf
  rw [List.getElem?_map, List.getElem?_range hi]
  rfl

/-- What a loader into float storage leaves: it returns `true`, the channel holds the closed-form
block, and data cell `i` holds the conversion of the frame at byte offset `i * stride` (taken in
`unsigned int`). -/
theorem loadF32With_cells {F : Type} (fo : FloatOps F) (conv : Bytes → Nat → F) (k : Consts)
    (s : Sample F) (ch : Nat) (data : Bytes) (n stride : Nat) (hch : ch < 2)
    (hk : 2 * k.FIRoffset ≤ k.FIRipol_N) (hn : n + k.FIRipol_N < 2147483648) :
    ∃ s2 cells, loadF32With fo conv k true s ch data n stride = some (true, s2) ∧
      s2.cellsF32 ch = some cells ∧
      cells = blockOf k fo.zero (framesOf conv data n stride) ∧
      (dataRegion k n cells).length = n ∧
      ∀ i, i < n → (dataRegion k n cells)[i]? =
        some (some (conv data (toUInt32 ((i : Int) * (stride : Int))))) := by
  obtain ⟨s2, e1, e2⟩ := loadF32With_spec fo conv k s ch data n stride hch hk hn
  have hd : dataRegion k n (blockOf k fo.zero (framesOf conv data n stride)) =
      framesOf conv data n stride := by
    have := dataRegion_blockOf k fo.zero (framesOf conv data n stride)
    rwa [framesOf_length] at this
  refine ⟨s2, _, e1, Sample.cellsF32_setData _ s2 ch _ e2, rfl, ?_, ?_⟩
  · rw [hd, framesOf_length]
  · intro i hi
    rw [hd, framesOf_getElem_opt conv data n stride i hi]

/-- The same for a loader into 16-bit storage. -/
theorem loadI16With_cells {F : Type} (conv : Bytes → Nat → Int) (k : Consts)
    (s : Sample F) (ch : Nat) (data : Bytes) (n stride : Nat) (hch : ch < 2)
    (hk : 2 * k.FIRoffset ≤ k.FIRipol_N) (hn : n + k.FIRipol_N < 2147483648) :
    ∃ s2 cells, loadI16With conv k true s ch data n stride = some (true, s2) ∧
      s2.cellsI16 ch = some cells ∧
      cells = blockOf k 0 (framesOf conv data n stride) ∧
      (dataRegion k n cells).length = n ∧
      ∀ i, i < n → (dataRegion k n cells)[i]? =
        some (some (conv data (toUInt32 ((i : Int) * (stride : Int))))) := by
  obtain ⟨s2, e1, e2⟩ := loadI16With_spec conv k s ch data n stride hch hk hn
  have hd : dataRegion k n (blockOf k 0 (framesOf conv data n stride)) =
      framesOf conv data n stride := by
    have := dataRegion_blockOf k (0 : Int) (framesOf conv data n stride)
    rwa [framesOf_length] at this
  refine ⟨s2, _, e1, Sample.cellsI16_setData _ s2 ch _ e2, rfl, ?_, ?_⟩
  · rw [hd, framesOf_length]
  · intro i hi
    rw [hd, framesOf_getElem_opt conv data n stride i hi]

/-- C2. For every three source bytes, the integer `value` that `load_data_i24` computes is the
two's-complement value of the 24-bit little-endian word `c0 + 256*c1 + 65536*c2`: it lies in
`[-2^23, 2^23 - 1]` and is negative exactly when bit 7 of `c2` is set; `load_data_i24BE`
computes the same integer from the bytes in reversed order. Whenever the call is defined,
`load_data_i24` returns `true` and data cell `i` of the channel holds the product of the scale
literal and `(float)value` for the three bytes at byte offset `i * stride`, and
`load_data_i24BE` leaves the same for the bytes read in reversed order. The literal is within
`2^-48` of `2^-23`; in exact arithmetic every cell that either loader stores has magnitude at
most 1, with the literal as written and with `2^-23`. -/
theorem load_data_i24_value {F : Type} (fo : FloatOps F) (k : Consts) (s : Sample F)
    (ch : Nat) (data : Bytes) (n stride : Nat) (hch : ch < 2)
    (hk : 2 * k.FIRoffset ≤ k.FIRipol_N) (hn : n + k.FIRipol_N < 2147483648) :
    (∀ off : Nat,
      let c0 := ubyteAt data off
      let c1 := ubyteAt data (off + 1)
      let c2 := ubyteAt data (off + 2)
      let value := i24Value c0 c1 c2
      value = twosComplement 24 (c0 + 256 * c1 + 65536 * c2) ∧
      -8388608 ≤ value ∧ value ≤ 8388607 ∧
      (value < 0 ↔ 128 ≤ c2) ∧
      conv_i24 fo data off = fo.mul (fo.lit i24ScaleLit) (fo.ofInt value) ∧
      |i24ScaleLit - 1 / 2 ^ 23| < 1 / 2 ^ 48 ∧
      |exactOps.mul (exactOps.lit i24ScaleLit) (exactOps.ofInt value)| ≤ 1 ∧
      |(1 / 2 ^ 23 : ℚ) * (value : ℚ)| ≤ 1 ∧
      i24ValueBE c2 c1 c0 = value ∧
      conv_i24BE fo data off =
        fo.mul (fo.lit i24ScaleLit) (fo.ofInt (i24ValueBE c0 c1 c2))) ∧
    (∃ s2 cells, load_data_i24 fo k true s ch data n stride = some (true, s2) ∧
      s2.cellsF32 ch = some cells ∧ (dataRegion k n cells).length = n ∧
      ∀ i, i < n → (dataRegion k n cells)[i]? =
        some (some (fo.mul (fo.lit i24ScaleLit)
          (fo.ofInt (twosComplement 24
            (ubyteAt data (toUInt32 ((i : Int) * (stride : Int))) +
              256 * ubyteAt data (toUInt32 ((i : Int) * (stride : Int)) + 1) +
              65536 * ubyteAt data (toUInt32 ((i : Int) * (stride : Int)) + 2))))))) ∧
    (∃ s2 cells, load_data_i24BE fo k true s ch data n stride = some (true, s2) ∧
      s2.cellsF32 ch = some cells ∧ (dataRegion k n cells).length = n ∧
      ∀ i, i < n → (dataRegion k n cells)[i]? =
        some (some (fo.mul (fo.lit i24ScaleLit)
          (fo.ofInt (twosComplement 24
            (ubyteAt data (toUInt32 ((i : Int) * (stride : Int)) + 2) +
              256 * ubyteAt data (toUInt32 ((i : Int) * (stride : Int)) + 1) +
              65536 * ubyteAt data (toUInt32 ((i : Int) * (stride : Int))))))))) ∧
    (∀ sq : Sample ℚ,
      (∃ s2 cells, load_data_i24 exactOps k true sq ch data n stride = some (true, s2) ∧
        s2.cellsF32 ch = some cells ∧
        ∀ i, i < n → ∃ v : ℚ, (dataRegion k n cells)[i]? = some (some v) ∧ |v| ≤ 1) ∧
      (∃ s2 cells, load_data_i24BE exactOps k true sq ch data n stride = some (true, s2) ∧
        s2.cellsF32 ch = some cells ∧
        ∀ i, i < n → ∃ v : ℚ, (dataRegion k n cells)[i]? = some (some v) ∧ |v| ≤ 1)) := by
  have hmag : ∀ c0 c1 c2 : Nat, c0 < 256 → c1 < 256 → c2 < 256 →
      |exactOps.mul (exactOps.lit i24ScaleLit) (exactOps.ofInt (i24Value c0 c1 c2))| ≤ 1 := by
    intro c0 c1 c2 h0 h1 h2
    have hv := i24Value_eq c0 c1 c2 h0 h1 h2
    have hlo : -8388608 ≤ i24Value c0 c1 c2 := by
      rw [hv]; unfold twosComplement; split_ifs <;> omega
    have hhi : i24Value c0 c1 c2 ≤ 8388607 := by
      rw [hv]; unfold twosComplement; split_ifs <;> omega
    have hq1 : (-8388608 : ℚ) ≤ (i24Value c0 c1 c2 : ℚ) := by exact_mod_cast hlo
    have hq2 : (i24Value c0 c1 c2 : ℚ) ≤ 8388607 := by exact_mod_cast hhi
    show |i24ScaleLit * (i24Value c0 c1 c2 : ℚ)| ≤ 1
    unfold i24ScaleLit
    rw [abs_le]
    constructor <;> nlinarith
  have harith : ∀ off : Nat,
      let c0 := ubyteAt data off
      let c1 := ubyteAt data (off + 1)
      let c2 := ubyteAt data (off + 2)
      let value := i24Value c0 c1 c2
      value = twosComplement 24 (c0 + 256 * c1 + 65536 * c2) ∧
      -8388608 ≤ value ∧ value ≤ 8388607 ∧
      (value < 0 ↔ 128 ≤ c2) ∧
      conv_i24 fo data off = fo.mul (fo.lit i24ScaleLit) (fo.ofInt value) ∧
      |i24ScaleLit - 1 / 2 ^ 23| < 1 / 2 ^ 48 ∧
      |exactOps.mul (exactOps.lit i24ScaleLit) (exactOps.ofInt value)| ≤ 1 ∧
      |(1 / 2 ^ 23 : ℚ) * (value : ℚ)| ≤ 1 ∧
      i24ValueBE c2 c1 c0 = value ∧
      conv_i24BE fo data off =
        fo.mul (fo.lit i24ScaleLit) (fo.ofInt (i24ValueBE c0 c1 c2)) := by
    intro off c0 c1 c2 value
    have h0 : c0 < 256 := ubyteAt_lt data off
    have h1 : c1 < 256 := ubyteAt_lt data (off + 1)
    have h2 : c2 < 256 := ubyteAt_lt data (off + 2)
    have hv : value = twosComplement 24 (c0 + 256 * c1 + 65536 * c2) :=
      i24Value_eq c0 c1 c2 h0 h1 h2
    have hlo : -8388608 ≤ value := by
      rw [hv]; unfold twosComplement; split_ifs <;> omega
    have hhi : value ≤ 8388607 := by
      rw [hv]; unfold twosComplement; split_ifs <;> omega
    have hneg : value < 0 ↔ 128 ≤ c2 := by
      rw [hv]; unfold twosComplement; split_ifs <;> omega
    have hq1 : (-8388608 : ℚ) ≤ (value : ℚ) := by exact_mod_cast hlo
    have hq2 : (value : ℚ) ≤ 8388607 := by exact_mod_cast hhi
    refine ⟨hv, hlo, hhi, hneg, rfl, ?_, ?_, ?_, rfl, rfl⟩
    · unfold i24ScaleLit
      rw [abs_lt]
      constructor <;> norm_num
    · show |i24ScaleLit * (value : ℚ)| ≤ 1
      unfold i24ScaleLit
      rw [abs_le]
      constructor <;> nlinarith
    · rw [abs_le]
      constructor <;> nlinarith
  refine ⟨harith, ?_, ?_, ?_⟩
  rotate_right
  · intro sq
    constructor
    · obtain ⟨s2, cells, e1, e2, _, _, e5⟩ := loadF32With_cells exactOps (conv_i24 exactOps) k sq
        ch data n stride hch hk hn
      refine ⟨s2, cells, e1, e2, ?_⟩
      intro i hi
      exact ⟨_, e5 i hi, hmag _ _ _ (ubyteAt_lt _ _) (ubyteAt_lt _ _) (ubyteAt_lt _ _)⟩
    · obtain ⟨s2, cells, e1, e2, _, _, e5⟩ := loadF32With_cells exactOps (conv_i24BE exactOps) k
        sq ch data n stride hch hk hn
      refine ⟨s2, cells, e1, e2, ?_⟩
      intro i hi
      refine ⟨_, e5 i hi, ?_⟩
      unfold conv_i24BE
      rw [i24ValueBE_eq]
      exact hmag _ _ _ (ubyteAt_lt _ _) (ubyteAt_lt _ _) (ubyteAt_lt _ _)
  · obtain ⟨s2, cells, e1, e2, _, e4, e5⟩ := loadF32With_cells fo (conv_i24 fo) k s ch data n
      stride hch hk hn
    refine ⟨s2, cells, e1, e2, e4, ?_⟩
    intro i hi
    rw [e5 i hi]
    unfold conv_i24
    rw [i24Value_eq _ _ _ (ubyteAt_lt _ _) (ubyteAt_lt _ _) (ubyteAt_lt _ _)]
  · obtain ⟨s2, cells, e1, e2, _, e4, e5⟩ := loadF32With_cells fo (conv_i24BE fo) k s ch data n
      stride hch hk hn
    refine ⟨s2, cells, e1, e2, e4, ?_⟩
    intro i hi
    rw [e5 i hi]
    unfold conv_i24BE
    rw [i24ValueBE_eq, i24Value_eq _ _ _ (ubyteAt_lt _ _) (ubyteAt_lt _ _) (ubyteAt_lt _ _)]

/-- An instance of C2: two frames of three bytes loaded into channel 0. -/
theorem load_data_i24_value_witness :
    ∃ s2 cells, load_data_i24 exactOps consts16 true blankSample 0 rampBytes 2 3 =
        some (true, s2) ∧
      s2.cellsF32 0 = some cells ∧ (dataRegion consts16 2 cells).length = 2 ∧
      ∀ i : Nat, i < 2 → (dataRegion consts16 2 cells)[i]? =
        some (some (exactOps.mul (exactOps.lit i24ScaleLit)
          (exactOps.ofInt (twosComplement 24
            (ubyteAt rampBytes (toUInt32 ((i : Int) * ((3 : Nat) : Int))) +
              256 * ubyteAt rampBytes (toUInt32 ((i : Int) * ((3 : Nat) : Int)) + 1) +
              65536 * ubyteAt rampBytes (toUInt32 ((i : Int) * ((3 : Nat) : Int)) + 2)))))) :=
  (load_data_i24_value exactOps consts16 blankSample 0 rampBytes 2 3 (by decide) (by decide)
    (by decide)).2.1

/-- C3. For every source byte `b`, the frame conversion of `load_data_ui8` is `(b - 128) * 256`:
byte 128 gives 0, the value lies in `[-32768, 32512]`, its low 8 bits are zero, and `b` is the
value divided by 256 plus 128; the conversion of `load_data_i8` is `c * 256` for the signed
value `c` of the byte, whether plain `char` is signed or not. Both products lie inside the
16-bit range: the shifts give them without wrap-around and the conversion to `short` changes
nothing. Whenever the call is defined, `load_data_ui8` returns `true` and data cell `i` of the
channel holds `(b - 128) * 256` for the byte `b` at byte offset `i * stride`, and `load_data_i8`
returns `true` and data cell `i` holds `c * 256` for the signed value `c` of that byte. -/
theorem load_data_ui8_i8_value {F : Type} (charSigned : Bool) (k : Consts) (s : Sample F)
    (ch : Nat) (data : Bytes) (n stride : Nat) (hch : ch < 2)
    (hk : 2 * k.FIRoffset ≤ k.FIRipol_N) (hn : n + k.FIRipol_N < 2147483648) :
    (∀ off : Nat,
      let b : Int := ubyteAt data off
      let c : Int := twosComplement 8 (ubyteAt data off)
      conv_ui8 data off = (b - 128) * 256 ∧
      (b = 128 → conv_ui8 data off = 0) ∧
      -32768 ≤ conv_ui8 data off ∧ conv_ui8 data off ≤ 32512 ∧
      conv_ui8 data off % 256 = 0 ∧
      conv_ui8 data off / 256 + 128 = b ∧
      -128 ≤ c ∧ c ≤ 127 ∧
      conv_i8 charSigned data off = c * 256 ∧
      -32768 ≤ c * 256 ∧ c * 256 ≤ 32767 ∧
      shl32 (b - 128) 8 = (b - 128) * 256 ∧ shl32 (charAt true data off) 8 = c * 256 ∧
      toInt16 ((b - 128) * 256) = (b - 128) * 256 ∧ toInt16 (c * 256) = c * 256) ∧
    (∃ s2 cells, load_data_ui8 k true s ch data n stride = some (true, s2) ∧
      s2.cellsI16 ch = some cells ∧ (dataRegion k n cells).length = n ∧
      ∀ i, i < n → (dataRegion k n cells)[i]? =
        some (some (((ubyteAt data (toUInt32 ((i : Int) * (stride : Int))) : Int) - 128) *
          256))) ∧
    (∃ s2 cells, load_data_i8 charSigned k true s ch data n stride = some (true, s2) ∧
      s2.cellsI16 ch = some cells ∧ (dataRegion k n cells).length = n ∧
      ∀ i, i < n → (dataRegion k n cells)[i]? =
        some (some (twosComplement 8 (ubyteAt data (toUInt32 ((i : Int) * (stride : Int)))) *
          256))) := by
  have harith : ∀ off : Nat,
      let b : Int := ubyteAt data off
      let c : Int := twosComplement 8 (ubyteAt data off)
      conv_ui8 data off = (b - 128) * 256 ∧
      (b = 128 → conv_ui8 data off = 0) ∧
      -32768 ≤ conv_ui8 data off ∧ conv_ui8 data off ≤ 32512 ∧
      conv_ui8 data off % 256 = 0 ∧
      conv_ui8 data off / 256 + 128 = b ∧
      -128 ≤ c ∧ c ≤ 127 ∧
      conv_i8 charSigned data off = c * 256 ∧
      -32768 ≤ c * 256 ∧ c * 256 ≤ 32767 ∧
      shl32 (b - 128) 8 = (b - 128) * 256 ∧ shl32 (charAt true data off) 8 = c * 256 ∧
      toInt16 ((b - 128) * 256) = (b - 128) * 256 ∧ toInt16 (c * 256) = c * 256 := by
    intro off b c
    have hb : ubyteAt data off < 256 := ubyteAt_lt data off
    have e1 := conv_ui8_eq data off
    have e2 := conv_i8_eq charSigned data off
    have hc : -128 ≤ c ∧ c ≤ 127 := by
      show -128 ≤ twosComplement 8 (ubyteAt data off) ∧
        twosComplement 8 (ubyteAt data off) ≤ 127
      unfold twosComplement; split_ifs <;> omega
    rw [e1]
    have e3 : shl32 ((ubyteAt data off : Int) - 128) 8 =
        ((ubyteAt data off : Int) - 128) * 256 := by
      unfold shl32 toInt32; omega
    have e4 : shl32 (charAt true data off) 8 = twosComplement 8 (ubyteAt data off) * 256 := by
      unfold shl32 toInt32 charAt twosComplement
      simp only [if_true]
      split_ifs <;> omega
    refine ⟨rfl, ?_, ?_, ?_, ?_, ?_, hc.1, hc.2, e2, ?_, ?_, e3, e4, ?_, ?_⟩
    · intro h
      show ((ubyteAt data off : Int) - 128) * 256 = 0
      have : (ubyteAt data off : Int) = 128 := h
      omega
    · omega
    · omega
    · omega
    · show ((ubyteAt data off : Int) - 128) * 256 / 256 + 128 = (ubyteAt data off : Int)
      omega
    · omega
    · omega
    · show toInt16 (((ubyteAt data off : Int) - 128) * 256) =
        ((ubyteAt data off : Int) - 128) * 256
      unfold toInt16; omega
    · unfold toInt16; omega
  refine ⟨harith, ?_, ?_⟩
  · obtain ⟨s2, cells, e1, e2, _, e4, e5⟩ := loadI16With_cells conv_ui8 k s ch data n
      stride hch hk hn
    refine ⟨s2, cells, e1, e2, e4, ?_⟩
    intro i hi
    rw [e5 i hi, conv_ui8_eq]
  · obtain ⟨s2, cells, e1, e2, _, e4, e5⟩ := loadI16With_cells (conv_i8 charSigned) k s ch
      data n stride hch hk hn
    refine ⟨s2, cells, e1, e2, e4, ?_⟩
    intro i hi
    rw [e5 i hi, conv_i8_eq]

/-- An instance of C3: three frames with stride 2 loaded into channel 0. -/
theorem load_data_ui8_i8_value_witness :
    ∃ s2 cells, load_data_ui8 consts16 true blankSample 0 rampBytes 3 2 = some (true, s2) ∧
      s2.cellsI16 0 = some cells ∧ (dataRegion consts16 3 cells).length = 3 ∧
      ∀ i : Nat, i < 3 → (dataRegion consts16 3 cells)[i]? =
        some (some (((ubyteAt rampBytes (toUInt32 ((i : Int) * ((2 : Nat) : Int))) : Int) -
          128) * 256)) :=
  (load_data_ui8_i8_value true consts16 blankSample 0 rampBytes 3 2 (by decide) (by decide)
    (by decide)).2.1

theorem storesInt16_loadI16With {F : Type} (conv : Bytes → Nat → Int) (k : Consts)
    (s : Sample F) (ch : Nat) (data : Bytes) (n stride : Nat) (hch : ch < 2)
    (hk : 2 * k.FIRoffset ≤ k.FIRipol_N) (hn : n + k.FIRipol_N < 2147483648) :
    StoresInt16 k (loadI16With conv k true s ch data n stride) := by
  obtain ⟨s2, h1, h2⟩ := loadI16With_spec conv k s ch data n stride hch hk hn
  have hu : s2.UseInt16 = true := Sample.setData_UseInt16 _ s2 ch _ h2
  exact ⟨s2, h1, hu, fun c => by simp [GetSamplePtrF32, hu]⟩

theorem storesFloat32_loadF32With {F : Type} (fo : FloatOps F) (conv : Bytes → Nat → F)
    (k : Consts) (s : Sample F) (ch : Nat) (data : Bytes) (n stride : Nat) (hch : ch < 2)
    (hk : 2 * k.FIRoffset ≤ k.FIRipol_N) (hn : n + k.FIRipol_N < 2147483648) :
    StoresFloat32 k (loadF32With fo conv k true s ch data n stride) := by
  obtain ⟨s2, h1, h2⟩ := loadF32With_spec fo conv k s ch data n stride hch hk hn
  have hu : s2.UseInt16 = false := Sample.setData_UseInt16 _ s2 ch _ h2
  exact ⟨s2, h1, hu, fun c => by simp [GetSamplePtrI16, hu]⟩

/-- When `malloc` fails and no frame is asked for, a loader into 16-bit storage returns `true`
and leaves `UseInt16` as it was: `allocateI16` returns before it assigns the flag, and the
loader does not look at the result. -/
theorem loadI16With_alloc_failure {F : Type} (conv : Bytes → Nat → Int) (k : Consts)
    (s : Sample F) (ch : Nat) (data : Bytes) (stride : Nat) (hch : ch < 2) :
    ∃ s1, loadI16With conv k false s ch data 0 stride = some (true, s1) ∧
      s1.UseInt16 = s.UseInt16 := by
  have h : ch = 0 ∨ ch = 1 := by omega
  rcases h with h | h <;> subst h
  · exact ⟨{ s with sampleData0 := none },
      by simp [loadI16With, allocateI16, Sample.setData, forLoop], rfl⟩
  · exact ⟨{ s with sampleData1 := none },
      by simp [loadI16With, allocateI16, Sample.setData, forLoop], rfl⟩

/-- The same for a loader into float storage. -/
theorem loadF32With_alloc_failure {F : Type} (fo : FloatOps F) (conv : Bytes → Nat → F)
    (k : Consts) (s : Sample F) (ch : Nat) (data : Bytes) (stride : Nat) (hch : ch < 2) :
    ∃ s1, loadF32With fo conv k false s ch data 0 stride = some (true, s1) ∧
      s1.UseInt16 = s.UseInt16 := by
  have h : ch = 0 ∨ ch = 1 := by omega
  rcases h with h | h <;> subst h
  · exact ⟨{ s with sampleData0 := none },
      by simp [loadF32With, allocateF32, Sample.setData, forLoop], rfl⟩
  · exact ⟨{ s with sampleData1 := none },
      by simp [loadF32With, allocateF32, Sample.setData, forLoop], rfl⟩

/-- C4 (amended). When the allocation succeeds: after `load_data_ui8`, `load_data_i8`,
`load_data_i16` or `load_data_i16BE` the sample is in 16-bit integer storage (`UseInt16` true,
`GetSamplePtrF32` null); after `load_data_i24`, `load_data_i24BE`, `load_data_i32`,
`load_data_i32BE`, `load_data_f32` or `load_data_f64` it is in 32-bit float storage (`UseInt16`
false, `GetSamplePtrI16` null). This holds for every previous state of the sample, every source
buffer and stride, either signedness of `char` and either host byte order, whenever the call is
defined (the channel index is inside the array, `FIRipol_N` covers both guards, the frame count
with the margin fits `int`). When `malloc` fails and no frame is asked for, each of the ten
loaders still returns `true` and leaves `UseInt16` as it was. -/
theorem load_data_storage_encoding {F : Type} (fo : FloatOps F) (charSigned hostBE : Bool)
    (k : Consts) (s : Sample F) (ch : Nat) (data : Bytes) (n stride : Nat) (hch : ch < 2)
    (hk : 2 * k.FIRoffset ≤ k.FIRipol_N) (hn : n + k.FIRipol_N < 2147483648) :
    (StoresInt16 k (load_data_ui8 k true s ch data n stride) ∧
     StoresInt16 k (load_data_i8 charSigned k true s ch data n stride) ∧
     StoresInt16 k (load_data_i16 hostBE k true s ch data n stride) ∧
     StoresInt16 k (load_data_i16BE hostBE k true s ch data n stride) ∧
     StoresFloat32 k (load_data_i24 fo k true s ch data n stride) ∧
     StoresFloat32 k (load_data_i24BE fo k true s ch data n stride) ∧
     StoresFloat32 k (load_data_i32 fo hostBE k true s ch data n stride) ∧
     StoresFloat32 k (load_data_i32BE fo hostBE k true s ch data n stride) ∧
     StoresFloat32 k (load_data_f32 fo hostBE k true s ch data n stride) ∧
     StoresFloat32 k (load_data_f64 fo hostBE k true s ch data n stride)) ∧
    ((∃ s1, load_data_ui8 k false s ch data 0 stride = some (true, s1) ∧
        s1.UseInt16 = s.UseInt16) ∧
     (∃ s1, load_data_i8 charSigned k false s ch data 0 stride = some (true, s1) ∧
        s1.UseInt16 = s.UseInt16) ∧
     (∃ s1, load_data_i16 hostBE k false s ch data 0 stride = some (true, s1) ∧
        s1.UseInt16 = s.UseInt16) ∧
     (∃ s1, load_data_i16BE hostBE k false s ch data 0 stride = some (true, s1) ∧
        s1.UseInt16 = s.UseInt16) ∧
     (∃ s1, load_data_i24 fo k false s ch data 0 stride = some (true, s1) ∧
        s1.UseInt16 = s.UseInt16) ∧
     (∃ s1, load_data_i24BE fo k false s ch data 0 stride = some (true, s1) ∧
        s1.UseInt16 = s.UseInt16) ∧
     (∃ s1, load_data_i32 fo hostBE k false s ch data 0 stride = some (true, s1) ∧
        s1.UseInt16 = s.UseInt16) ∧
     (∃ s1, load_data_i32BE fo hostBE k false s ch data 0 stride = some (true, s1) ∧
        s1.UseInt16 = s.UseInt16) ∧
     (∃ s1, load_data_f32 fo hostBE k false s ch data 0 stride = some (true, s1) ∧
        s1.UseInt16 = s.UseInt16) ∧
     (∃ s1, load_data_f64 fo hostBE k false s ch data 0 stride = some (true, s1) ∧
        s1.UseInt16 = s.UseInt16)) :=
  ⟨⟨storesInt16_loadI16With _ k s ch data n stride hch hk hn,
    storesInt16_loadI16With _ k s ch data n stride hch hk hn,
    storesInt16_loadI16With _ k s ch data n stride hch hk hn,
    storesInt16_loadI16With _ k s ch data n stride hch hk hn,
    storesFloat32_loadF32With fo _ k s ch data n stride hch hk hn,
    storesFloat32_loadF32With fo _ k s ch data n stride hch hk hn,
    storesFloat32_loadF32With fo _ k s ch data n stride hch hk hn,
    storesFloat32_loadF32With fo _ k s ch data n stride hch hk hn,
    storesFloat32_loadF32With fo _ k s ch data n stride hch hk hn,
    storesFloat32_loadF32With fo _ k s ch data n stride hch hk hn⟩,
   ⟨loadI16With_alloc_failure _ k s ch data stride hch,
    loadI16With_alloc_failure _ k s ch data stride hch,
    loadI16With_alloc_failure _ k s ch data stride hch,
    loadI16With_alloc_failure _ k s ch data stride hch,
    loadF32With_alloc_failure fo _ k s ch data stride hch,
    loadF32With_alloc_failure fo _ k s ch data stride hch,
    loadF32With_alloc_failure fo _ k s ch data stride hch,
    loadF32With_alloc_failure fo _ k s ch data stride hch,
    loadF32With_alloc_failure fo _ k s ch data stride hch,
    loadF32With_alloc_failure fo _ k s ch data stride hch⟩⟩

/-- An instance of C4 (amended): four frames with stride 3 into channel 1. -/
theorem load_data_storage_encoding_witness :
    StoresInt16 consts16 (load_data_ui8 consts16 true blankSample 1 rampBytes 4 3) ∧
    StoresInt16 consts16 (load_data_i8 true consts16 true blankSample 1 rampBytes 4 3) ∧
    StoresInt16 consts16 (load_data_i16 false consts16 true blankSample 1 rampBytes 4 3) ∧
    StoresInt16 consts16 (load_data_i16BE false consts16 true blankSample 1 rampBytes 4 3) ∧
    StoresFloat32 consts16 (load_data_i24 exactOps consts16 true blankSample 1 rampBytes 4 3) ∧
    StoresFloat32 consts16 (load_data_i24BE exactOps consts16 true blankSample 1 rampBytes 4 3) ∧
    StoresFloat32 consts16
      (load_data_i32 exactOps false consts16 true blankSample 1 rampBytes 4 3) ∧
    StoresFloat32 consts16
      (load_data_i32BE exactOps false consts16 true blankSample 1 rampBytes 4 3) ∧
    StoresFloat32 consts16
      (load_data_f32 exactOps false consts16 true blankSample 1 rampBytes 4 3) ∧
    StoresFloat32 consts16
      (load_data_f64 exactOps false consts16 true blankSample 1 rampBytes 4 3) :=
  (load_data_storage_encoding exactOps true false consts16 blankSample 1 rampBytes 4 3
    (by decide) (by decide) (by decide)).1

/-- C4 (as stated) fails when `malloc` fails and no frame is asked for: `load_data_ui8` on a
sample with `UseInt16` false returns `true` and leaves `UseInt16` false and no block, and
`load_data_f32` on a sample with `UseInt16` true returns `true` and leaves `UseInt16` true. -/
theorem load_data_storage_encoding_counterexample :
    (load_data_ui8 consts16 false blankSample 0 zeroBytes 0 1).map
        (fun r => (r.1, r.2.UseInt16, (r.2.cellsI16 0).isSome)) = some (true, false, false) ∧
    ¬ StoresInt16 consts16 (load_data_ui8 consts16 false blankSample 0 zeroBytes 0 1) ∧
    (load_data_f32 exactOps false consts16 false { blankSample with UseInt16 := true } 0
        zeroBytes 0 1).map (fun r => (r.1, r.2.UseInt16)) = some (true, true) ∧
    ¬ StoresFloat32 consts16
      (load_data_f32 exactOps false consts16 false { blankSample with UseInt16 := true } 0
        zeroBytes 0 1) := by
  have h1 : (load_data_ui8 consts16 false blankSample 0 zeroBytes 0 1).map
      (fun r => (r.1, r.2.UseInt16, (r.2.cellsI16 0).isSome)) = some (true, false, false) := by
    decide
  have h2 : (load_data_f32 exactOps false consts16 false { blankSample with UseInt16 := true } 0
      zeroBytes 0 1).map (fun r => (r.1, r.2.UseInt16)) = some (true, true) := by
    decide
  refine ⟨h1, ?_, h2, ?_⟩
  · rintro ⟨s1, e, hu, _⟩
    rw [e] at h1
    simp only [Option.map_some', Option.some.injEq, Prod.mk.injEq] at h1
    rw [hu] at h1
    exact absurd h1.2.1 (by decide)
  · rintro ⟨s1, e, hu, _⟩
    rw [e] at h2
    simp only [Option.map_some', Option.some.injEq, Prod.mk.injEq] at h2
    rw [hu] at h2
    exact absurd h2.2 (by decide)

theorem blockOf_getElem_opt_outside {α : Type} (k : Consts) (z : α) (mid mid2 : List (Option α))
    (hl : mid.length = mid2.length) (j : Nat)
    (hj : j < k.FIRoffset ∨ k.FIRoffset + mid.length ≤ j) :
    (blockOf k z mid)[j]? = (blockOf k z mid2)[j]? := by
  simp only [blockOf, List.getElem?_append, List.length_replicate]
  by_cases a : j < k.FIRoffset
  · simp [a]
  · have b : ¬ j - k.FIRoffset < mid.length := by omega
    have b2 : ¬ j - k.FIRoffset < mid2.length := by omega
    rw [if_neg a, if_neg a, if_neg b, if_neg b2, hl]

theorem keepsGuardsI16_loadI16With {F : Type} (conv : Bytes → Nat → Int) (k : Consts)
    (s : Sample F) (ch : Nat) (data : Bytes) (n stride : Nat) (hch : ch < 2)
    (hk : 2 * k.FIRoffset ≤ k.FIRipol_N) (hn : n + k.FIRipol_N < 2147483648) :
    KeepsGuardsI16 k n ch (allocateI16 k true s ch (toInt32 n))
      (loadI16With conv k true s ch data n stride) := by
  obtain ⟨s2, h1, h2⟩ := loadI16With_spec conv k s ch data n stride hch hk hn
  obtain ⟨s1, hs1⟩ := Sample.setData_isSome { s with UseInt16 := true } ch
    (some (ChannelData.i16 (blockOf k 0 (List.replicate n none)))) hch
  have hf : (framesOf conv data n stride).length = n := framesOf_length conv data n stride
  refine ⟨s1, s2, _, _, ?_, h1, Sample.cellsI16_setData _ s1 ch _ hs1,
    Sample.cellsI16_setData _ s2 ch _ h2, guardBefore_blockOf k 0 _, ?_, ?_, ?_, ?_⟩
  · rw [allocateI16_eq k s ch n hk hn, hs1]; rfl
  · have := guardAfter_blockOf k (0 : Int) (framesOf conv data n stride)
    rwa [hf] at this
  · rw [blockOf_length k _ _ hk, blockOf_length k _ _ hk, hf, List.length_replicate]
  · intro j hj
    exact blockOf_getElem_opt_outside k 0 _ _ (by rw [hf, List.length_replicate]) j
      (by rw [hf]; exact hj)
  · rw [Sample.setData_setData _ s1 ch _ _ hs1]; exact h2

theorem keepsGuardsF32_loadF32With {F : Type} (fo : FloatOps F) (conv : Bytes → Nat → F)
    (k : Consts) (s : Sample F) (ch : Nat) (data : Bytes) (n stride : Nat) (hch : ch < 2)
    (hk : 2 * k.FIRoffset ≤ k.FIRipol_N) (hn : n + k.FIRipol_N < 2147483648) :
    KeepsGuardsF32 fo k n ch (allocateF32 fo k true s ch (toInt32 n))
      (loadF32With fo conv k true s ch data n stride) := by
  obtain ⟨s2, h1, h2⟩ := loadF32With_spec fo conv k s ch data n stride hch hk hn
  obtain ⟨s1, hs1⟩ := Sample.setData_isSome { s with UseInt16 := false } ch
    (some (ChannelData.f32 (blockOf k fo.zero (List.replicate n none)))) hch
  have hf : (framesOf conv data n stride).length = n := framesOf_length conv data n stride
  refine ⟨s1, s2, _, _, ?_, h1, Sample.cellsF32_setData _ s1 ch _ hs1,
    Sample.cellsF32_setData _ s2 ch _ h2, guardBefore_blockOf k fo.zero _, ?_, ?_, ?_, ?_⟩
  · rw [allocateF32_eq fo k s ch n hk hn, hs1]; rfl
  · have := guardAfter_blockOf k fo.zero (framesOf conv data n stride)
    rwa [hf] at this
  · rw [blockOf_length k _ _ hk, blockOf_length k _ _ hk, hf, List.length_replicate]
  · intro j hj
    exact blockOf_getElem_opt_outside k fo.zero _ _ (by rw [hf, List.length_replicate]) j
      (by rw [hf]; exact hj)
  · rw [Sample.setData_setData _ s1 ch _ _ hs1]; exact h2

/-- C5. For every channel of the array, every frame count `n` and every loader: after the call
the `FIRoffset` cells before the `n` data cells and the `FIRoffset` cells after them are all
zero, and the loader wrote data cells only: every other cell, and every other member of the
object, is as the allocation at the start of the loader left it. This holds for every previous
state, source buffer and stride, either signedness of `char` and either host byte order,
whenever the call is defined (`FIRipol_N` covers both guards, the frame count with the margin
fits `int`, `malloc` succeeds). -/
theorem load_data_guards_zero {F : Type} (fo : FloatOps F) (charSigned hostBE : Bool)
    (k : Consts) (s : Sample F) (ch : Nat) (data : Bytes) (n stride : Nat) (hch : ch < 2)
    (hk : 2 * k.FIRoffset ≤ k.FIRipol_N) (hn : n + k.FIRipol_N < 2147483648) :
    KeepsGuardsI16 k n ch (allocateI16 k true s ch (toInt32 n))
      (load_data_ui8 k true s ch data n stride) ∧
    KeepsGuardsI16 k n ch (allocateI16 k true s ch (toInt32 n))
      (load_data_i8 charSigned k true s ch data n stride) ∧
    KeepsGuardsI16 k n ch (allocateI16 k true s ch (toInt32 n))
      (load_data_i16 hostBE k true s ch data n stride) ∧
    KeepsGuardsI16 k n ch (allocateI16 k true s ch (toInt32 n))
      (load_data_i16BE hostBE k true s ch data n stride) ∧
    KeepsGuardsF32 fo k n ch (allocateF32 fo k true s ch (toInt32 n))
      (load_data_i24 fo k true s ch data n stride) ∧
    KeepsGuardsF32 fo k n ch (allocateF32 fo k true s ch (toInt32 n))
      (load_data_i24BE fo k true s ch data n stride) ∧
    KeepsGuardsF32 fo k n ch (allocateF32 fo k true s ch (toInt32 n))
      (load_data_i32 fo hostBE k true s ch data n stride) ∧
    KeepsGuardsF32 fo k n ch (allocateF32 fo k true s ch (toInt32 n))
      (load_data_i32BE fo hostBE k true s ch data n stride) ∧
    KeepsGuardsF32 fo k n ch (allocateF32 fo k true s ch (toInt32 n))
      (load_data_f32 fo hostBE k true s ch data n stride) ∧
    KeepsGuardsF32 fo k n ch (allocateF32 fo k true s ch (toInt32 n))
      (load_data_f64 fo hostBE k true s ch data n stride) :=
  ⟨keepsGuardsI16_loadI16With _ k s ch data n stride hch hk hn,
   keepsGuardsI16_loadI16With _ k s ch data n stride hch hk hn,
   keepsGuardsI16_loadI16With _ k s ch data n stride hch hk hn,
   keepsGuardsI16_loadI16With _ k s ch data n stride hch hk hn,
   keepsGuardsF32_loadF32With fo _ k s ch data n stride hch hk hn,
   keepsGuardsF32_loadF32With fo _ k s ch data n stride hch hk hn,
   keepsGuardsF32_loadF32With fo _ k s ch data n stride hch hk hn,
   keepsGuardsF32_loadF32With fo _ k s ch data n stride hch hk hn,
   keepsGuardsF32_loadF32With fo _ k s ch data n stride hch hk hn,
   keepsGuardsF32_loadF32With fo _ k s ch data n stride hch hk hn⟩

/-- An instance of C5: three frames into channel 1. -/
theorem load_data_guards_zero_witness :
    KeepsGuardsI16 consts16 3 1 (allocateI16 consts16 true blankSample 1 (toInt32 (3 : Nat)))
      (load_data_i16 false consts16 true blankSample 1 rampBytes 3 2) ∧
    KeepsGuardsF32 exactOps consts16 3 1
      (allocateF32 exactOps consts16 true blankSample 1 (toInt32 (3 : Nat)))
      (load_data_f64 exactOps false consts16 true blankSample 1 rampBytes 3 2) :=
  have h := load_data_guards_zero exactOps true false consts16 blankSample 1 rampBytes 3 2
    (by decide) (by decide) (by decide)
  ⟨h.2.2.1, h.2.2.2.2.2.2.2.2.2⟩

theorem leWord_congr (d1 d2 : Bytes) :
    ∀ (w off : Nat), (∀ j, j < w → ubyteAt d1 (off + j) = ubyteAt d2 (off + j)) →
      leWord d1 off w = leWord d2 off w := by
  intro w
  induction w with
  | zero => intro off _; rfl
  | succ w ih =>
    intro off h
    simp only [leWord]
    have h0 : ubyteAt d1 off = ubyteAt d2 off := h 0 (by omega)
    rw [h0, ih (off + 1) (fun j hj => by
      have := h (j + 1) (by omega)
      rwa [show off + (j + 1) = off + 1 + j by omega] at this)]

theorem beWord_congr (d1 d2 : Bytes) :
    ∀ (w off : Nat), (∀ j, j < w → ubyteAt d1 (off + j) = ubyteAt d2 (off + j)) →
      beWord d1 off w = beWord d2 off w := by
  intro w
  induction w with
  | zero => intro off _; rfl
  | succ w ih =>
    intro off h
    simp only [beWord]
    have h0 : ubyteAt d1 off = ubyteAt d2 off := h 0 (by omega)
    rw [h0, ih (off + 1) (fun j hj => by
      have := h (j + 1) (by omega)
      rwa [show off + (j + 1) = off + 1 + j by omega] at this)]

theorem hostWord_congr (hostBE : Bool) (d1 d2 : Bytes) (w off : Nat)
    (h : ∀ j, j < w → ubyteAt d1 (off + j) = ubyteAt d2 (off + j)) :
    hostWord hostBE d1 off w = hostWord hostBE d2 off w := by
  unfold hostWord
  rw [leWord_congr d1 d2 w off h, beWord_congr d1 d2 w off h]

theorem convLocal_ui8 : ConvLocal 1 conv_ui8 := by
  intro d1 d2 off h
  have := h 0 (by omega)
  simp only [Nat.add_zero] at this
  simp only [conv_ui8, this]

theorem convLocal_i8 (charSigned : Bool) : ConvLocal 1 (conv_i8 charSigned) := by
  intro d1 d2 off h
  have := h 0 (by omega)
  simp only [Nat.add_zero] at this
  simp only [conv_i8, charAt, this]

theorem convLocal_i16 (hostBE : Bool) : ConvLocal 2 (conv_i16 hostBE) := by
  intro d1 d2 off h
  simp only [conv_i16, readShort, hostWord_congr hostBE d1 d2 2 off h]

theorem convLocal_i16BE (hostBE : Bool) : ConvLocal 2 (conv_i16BE hostBE) := by
  intro d1 d2 off h
  simp only [conv_i16BE, readShort, hostWord_congr hostBE d1 d2 2 off h]

theorem convLocal_i24 {F : Type} (fo : FloatOps F) : ConvLocal 3 (conv_i24 fo) := by
  intro d1 d2 off h
  have h0 := h 0 (by omega)
  have h1 := h 1 (by omega)
  have h2 := h 2 (by omega)
  simp only [Nat.add_zero] at h0
  simp only [conv_i24, h0, h1, h2]

theorem convLocal_i24BE {F : Type} (fo : FloatOps F) : ConvLocal 3 (conv_i24BE fo) := by
  intro d1 d2 off h
  have h0 := h 0 (by omega)
  have h1 := h 1 (by omega)
  have h2 := h 2 (by omega)
  simp only [Nat.add_zero] at h0
  simp only [conv_i24BE, h0, h1, h2]

theorem convLocal_i32 {F : Type} (fo : FloatOps F) (hostBE : Bool) :
    ConvLocal 4 (conv_i32 fo hostBE) := by
  intro d1 d2 off h
  simp only [conv_i32, readInt, hostWord_congr hostBE d1 d2 4 off h]

theorem convLocal_i32BE {F : Type} (fo : FloatOps F) (hostBE : Bool) :
    ConvLocal 4 (conv_i32BE fo hostBE) := by
  intro d1 d2 off h
  simp only [conv_i32BE, readInt, hostWord_congr hostBE d1 d2 4 off h]

theorem convLocal_f32 {F : Type} (fo : FloatOps F) (hostBE : Bool) :
    ConvLocal 4 (conv_f32 fo hostBE) := by
  intro d1 d2 off h
  simp only [conv_f32, hostWord_congr hostBE d1 d2 4 off h]

theorem convLocal_f64 {F : Type} (fo : FloatOps F) (hostBE : Bool) :
    ConvLocal 8 (conv_f64 fo hostBE) := by
  intro d1 d2 off h
  simp only [conv_f64, hostWord_congr hostBE d1 d2 8 off h]

theorem framesOf_eq_of_offsets {α : Type} (conv : Bytes → Nat → α) (d : Bytes) (n stride : Nat)
    (hoff : ∀ i, i < n → i * stride < 4294967296) :
    framesOf conv d n stride = (List.range n).map (fun (i : Nat) => some (conv d (i * stride))) := by
  unfold framesOf
  apply List.map_congr_left
  intro i hi
  rw [toUInt32_mul_of_lt i stride (hoff i (List.mem_range.mp hi))]

theorem framesOf_congr {α : Type} (w : Nat) (conv : Bytes → Nat → α) (hloc : ConvLocal w conv)
    (d1 d2 : Bytes) (n stride : Nat) (hoff : ∀ i, i < n → i * stride < 4294967296)
    (hag : AgreeOnFrames w n stride d1 d2) :
    framesOf conv d1 n stride = framesOf conv d2 n stride := by
  rw [framesOf_eq_of_offsets conv d1 n stride hoff, framesOf_eq_of_offsets conv d2 n stride hoff]
  apply List.map_congr_left
  intro i hi
  rw [hloc d1 d2 (i * stride) (hag i (List.mem_range.mp hi))]

theorem frameWise_loadI16With {F : Type} (w : Nat) (conv : Bytes → Nat → Int)
    (hloc : ConvLocal w conv) (k : Consts) (s : Sample F) (ch n stride : Nat) (hch : ch < 2)
    (hk : 2 * k.FIRoffset ≤ k.FIRipol_N) (hn : n + k.FIRipol_N < 2147483648)
    (hoff : ∀ i, i < n → i * stride < 4294967296) :
    FrameWise (fun s1 => s1.cellsI16 ch) k w conv (loadI16With conv k true s ch) n stride := by
  refine ⟨hloc, ?_, ?_⟩
  · intro d
    obtain ⟨s2, h1, h2⟩ := loadI16With_spec conv k s ch d n stride hch hk hn
    refine ⟨s2, h1, ?_⟩
    show (s2.cellsI16 ch).map (dataRegion k n) = _
    rw [Sample.cellsI16_setData _ s2 ch _ h2, ← framesOf_eq_of_offsets conv d n stride hoff]
    have := dataRegion_blockOf k (0 : Int) (framesOf conv d n stride)
    rw [framesOf_length] at this
    rw [Option.map_some', this]
  · intro d1 d2 hag
    rw [loadI16With_eq conv k s ch d1 n stride hch hk hn,
      loadI16With_eq conv k s ch d2 n stride hch hk hn,
      framesOf_congr w conv hloc d1 d2 n stride hoff hag]

theorem frameWise_loadF32With {F : Type} (fo : FloatOps F) (w : Nat) (conv : Bytes → Nat → F)
    (hloc : ConvLocal w conv) (k : Consts) (s : Sample F) (ch n stride : Nat) (hch : ch < 2)
    (hk : 2 * k.FIRoffset ≤ k.FIRipol_N) (hn : n + k.FIRipol_N < 2147483648)
    (hoff : ∀ i, i < n → i * stride < 4294967296) :
    FrameWise (fun s1 => s1.cellsF32 ch) k w conv (loadF32With fo conv k true s ch) n stride := by
  refine ⟨hloc, ?_, ?_⟩
  · intro d
    obtain ⟨s2, h1, h2⟩ := loadF32With_spec fo conv k s ch d n stride hch hk hn
    refine ⟨s2, h1, ?_⟩
    show (s2.cellsF32 ch).map (dataRegion k n) = _
    rw [Sample.cellsF32_setData _ s2 ch _ h2, ← framesOf_eq_of_offsets conv d n stride hoff]
    have := dataRegion_blockOf k fo.zero (framesOf conv d n stride)
    rw [framesOf_length] at this
    rw [Option.map_some', this]
  · intro d1 d2 hag
    rw [loadF32With_eq fo conv k s ch d1 n stride hch hk hn,
      loadF32With_eq fo conv k s ch d2 n stride hch hk hn,
      framesOf_congr w conv hloc d1 d2 n stride hoff hag]

theorem encodeStereo_frame (ls rs : List Int) (i : Nat) :
    ubyteAt (encodeStereoI16LE ls rs) (i * 4) = u16Of (ls.getD i 0) % 256 ∧
    ubyteAt (encodeStereoI16LE ls rs) (i * 4 + 1) = u16Of (ls.getD i 0) / 256 ∧
    ubyteAt (shiftBytes (encodeStereoI16LE ls rs) 2) (i * 4) = u16Of (rs.getD i 0) % 256 ∧
    ubyteAt (shiftBytes (encodeStereoI16LE ls rs) 2) (i * 4 + 1) = u16Of (rs.getD i 0) / 256 := by
  have hl := u16Of_lt (ls.getD i 0)
  have hr := u16Of_lt (rs.getD i 0)
  have a0 : i * 4 % 4 = 0 := by omega
  have a1 : (i * 4 + 1) % 4 = 1 := by omega
  have a2 : (2 + i * 4) % 4 = 2 := by omega
  have a3 : (2 + (i * 4 + 1)) % 4 = 3 := by omega
  have b0 : i * 4 / 4 = i := by omega
  have b1 : (i * 4 + 1) / 4 = i := by omega
  have b2 : (2 + i * 4) / 4 = i := by omega
  have b3 : (2 + (i * 4 + 1)) / 4 = i := by omega
  refine ⟨?_, ?_, ?_, ?_⟩
  · simp only [ubyteAt, encodeStereoI16LE, a0, b0, if_true]; omega
  · simp only [ubyteAt, encodeStereoI16LE, a1, b1]
    rw [if_neg (by omega), if_pos trivial]; omega
  · simp only [ubyteAt, shiftBytes, encodeStereoI16LE, a2, b2]
    rw [if_neg (by omega), if_neg (by omega), if_pos trivial]; omega
  · simp only [ubyteAt, shiftBytes, encodeStereoI16LE, a3, b3]
    rw [if_neg (by omega), if_neg (by omega), if_neg (by omega)]; omega

theorem framesOf_stereo (hostBE : Bool) (ls rs : List Int)
    (hl : ∀ v ∈ ls, -32768 ≤ v ∧ v < 32768) (hr : ∀ v ∈ rs, -32768 ≤ v ∧ v < 32768)
    (hlen : rs.length = ls.length) (hoff : ∀ i, i < ls.length → i * 4 < 4294967296) :
    framesOf (conv_i16 hostBE) (encodeStereoI16LE ls rs) ls.length 4 = ls.map some ∧
    framesOf (conv_i16 hostBE) (shiftBytes (encodeStereoI16LE ls rs) 2) rs.length 4 =
      rs.map some := by
  constructor
  · apply framesOf_eq_map_some
    intro i hi
    rw [toUInt32_mul_of_lt i 4 (hoff i hi), conv_i16_eq]
    obtain ⟨e1, e2, _, _⟩ := encodeStereo_frame ls rs i
    rw [e1, e2, List.getD_eq_getElem _ _ hi]
    exact twosComplement16_u16Of _ (hl _ (List.getElem_mem hi)).1 (hl _ (List.getElem_mem hi)).2
  · apply framesOf_eq_map_some
    intro i hi
    rw [toUInt32_mul_of_lt i 4 (hoff i (hlen ▸ hi)), conv_i16_eq]
    obtain ⟨_, _, e1, e2⟩ := encodeStereo_frame ls rs i
    rw [e1, e2, List.getD_eq_getElem _ _ hi]
    exact twosComplement16_u16Of _ (hr _ (List.getElem_mem hi)).1 (hr _ (List.getElem_mem hi)).2

/-- C6 (amended). For every loader with frame width `w`, every `n` and every stride such that
every frame offset `i * stride` (`i < n`) fits an `unsigned int`: the frame conversion reads
only `w` bytes, the call produces exactly `n` frames, frame `i` being the conversion of the
bytes at offsets `i * stride .. i * stride + w - 1`, and two source buffers that agree on
those bytes leave the same object. Loading interleaved 16-bit stereo data with stride 4 from
byte offsets 0 and 2 yields the left and the right sequence. (Whenever the call is defined:
channel index inside the array, `FIRipol_N` covering both guards, frame count with margin
fitting `int`, `malloc` successful.) -/
theorem load_data_frame_wise {F : Type} (fo : FloatOps F) (charSigned hostBE : Bool)
    (k : Consts) (s : Sample F) (ch n stride : Nat) (hch : ch < 2)
    (hk : 2 * k.FIRoffset ≤ k.FIRipol_N) (hn : n + k.FIRipol_N < 2147483648)
    (hoff : ∀ i, i < n → i * stride < 4294967296) :
    FrameWise (fun s1 => s1.cellsI16 ch) k 1 conv_ui8 (load_data_ui8 k true s ch) n stride ∧
    FrameWise (fun s1 => s1.cellsI16 ch) k 1 (conv_i8 charSigned)
      (load_data_i8 charSigned k true s ch) n stride ∧
    FrameWise (fun s1 => s1.cellsI16 ch) k 2 (conv_i16 hostBE)
      (load_data_i16 hostBE k true s ch) n stride ∧
    FrameWise (fun s1 => s1.cellsI16 ch) k 2 (conv_i16BE hostBE)
      (load_data_i16BE hostBE k true s ch) n stride ∧
    FrameWise (fun s1 => s1.cellsF32 ch) k 3 (conv_i24 fo)
      (load_data_i24 fo k true s ch) n stride ∧
    FrameWise (fun s1 => s1.cellsF32 ch) k 3 (conv_i24BE fo)
      (load_data_i24BE fo k true s ch) n stride ∧
    FrameWise (fun s1 => s1.cellsF32 ch) k 4 (conv_i32 fo hostBE)
      (load_data_i32 fo hostBE k true s ch) n stride ∧
    FrameWise (fun s1 => s1.cellsF32 ch) k 4 (conv_i32BE fo hostBE)
      (load_data_i32BE fo hostBE k true s ch) n stride ∧
    FrameWise (fun s1 => s1.cellsF32 ch) k 4 (conv_f32 fo hostBE)
      (load_data_f32 fo hostBE k true s ch) n stride ∧
    FrameWise (fun s1 => s1.cellsF32 ch) k 8 (conv_f64 fo hostBE)
      (load_data_f64 fo hostBE k true s ch) n stride ∧
    (∀ ls rs : List Int, ls.length = n → rs.length = n →
      (∀ v ∈ ls, -32768 ≤ v ∧ v < 32768) → (∀ v ∈ rs, -32768 ≤ v ∧ v < 32768) →
      (∀ i, i < n → i * 4 < 4294967296) →
      YieldsI16 k ch ls
        (load_data_i16 hostBE k true s ch (encodeStereoI16LE ls rs) n 4) ∧
      YieldsI16 k ch rs
        (load_data_i16 hostBE k true s ch (shiftBytes (encodeStereoI16LE ls rs) 2) n 4)) := by
  refine ⟨frameWise_loadI16With 1 _ convLocal_ui8 k s ch n stride hch hk hn hoff,
    frameWise_loadI16With 1 _ (convLocal_i8 charSigned) k s ch n stride hch hk hn hoff,
    frameWise_loadI16With 2 _ (convLocal_i16 hostBE) k s ch n stride hch hk hn hoff,
    frameWise_loadI16With 2 _ (convLocal_i16BE hostBE) k s ch n stride hch hk hn hoff,
    frameWise_loadF32With fo 3 _ (convLocal_i24 fo) k s ch n stride hch hk hn hoff,
    frameWise_loadF32With fo 3 _ (convLocal_i24BE fo) k s ch n stride hch hk hn hoff,
    frameWise_loadF32With fo 4 _ (convLocal_i32 fo hostBE) k s ch n stride hch hk hn hoff,
    frameWise_loadF32With fo 4 _ (convLocal_i32BE fo hostBE) k s ch n stride hch hk hn hoff,
    frameWise_loadF32With fo 4 _ (convLocal_f32 fo hostBE) k s ch n stride hch hk hn hoff,
    frameWise_loadF32With fo 8 _ (convLocal_f64 fo hostBE) k s ch n stride hch hk hn hoff, ?_⟩
  intro ls rs hls hrs hl hr h4
  subst hls
  obtain ⟨f1, f2⟩ := framesOf_stereo hostBE ls rs hl hr hrs h4
  constructor
  · exact yieldsI16_of_frames _ k s ch _ 4 ls hch hk hn f1
  · have := yieldsI16_of_frames (conv_i16 hostBE) k s ch
      (shiftBytes (encodeStereoI16LE ls rs) 2) 4 rs hch hk (by rw [hrs]; exact hn) f2
    rw [hrs] at this
    exact this

/-- An instance of C6 (amended): three stereo frames with stride 4. -/
theorem load_data_frame_wise_witness :
    FrameWise (fun s1 => s1.cellsI16 0) consts16 2 (conv_i16 false)
      (load_data_i16 false consts16 true blankSample 0) 3 4 ∧
    YieldsI16 consts16 0 [1, -2, 3]
      (load_data_i16 false consts16 true blankSample 0
        (encodeStereoI16LE [1, -2, 3] [-4, 5, -6]) 3 4) ∧
    YieldsI16 consts16 0 [-4, 5, -6]
      (load_data_i16 false consts16 true blankSample 0
        (shiftBytes (encodeStereoI16LE [1, -2, 3] [-4, 5, -6]) 2) 3 4) :=
  have h := load_data_frame_wise exactOps true false consts16 blankSample 0 3 4
    (by decide) (by decide) (by decide) (by decide)
  ⟨h.2.2.1, h.2.2.2.2.2.2.2.2.2.2 [1, -2, 3] [-4, 5, -6] rfl rfl (by decide) (by decide)
    (by decide)⟩

/-- C6 (as stated) fails: with stride `2^31 + 4` and three frames, the offset of frame 2 wraps to
8 in `unsigned int`; two buffers that agree on the bytes at `i * stride`, `i * stride + 1`
(`i < 3`) but differ at byte 8 leave different channel buffers. -/
theorem load_data_frame_wise_counterexample :
    ¬ FrameWise (fun s1 => s1.cellsI16 0) consts16 2 (conv_i16 false)
      (load_data_i16 false consts16 true blankSample 0) 3 2147483652 := by
  rintro ⟨_, _, h⟩
  have hag : AgreeOnFrames 2 3 2147483652 zeroBytes spikeBytes := by
    unfold AgreeOnFrames
    decide
  have h2 := congrArg
    (fun r : Option (Bool × Sample ℚ) =>
      r.bind (fun p => (p.2.cellsI16 0).map (dataRegion consts16 3)))
    (h zeroBytes spikeBytes hag)
  revert h2
  decide

/-- C7. `SetMeta(Channels, SampleRate, SampleLength)` returns false if and only if
`Channels > 2`; when it returns false the object is unchanged; when it returns true, `channels`,
`sample_length`, `sample_rate` and `InvSampleRate` become `Channels`, `SampleLength`,
`SampleRate` and `1.f / (float)SampleRate`, and every other member is unchanged. For 2 channels
at 44100: `channels = 2`, `sample_rate = 44100`, `InvSampleRate = 1.f / (float)44100`. -/
theorem SetMeta_result {F : Type} (fo : FloatOps F) (s : Sample F)
    (Channels SampleRate SampleLength : Nat) :
    ((SetMeta fo s Channels SampleRate SampleLength).1 = false ↔ Channels > 2) ∧
    ((SetMeta fo s Channels SampleRate SampleLength).1 = false →
      (SetMeta fo s Channels SampleRate SampleLength).2 = s) ∧
    ((SetMeta fo s Channels SampleRate SampleLength).1 = true →
      (SetMeta fo s Channels SampleRate SampleLength).2 =
        { s with channels := Channels, sample_length := SampleLength,
                 sample_rate := SampleRate,
                 InvSampleRate := fo.div fo.one (fo.ofInt (SampleRate : Int)) }) ∧
    (SetMeta fo s 2 44100 SampleLength).1 = true ∧
    (SetMeta fo s 2 44100 SampleLength).2.channels = 2 ∧
    (SetMeta fo s 2 44100 SampleLength).2.sample_rate = 44100 ∧
    (SetMeta fo s 2 44100 SampleLength).2.InvSampleRate = fo.div fo.one (fo.ofInt 44100) := by
  refine ⟨?_, ?_, ?_, rfl, rfl, rfl, rfl⟩
  · unfold SetMeta
    by_cases h : Channels > 2
    · simp [h]
    · simp [h]
  · unfold SetMeta
    by_cases h : Channels > 2
    · simp [h]
    · simp [h]
  · unfold SetMeta
    by_cases h : Channels > 2
    · simp [h]
    · simp [h]

/-- C8 (the code at the failing input). For an existing path with extension `.wav`,
`Sample::load` returns `true` and sets `sample_loaded` whatever flag `parse_riff_wave` returns,
also when the parser rejects the contents: the flag `r` is never read. -/
theorem load_ignores_parse_failure {F : Type} (fsys : FileSystem)
    (clear_data : Sample F → Sample F)
    (parse_riff_wave : Sample F → Bytes → Nat → Bool × Sample F) (s : Sample F) (path : Path)
    (hex : fsys.fsExists path = true) (hext : fsys.extension path = ".wav") :
    (load fsys clear_data parse_riff_wave s path).1 = true ∧
    (load fsys clear_data parse_riff_wave s path).2.sample_loaded = true := by
  unfold load
  simp [hex, hext]

/-- The failing input of C8: `tone.wav` exists, the parser rejects it, and `load` still returns
`true` with `sample_loaded` set. -/
theorem load_ignores_parse_failure_witness :
    ((fun (s : Sample ℚ) (_ : Bytes) (_ : Nat) => (false, s))
        blankSample (demoFs.fileData "tone.wav") (demoFs.fileDataSize "tone.wav")).1 = false ∧
    (load demoFs (fun s => s) (fun s _ _ => (false, s)) blankSample "tone.wav").1 = true ∧
    (load demoFs (fun s => s) (fun s _ _ => (false, s)) blankSample "tone.wav").2.sample_loaded
      = true :=
  ⟨rfl, load_ignores_parse_failure demoFs (fun s => s) (fun s _ _ => (false, s)) blankSample
    "tone.wav" (by decide) (by decide)⟩

/-- C9 (amended). `loadFromSF2` returns false exactly when the SF2 sample's frame size is not 2
or its channel count is not 1. Whenever it returns false, the channel buffers, `InvSampleRate`
and `sample_loaded` have the values they had before the call, while the file name, instrument,
region, type, `UseInt16`, `channels`, `sample_length`, `sample_rate` and the display name have
been overwritten with the values of the call and of the SF2 sample. -/
theorem loadFromSF2_false {F : Type} (fsys : FileSystem) (hostBE : Bool) (k : Consts)
    (mallocOk : Bool) (s s1 : Sample F) (p : Path) (f : SF2File) (inst reg : Int)
    (h : loadFromSF2 fsys hostBE k mallocOk s p f inst reg = some (false, s1)) :
    ((f.GetSample inst reg).FrameSize ≠ 2 ∨ (f.GetSample inst reg).ChannelCount ≠ 1) ∧
    (∀ t : Sample F, ((f.GetSample inst reg).FrameSize ≠ 2 ∨
        (f.GetSample inst reg).ChannelCount ≠ 1) →
      ∃ t1, loadFromSF2 fsys hostBE k mallocOk t p f inst reg = some (false, t1)) ∧
    s1.sampleData0 = s.sampleData0 ∧ s1.sampleData1 = s.sampleData1 ∧
    s1.InvSampleRate = s.InvSampleRate ∧ s1.sample_loaded = s.sample_loaded ∧
    s1.mFileName = p ∧ s1.instrument = inst ∧ s1.region = reg ∧ s1.type = k.SF2_FILE ∧
    s1.UseInt16 = ((f.GetSample inst reg).FrameSize == 2) ∧
    s1.channels = (f.GetSample inst reg).ChannelCount ∧
    s1.sample_length = (f.GetSample inst reg).TotalFrameCount ∧
    s1.sample_rate = (f.GetSample inst reg).SampleRate ∧
    s1.displayName = (f.GetSample inst reg).Name ++ " (" ++ fsys.filename f.GetFileName ++ "/" ++
      toString inst ++ "/" ++ toString reg ++ ")" := by
  have conv : ∀ t : Sample F, ((f.GetSample inst reg).FrameSize ≠ 2 ∨
      (f.GetSample inst reg).ChannelCount ≠ 1) →
      ∃ t1, loadFromSF2 fsys hostBE k mallocOk t p f inst reg = some (false, t1) := by
    intro t hc
    unfold loadFromSF2
    by_cases h1 : (f.GetSample inst reg).FrameSize = 2
    · have h2 : (f.GetSample inst reg).ChannelCount ≠ 1 := by
        rcases hc with hc | hc
        · exact absurd h1 hc
        · exact hc
      simp [h1, h2]
    · simp [h1]
  unfold loadFromSF2 at h
  by_cases h1 : (f.GetSample inst reg).FrameSize = 2
  · by_cases h2 : (f.GetSample inst reg).ChannelCount = 1
    · simp [h1, h2] at h
    · simp [h1, h2] at h
      subst h
      refine ⟨Or.inr h2, conv, ?_⟩
      simp [h1]
  · simp [h1] at h
    subst h
    refine ⟨Or.inl h1, conv, ?_⟩
    simp [h1]

/-- An instance of C9 (amended): an SF2 sample with 4-byte frames. -/
theorem loadFromSF2_false_witness :
    ∃ s1, loadFromSF2 demoFs false consts16 true blankSample "bank.sf2" wideSF2File 0 0 =
        some (false, s1) ∧
      s1.sampleData0 = blankSample.sampleData0 ∧ s1.mFileName = "bank.sf2" :=
  ⟨_, rfl,
    (loadFromSF2_false demoFs false consts16 true blankSample _ "bank.sf2" wideSF2File 0 0
      rfl).2.2.1,
    (loadFromSF2_false demoFs false consts16 true blankSample _ "bank.sf2" wideSF2File 0 0
      rfl).2.2.2.2.2.2.1⟩

/-- C9 (as stated) fails: for an SF2 sample with 4-byte frames `loadFromSF2` returns false, and
the object's file name, type, channel count, frame count and rate are no longer the ones it had
before the call. -/
theorem loadFromSF2_false_counterexample :
    ∃ s1, loadFromSF2 demoFs false consts16 true blankSample "bank.sf2" wideSF2File 3 7 =
        some (false, s1) ∧
      s1.mFileName ≠ blankSample.mFileName ∧ s1.instrument ≠ blankSample.instrument ∧
      s1.region ≠ blankSample.region ∧ s1.type ≠ blankSample.type ∧
      s1.channels ≠ blankSample.channels ∧
      s1.sample_length ≠ blankSample.sample_length ∧
      s1.sample_rate ≠ blankSample.sample_rate ∧
      s1.displayName ≠ blankSample.displayName :=
  ⟨_, rfl, by decide, by decide, by decide, by decide, by decide, by decide, by decide,
    by decide⟩

/-- C10. `Sample::load` returns false and leaves the object as it was whenever the path does not
exist or its extension is not exactly `.wav`; the comparison is case-sensitive, so a path whose
extension is `.WAV` is rejected. `clear_data` and `parse_riff_wave` are not reached. -/
theorem load_rejects_without_change {F : Type} (fsys : FileSystem)
    (clear_data : Sample F → Sample F)
    (parse_riff_wave : Sample F → Bytes → Nat → Bool × Sample F) (s : Sample F) (path : Path)
    (h : fsys.fsExists path = false ∨ fsys.extension path ≠ ".wav") :
    load fsys clear_data parse_riff_wave s path = (false, s) ∧
    (fsys.extension path = ".WAV" → load fsys clear_data parse_riff_wave s path = (false, s)) := by
  have key : ∀ (hh : fsys.fsExists path = false ∨ fsys.extension path ≠ ".wav"),
      load fsys clear_data parse_riff_wave s path = (false, s) := by
    intro hh
    unfold load
    rcases hh with h1 | h2
    · simp [h1]
    · by_cases h1 : fsys.fsExists path = true
      · simp [h1, h2]
      · simp [h1]
  refine ⟨key h, fun hw => key (Or.inr ?_)⟩
  rw [hw]
  decide

/-- An instance of C10: `TONE.WAV` exists but its extension is not `.wav`. -/
theorem load_rejects_without_change_witness :
    demoFs.fsExists "TONE.WAV" = true ∧
    load demoFs (fun s => { s with sample_loaded := false })
        (fun s _ _ => (true, s)) blankSample "TONE.WAV" = (false, blankSample) ∧
    (demoFs.extension "TONE.WAV" = ".WAV" →
      load demoFs (fun s => { s with sample_loaded := false })
        (fun s _ _ => (true, s)) blankSample "TONE.WAV" = (false, blankSample)) :=
  ⟨by decide, load_rejects_without_change demoFs (fun s => { s with sample_loaded := false })
    (fun s _ _ => (true, s)) blankSample "TONE.WAV" (Or.inr (by decide))⟩

theorem Sample.getData_setData_ne {F : Type} (s s1 : Sample F) (ch ch2 : Nat)
    (d : Option (ChannelData F)) (h : s.setData ch d = some s1) (hne : ch2 ≠ ch) :
    s1.getData ch2 = s.getData ch2 := by
  match ch, h with
  | 0, h =>
    simp [Sample.setData] at h; subst h
    match ch2, hne with
    | 1, _ => rfl
    | _ + 2, _ => rfl
  | 1, h =>
    simp [Sample.setData] at h; subst h
    match ch2, hne with
    | 0, _ => rfl
    | _ + 2, _ => rfl
  | _ + 2, h => simp [Sample.setData] at h

/-- In its domain every loader call returns `true` and leaves the object of the call with
`UseInt16` set to the storage class of the loader and a block of that class in the channel. -/
theorem runLoad_spec {F : Type} (fo : FloatOps F) (charSigned hostBE : Bool) (k : Consts)
    (s : Sample F) (c : LoadCall) (hk : 2 * k.FIRoffset ≤ k.FIRipol_N)
    (hc : c.InDomain k) :
    ∃ s1 d, runLoad fo charSigned hostBE k true s c = some (true, s1) ∧
      d.isI16 = c.kind.isInt16 ∧
      { s with UseInt16 := c.kind.isInt16 }.setData c.channel (some d) = some s1 := by
  obtain ⟨hch, hn⟩ := hc
  have hI := fun conv => loadI16With_spec (F := F) conv k s c.channel c.data c.samplesize
    c.stride hch hk hn
  have hF := fun conv => loadF32With_spec fo conv k s c.channel c.data c.samplesize
    c.stride hch hk hn
  unfold runLoad
  cases hkind : c.kind
  · obtain ⟨s2, h1, h2⟩ := hI conv_ui8
    exact ⟨s2, ChannelData.i16 _, h1, rfl, h2⟩
  · obtain ⟨s2, h1, h2⟩ := hI (conv_i8 charSigned)
    exact ⟨s2, ChannelData.i16 _, h1, rfl, h2⟩
  · obtain ⟨s2, h1, h2⟩ := hI (conv_i16 hostBE)
    exact ⟨s2, ChannelData.i16 _, h1, rfl, h2⟩
  · obtain ⟨s2, h1, h2⟩ := hI (conv_i16BE hostBE)
    exact ⟨s2, ChannelData.i16 _, h1, rfl, h2⟩
  · obtain ⟨s2, h1, h2⟩ := hF (conv_i32 fo hostBE)
    exact ⟨s2, ChannelData.f32 _, h1, rfl, h2⟩
  · obtain ⟨s2, h1, h2⟩ := hF (conv_i32BE fo hostBE)
    exact ⟨s2, ChannelData.f32 _, h1, rfl, h2⟩
  · obtain ⟨s2, h1, h2⟩ := hF (conv_i24 fo)
    exact ⟨s2, ChannelData.f32 _, h1, rfl, h2⟩
  · obtain ⟨s2, h1, h2⟩ := hF (conv_i24BE fo)
    exact ⟨s2, ChannelData.f32 _, h1, rfl, h2⟩
  · obtain ⟨s2, h1, h2⟩ := hF (conv_f32 fo hostBE)
    exact ⟨s2, ChannelData.f32 _, h1, rfl, h2⟩
  · obtain ⟨s2, h1, h2⟩ := hF (conv_f64 fo hostBE)
    exact ⟨s2, ChannelData.f32 _, h1, rfl, h2⟩

/-- A sequence of loader calls of one storage class `b`, run on a sample whose blocks (if any)
are of that class, returns normally and leaves all blocks in class `b`; after at least one call
`UseInt16` is `b`. -/
theorem runLoads_sameClass {F : Type} (fo : FloatOps F) (charSigned hostBE : Bool) (k : Consts)
    (hk : 2 * k.FIRoffset ≤ k.FIRipol_N) (b : Bool) :
    ∀ (cs : List LoadCall) (s : Sample F),
      (∀ c ∈ cs, c.InDomain k ∧ c.kind.isInt16 = b) → s.BlocksEncoded b →
      ∃ s1, runLoads fo charSigned hostBE k true cs s = some s1 ∧ s1.BlocksEncoded b ∧
        (cs ≠ [] → s1.UseInt16 = b) := by
  intro cs
  induction cs with
  | nil =>
    intro s _ hs
    exact ⟨s, rfl, hs, fun h => absurd rfl h⟩
  | cons c cs ih =>
    intro s hcs hs
    obtain ⟨hdom, hkind⟩ := hcs c (List.mem_cons_self _ _)
    obtain ⟨s1, d, h1, hd, h2⟩ := runLoad_spec fo charSigned hostBE k s c hk hdom
    have hs1 : s1.BlocksEncoded b := by
      intro ch e he
      by_cases hch : ch = c.channel
      · subst hch
        rw [Sample.getData_setData _ s1 _ _ h2] at he
        simp only [Option.some.injEq] at he
        subst he
        rw [hd, hkind]
      · rw [Sample.getData_setData_ne _ s1 c.channel ch _ h2 hch] at he
        exact hs ch e he
    have hu1 : s1.UseInt16 = b := by
      rw [Sample.setData_UseInt16 _ s1 c.channel _ h2]
      exact hkind
    obtain ⟨s2, h3, h4, h5⟩ := ih s1 (fun c2 hc2 => hcs c2 (List.mem_cons_of_mem _ hc2)) hs1
    refine ⟨s2, ?_, h4, fun _ => ?_⟩
    · simp only [runLoads, h1, Option.some_bind, h3]
    · by_cases hnil : cs = []
      · subst hnil
        simp only [runLoads, Option.some.injEq] at h3
        rw [← h3]; exact hu1
      · exact h5 hnil

/-- After a sequence of defined loader calls ending with the call `c`, the channel of `c` holds
a block of the storage class of `c`, and `UseInt16` reports that class. -/
theorem runLoads_last {F : Type} (fo : FloatOps F) (charSigned hostBE : Bool) (k : Consts)
    (hk : 2 * k.FIRoffset ≤ k.FIRipol_N) (c : LoadCall) :
    ∀ (cs : List LoadCall) (s : Sample F),
      (∀ c2 ∈ cs ++ [c], c2.InDomain k) →
      ∃ s1 d, runLoads fo charSigned hostBE k true (cs ++ [c]) s = some s1 ∧
        s1.getData c.channel = some (some d) ∧ d.isI16 = c.kind.isInt16 ∧
        s1.UseInt16 = c.kind.isInt16 := by
  intro cs
  induction cs with
  | nil =>
    intro s hcs
    obtain ⟨s1, d, h1, hd, h2⟩ := runLoad_spec fo charSigned hostBE k s c hk
      (hcs c (by simp))
    refine ⟨s1, d, ?_, Sample.getData_setData _ s1 _ _ h2, hd, ?_⟩
    · simp only [List.nil_append, runLoads, h1, Option.some_bind]
    · rw [Sample.setData_UseInt16 _ s1 c.channel _ h2]
  | cons c0 cs ih =>
    intro s hcs
    obtain ⟨s1, d, h1, _, _⟩ := runLoad_spec fo charSigned hostBE k s c0 hk
      (hcs c0 (by simp))
    obtain ⟨s2, d2, h3, h4⟩ := ih s1 (fun c2 hc2 => hcs c2 (by simp at hc2 ⊢; tauto))
    refine ⟨s2, d2, ?_, h4⟩
    show (runLoad fo charSigned hostBE k true s c0).bind
      (fun r => runLoads fo charSigned hostBE k true (cs ++ [c]) r.2) = some s2
    rw [h1, Option.some_bind, h3]

/-- C11 (amended). After any sequence of defined `load_data_*` calls on channels 0 and 1 of one
Sample: the calls return normally; the channel of the last call holds a block in the encoding
that `UseInt16` reports, which is the storage class of the last loader; and when all calls of
the sequence use loaders of one storage class (all 16-bit integer or all float) and the sample
had no block of the other class before, every allocated channel block is stored in the encoding
`UseInt16` reports. -/
theorem load_sequence_encoding {F : Type} (fo : FloatOps F) (charSigned hostBE : Bool)
    (k : Consts) (s : Sample F) (cs : List LoadCall) (c : LoadCall)
    (hk : 2 * k.FIRoffset ≤ k.FIRipol_N) (hdom : ∀ c2 ∈ cs ++ [c], c2.InDomain k) :
    (∃ s1 d, runLoads fo charSigned hostBE k true (cs ++ [c]) s = some s1 ∧
      s1.getData c.channel = some (some d) ∧ d.isI16 = s1.UseInt16 ∧
      s1.UseInt16 = c.kind.isInt16) ∧
    ((∀ c2 ∈ cs ++ [c], c2.kind.isInt16 = c.kind.isInt16) → s.BlocksEncoded c.kind.isInt16 →
      ∃ s1, runLoads fo charSigned hostBE k true (cs ++ [c]) s = some s1 ∧
        s1.UniformEncoding) := by
  constructor
  · obtain ⟨s1, d, h1, h2, h3, h4⟩ := runLoads_last fo charSigned hostBE k hk c cs s hdom
    exact ⟨s1, d, h1, h2, by rw [h3, h4], h4⟩
  · intro hsame hs
    obtain ⟨s1, h1, h2, h3⟩ := runLoads_sameClass fo charSigned hostBE k hk c.kind.isInt16
      (cs ++ [c]) s (fun c2 hc2 => ⟨hdom c2 hc2, hsame c2 hc2⟩) hs
    refine ⟨s1, h1, ?_⟩
    unfold Sample.UniformEncoding
    rw [h3 (by simp)]
    exact h2

/-- An instance of C11 (amended): a 16-bit load of channel 0, then a float load of channel 1. -/
theorem load_sequence_encoding_witness :
    ∃ s1 d, runLoads exactOps true false consts16 true
        ([⟨.i16, 0, rampBytes, 3, 2⟩] ++ [⟨.f32, 1, rampBytes, 3, 4⟩]) blankSample = some s1 ∧
      s1.getData 1 = some (some d) ∧ d.isI16 = s1.UseInt16 ∧ s1.UseInt16 = false :=
  (load_sequence_encoding exactOps true false consts16 blankSample
    [⟨.i16, 0, rampBytes, 3, 2⟩] ⟨.f32, 1, rampBytes, 3, 4⟩ (by decide)
    (by
      intro c2 hc2
      simp only [List.singleton_append, List.mem_cons, List.mem_singleton, List.not_mem_nil,
        or_false] at hc2
      rcases hc2 with h | h <;> subst h <;> exact ⟨by decide, by decide⟩)).1

/-- C11 (as stated) fails: after `load_data_i16` on channel 0 and `load_data_f32` on channel 1,
`UseInt16` is false while the block of channel 0 still holds 16-bit integers. -/
theorem load_sequence_encoding_counterexample :
    ∃ s1, runLoads exactOps true false consts16 true
        [⟨.i16, 0, rampBytes, 3, 2⟩, ⟨.f32, 1, rampBytes, 3, 4⟩] blankSample = some s1 ∧
      s1.UseInt16 = false ∧ ¬ s1.UniformEncoding := by
  have h : (runLoads exactOps true false consts16 true
        [⟨.i16, 0, rampBytes, 3, 2⟩, ⟨.f32, 1, rampBytes, 3, 4⟩] blankSample).map
      (fun s1 => (s1.UseInt16, (s1.getData 0).map (Option.map ChannelData.isI16))) =
      some (false, some (some true)) := by decide
  cases hr : runLoads exactOps true false consts16 true
      [⟨.i16, 0, rampBytes, 3, 2⟩, ⟨.f32, 1, rampBytes, 3, 4⟩] blankSample with
  | none => rw [hr] at h; simp at h
  | some s1 =>
    rw [hr] at h
    simp only [Option.map_some', Option.some.injEq, Prod.mk.injEq] at h
    obtain ⟨hu, h0⟩ := h
    refine ⟨s1, rfl, hu, fun huni => ?_⟩
    cases hd : s1.getData 0 with
    | none => rw [hd] at h0; simp at h0
    | some od =>
      cases od with
      | none => rw [hd] at h0; simp at h0
      | some d =>
        rw [hd] at h0
        simp only [Option.map_some', Option.some.injEq] at h0
        have := huni 0 d hd
        rw [h0, hu] at this
        exact absurd this (by decide)

theorem Sample.setData_rate {F : Type} (s s1 : Sample F) (ch : Nat)
    (d : Option (ChannelData F)) (h : s.setData ch d = some s1) :
    s1.InvSampleRate = s.InvSampleRate ∧ s1.sample_rate = s.sample_rate := by
  match ch, h with
  | 0, h => simp [Sample.setData] at h; subst h; exact ⟨rfl, rfl⟩
  | 1, h => simp [Sample.setData] at h; subst h; exact ⟨rfl, rfl⟩
  | _ + 2, h => simp [Sample.setData] at h

theorem storeI16_rate {F : Type} (s s1 : Sample F) (p : Option CellPtr) (i : Nat) (v : Int)
    (h : storeI16 s p i v = some s1) :
    s1.InvSampleRate = s.InvSampleRate ∧ s1.sample_rate = s.sample_rate := by
  unfold storeI16 at h
  split at h
  · simp at h
  · split at h
    · split at h
      · exact Sample.setData_rate _ _ _ _ h
      · simp at h
    · simp at h

theorem forLoop_invariant {σ : Type} (body : Nat → σ → Option σ) (P : σ → Prop)
    (hbody : ∀ i st st1, P st → body i st = some st1 → P st1) :
    ∀ (cnt i : Nat) (st st1 : σ), P st → forLoop body i cnt st = some st1 → P st1 := by
  intro cnt
  induction cnt with
  | zero =>
    intro i st st1 hp h
    simp only [forLoop, Option.some.injEq] at h
    rw [← h]; exact hp
  | succ cnt ih =>
    intro i st st1 hp h
    simp only [forLoop] at h
    cases hb : body i st with
    | none => rw [hb] at h; simp at h
    | some st2 =>
      rw [hb, Option.some_bind] at h
      exact ih (i + 1) st2 st1 (hbody i st st2 hp hb) h

theorem allocateI16_rate {F : Type} (k : Consts) (mallocOk : Bool) (s : Sample F) (ch : Nat)
    (Samples : Int) (r : Bool × Sample F) (h : allocateI16 k mallocOk s ch Samples = some r) :
    r.2.InvSampleRate = s.InvSampleRate ∧ r.2.sample_rate = s.sample_rate := by
  unfold allocateI16 at h
  simp only at h
  split at h
  · cases hb : clearedBlock k (0 : Int) (toInt32 (Samples + ↑k.FIRipol_N)) Samples with
    | none => rw [hb] at h; simp at h
    | some b =>
      rw [hb, Option.some_bind] at h
      cases hs : ({ s with UseInt16 := true } : Sample F).setData ch
          (some (ChannelData.i16 b)) with
      | none => rw [hs] at h; simp at h
      | some s1 =>
        rw [hs] at h
        simp only [Option.map_some', Option.some.injEq] at h
        subst h
        exact Sample.setData_rate { s with UseInt16 := true } s1 ch _ hs
  · cases hs : s.setData ch none with
    | none => rw [hs] at h; simp at h
    | some s1 =>
      rw [hs] at h
      simp only [Option.map_some', Option.some.injEq] at h
      subst h
      exact Sample.setData_rate _ _ _ _ hs

/-- Whenever a loader into 16-bit storage returns, `InvSampleRate` and `sample_rate` are the
ones the object had: the loaders assign neither. -/
theorem loadI16With_rate {F : Type} (conv : Bytes → Nat → Int) (k : Consts) (mallocOk : Bool)
    (s : Sample F) (ch : Nat) (data : Bytes) (n stride : Nat) (r : Bool × Sample F)
    (h : loadI16With conv k mallocOk s ch data n stride = some r) :
    r.2.InvSampleRate = s.InvSampleRate ∧ r.2.sample_rate = s.sample_rate := by
  unfold loadI16With at h
  cases ha : allocateI16 k mallocOk s ch (toInt32 n) with
  | none => rw [ha] at h; simp at h
  | some a =>
    rw [ha, Option.some_bind] at h
    have hra := allocateI16_rate k mallocOk s ch _ a ha
    cases hl : forLoop (fun i st => storeI16 st (GetSamplePtrI16 k a.2 ch) i
        (conv data (toUInt32 (↑i * ↑stride)))) 0 n a.2 with
    | none => simp only [hl] at h; simp at h
    | some s2 =>
      simp only [hl, Option.map_some', Option.some.injEq] at h
      subst h
      have := forLoop_invariant _
        (fun st : Sample F => st.InvSampleRate = s.InvSampleRate ∧ st.sample_rate = s.sample_rate)
        (fun i st st1 hp hb => by
          obtain ⟨e1, e2⟩ := storeI16_rate st st1 _ i _ hb
          exact ⟨e1.trans hp.1, e2.trans hp.2⟩) n 0 a.2 s2 hra hl
      exact this

/-- C12 (the code at the failing input). After a successful `SetMeta`, `InvSampleRate` is
`1.f / (float)sample_rate`. `loadFromSF2` assigns `sample_rate` but never `InvSampleRate`:
whenever it returns, with `true` or with `false`, `sample_rate` is the rate of the SF2 sample
and `InvSampleRate` is the value the object had before the call. -/
theorem loadFromSF2_keeps_InvSampleRate {F : Type} (fo : FloatOps F) (fsys : FileSystem)
    (hostBE : Bool) (k : Consts) (mallocOk : Bool) (s : Sample F) (p : Path) (f : SF2File)
    (inst reg : Int) (b : Bool) (s1 : Sample F)
    (h : loadFromSF2 fsys hostBE k mallocOk s p f inst reg = some (b, s1)) :
    s1.sample_rate = (f.GetSample inst reg).SampleRate ∧
    s1.InvSampleRate = s.InvSampleRate ∧
    (∀ Channels SampleRate SampleLength, (SetMeta fo s Channels SampleRate SampleLength).1 = true →
      (SetMeta fo s Channels SampleRate SampleLength).2.InvSampleRate =
        fo.div fo.one (fo.ofInt ((SetMeta fo s Channels SampleRate SampleLength).2.sample_rate))) := by
  refine ⟨?_, ?_, ?_⟩
  · unfold loadFromSF2 at h
    simp only at h
    split at h
    · simp only [Option.some.injEq, Prod.mk.injEq] at h
      rw [← h.2]
    · split at h
      · simp only [Option.some.injEq, Prod.mk.injEq] at h
        rw [← h.2]
      · cases hl : load_data_i16 hostBE k mallocOk
          ({ s with mFileName := p, instrument := inst, region := reg, type := k.SF2_FILE,
                    UseInt16 := ((f.GetSample inst reg).FrameSize == 2),
                    channels := (f.GetSample inst reg).ChannelCount,
                    sample_length := (f.GetSample inst reg).TotalFrameCount,
                    sample_rate := (f.GetSample inst reg).SampleRate,
                    displayName := (f.GetSample inst reg).Name ++ " (" ++
                      fsys.filename f.GetFileName ++ "/" ++ toString inst ++ "/" ++
                      toString reg ++ ")" } : Sample F) 0 (f.GetSample inst reg).pStart
          (toUInt32 (f.GetSample inst reg).Size) (f.GetSample inst reg).FrameSize with
        | none => rw [hl] at h; simp at h
        | some r =>
          rw [hl] at h
          simp only [Option.map_some', Option.some.injEq, Prod.mk.injEq] at h
          rw [← h.2]
          exact (loadI16With_rate _ k mallocOk _ 0 _ _ _ r hl).2
  · unfold loadFromSF2 at h
    simp only at h
    split at h
    · simp only [Option.some.injEq, Prod.mk.injEq] at h
      rw [← h.2]
    · split at h
      · simp only [Option.some.injEq, Prod.mk.injEq] at h
        rw [← h.2]
      · cases hl : load_data_i16 hostBE k mallocOk
          ({ s with mFileName := p, instrument := inst, region := reg, type := k.SF2_FILE,
                    UseInt16 := ((f.GetSample inst reg).FrameSize == 2),
                    channels := (f.GetSample inst reg).ChannelCount,
                    sample_length := (f.GetSample inst reg).TotalFrameCount,
                    sample_rate := (f.GetSample inst reg).SampleRate,
                    displayName := (f.GetSample inst reg).Name ++ " (" ++
                      fsys.filename f.GetFileName ++ "/" ++ toString inst ++ "/" ++
                      toString reg ++ ")" } : Sample F) 0 (f.GetSample inst reg).pStart
          (toUInt32 (f.GetSample inst reg).Size) (f.GetSample inst reg).FrameSize with
        | none => rw [hl] at h; simp at h
        | some r =>
          rw [hl] at h
          simp only [Option.map_some', Option.some.injEq, Prod.mk.injEq] at h
          rw [← h.2]
          exact (loadI16With_rate _ k mallocOk _ 0 _ _ _ r hl).1
  · intro Channels SampleRate SampleLength hs
    unfold SetMeta at hs ⊢
    by_cases hc : Channels > 2
    · simp [hc] at hs
    · simp [hc]

/-- The failing input of C12: a mono 16-bit SF2 sample at 44100 Hz loaded into a fresh object.
`loadFromSF2` returns `true`, `sample_rate` is 44100 and `InvSampleRate` is still 0, which is
not `1 / 44100`. -/
theorem loadFromSF2_keeps_InvSampleRate_witness :
    ∃ s1, loadFromSF2 demoFs false consts16 true blankSample "kit.sf2" monoSF2File 0 0 =
        some (true, s1) ∧
      s1.sample_rate = 44100 ∧ s1.InvSampleRate = 0 ∧
      s1.InvSampleRate ≠ exactOps.div exactOps.one (exactOps.ofInt (s1.sample_rate : Int)) := by
  have hb : (loadFromSF2 demoFs false consts16 true blankSample "kit.sf2" monoSF2File 0 0).map
      (fun r => r.1) = some true := by decide
  cases hr : loadFromSF2 demoFs false consts16 true blankSample "kit.sf2" monoSF2File 0 0 with
  | none => rw [hr] at hb; simp at hb
  | some r =>
    obtain ⟨b, s1⟩ := r
    rw [hr] at hb
    simp only [Option.map_some', Option.some.injEq] at hb
    subst hb
    obtain ⟨h1, h2, _⟩ := loadFromSF2_keeps_InvSampleRate exactOps demoFs false consts16 true
      blankSample "kit.sf2" monoSF2File 0 0 true s1 hr
    have h1' : s1.sample_rate = 44100 := h1
    have h2' : s1.InvSampleRate = 0 := h2
    refine ⟨s1, rfl, h1', h2', ?_⟩
    rw [h2', h1']
    show (0 : ℚ) ≠ 1 / ((44100 : ℕ) : ℤ)
    norm_num

/-- The depth scale `bindEl` computes: the metadata range when `maxVal == minVal`, else
`maxVal - minVal`. -/
theorem bindEl_found {F : Type} (fm : MatrixFloat F)
    (describeValue : PayloadRef → FieldRef → ParamMetaData F) (m : Matrix F)
    (payload : PayloadRef) (tg : TargetIdentifier) (tgs : FloatRef F) (minVal maxVal : F)
    (idx : Nat) (hg : tg.gid ≠ 0) (ht : tg.tid ≠ 0)
    (hidx : m.targetToOutputIndex.lookup tg = some idx) :
    bindEl fm describeValue m payload tg tgs minVal maxVal =
      some ({ m.bindTargetBaseValue tg tgs with
        routingValuePointers := m.routingValuePointers.map
          (fun r => if r.target = some idx then
            { r with depthScale :=
                (if fm.feq maxVal minVal then
                  fm.sub (describeValue payload tgs.field).maxVal
                    (describeValue payload tgs.field).minVal
                else fm.sub maxVal minVal) }
            else r) }, some idx) := by
  unfold bindEl
  rw [if_neg hg, if_neg ht]
  simp only [Matrix.bindTargetBaseValue, Matrix.getTargetValuePointer, hidx]

theorem bindEl_notFound {F : Type} (fm : MatrixFloat F)
    (describeValue : PayloadRef → FieldRef → ParamMetaData F) (m : Matrix F)
    (payload : PayloadRef) (tg : TargetIdentifier) (tgs : FloatRef F) (minVal maxVal : F)
    (hg : tg.gid ≠ 0) (ht : tg.tid ≠ 0)
    (hidx : m.targetToOutputIndex.lookup tg = none) :
    bindEl fm describeValue m payload tg tgs minVal maxVal =
      some (m.bindTargetBaseValue tg tgs, none) := by
  unfold bindEl
  rw [if_neg hg, if_neg ht]
  simp only [Matrix.bindTargetBaseValue, Matrix.getTargetValuePointer, hidx]

/-- Whenever `bindEl` returns, its assertions held, the routing table is the one it was given,
and the pointer it stores is the value pointer of the target. -/
theorem bindEl_some {F : Type} (fm : MatrixFloat F)
    (describeValue : PayloadRef → FieldRef → ParamMetaData F) (m m1 : Matrix F)
    (payload : PayloadRef) (tg : TargetIdentifier) (tgs : FloatRef F) (minVal maxVal : F)
    (p : Option Nat) (h : bindEl fm describeValue m payload tg tgs minVal maxVal = some (m1, p)) :
    tg.gid ≠ 0 ∧ tg.tid ≠ 0 ∧ m1.targetToOutputIndex = m.targetToOutputIndex ∧
    p = m.getTargetValuePointer tg ∧
    m1.baseValues = (m.bindTargetBaseValue tg tgs).baseValues := by
  have hg : tg.gid ≠ 0 := by
    intro h0; unfold bindEl at h; rw [if_pos h0] at h; exact absurd h (by simp)
  have ht : tg.tid ≠ 0 := by
    intro h0; unfold bindEl at h; rw [if_neg hg, if_pos h0] at h; exact absurd h (by simp)
  refine ⟨hg, ht, ?_⟩
  cases hidx : m.targetToOutputIndex.lookup tg with
  | none =>
    rw [bindEl_notFound fm describeValue m payload tg tgs minVal maxVal hg ht hidx] at h
    simp only [Option.some.injEq, Prod.mk.injEq] at h
    obtain ⟨h1, h2⟩ := h
    subst h1
    exact ⟨rfl, by rw [← h2]; exact hidx.symm, rfl⟩
  | some idx =>
    rw [bindEl_found fm describeValue m payload tg tgs minVal maxVal idx hg ht hidx] at h
    simp only [Option.some.injEq, Prod.mk.injEq] at h
    obtain ⟨h1, h2⟩ := h
    subst h1
    exact ⟨rfl, by rw [← h2]; exact hidx.symm, rfl⟩

theorem Matrix.bindTargetBaseValue_idem {F : Type} (m : Matrix F) (tg : TargetIdentifier)
    (tgs : FloatRef F) :
    ((tg, tgs) :: (m.bindTargetBaseValue tg tgs).baseValues.filter (fun e => decide (e.1 ≠ tg)))
      = (m.bindTargetBaseValue tg tgs).baseValues := by
  simp [Matrix.bindTargetBaseValue, List.filter_filter]

/-- The depth-scale assignment of `bindEl` is idempotent. -/
theorem depthScale_assign_idem {F : Type} (l : List (RoutingValuePointers F)) (pt : Option Nat)
    (rg : F) :
    (l.map (fun r => if r.target = pt then { r with depthScale := rg } else r)).map
        (fun r => if r.target = pt then { r with depthScale := rg } else r) =
      l.map (fun r => if r.target = pt then { r with depthScale := rg } else r) := by
  rw [List.map_map]
  apply List.map_congr_left
  intro r _
  by_cases h : r.target = pt
  · simp [h]
  · simp [h]

/-- With its assertions satisfied `bindEl` returns, stores the value pointer of the target and
leaves the routing table as it was. -/
theorem bindEl_total {F : Type} (fm : MatrixFloat F)
    (describeValue : PayloadRef → FieldRef → ParamMetaData F) (m : Matrix F)
    (payload : PayloadRef) (tg : TargetIdentifier) (tgs : FloatRef F) (minVal maxVal : F)
    (hg : tg.gid ≠ 0) (ht : tg.tid ≠ 0) :
    ∃ m1, bindEl fm describeValue m payload tg tgs minVal maxVal =
        some (m1, m.getTargetValuePointer tg) ∧
      m1.targetToOutputIndex = m.targetToOutputIndex := by
  cases hidx : m.targetToOutputIndex.lookup tg with
  | none =>
    rw [bindEl_notFound fm describeValue m payload tg tgs minVal maxVal hg ht hidx,
      Matrix.getTargetValuePointer, hidx]
    exact ⟨_, rfl, rfl⟩
  | some idx =>
    rw [bindEl_found fm describeValue m payload tg tgs minVal maxVal idx hg ht hidx,
      Matrix.getTargetValuePointer, hidx]
    exact ⟨_, rfl, rfl⟩

/-- After `bindEl` on a target of the routing table, every routing that points at the target's
output slot has the computed depth scale. -/
theorem bindEl_depthScale {F : Type} (fm : MatrixFloat F)
    (describeValue : PayloadRef → FieldRef → ParamMetaData F) (m : Matrix F)
    (payload : PayloadRef) (tg : TargetIdentifier) (tgs : FloatRef F) (minVal maxVal : F)
    (idx : Nat) (hg : tg.gid ≠ 0) (ht : tg.tid ≠ 0)
    (hidx : m.targetToOutputIndex.lookup tg = some idx) :
    ∃ m1, bindEl fm describeValue m payload tg tgs minVal maxVal = some (m1, some idx) ∧
      m1.targetToOutputIndex = m.targetToOutputIndex ∧
      m1.getTargetValuePointer tg = some idx ∧
      ∀ r ∈ m1.routingValuePointers, r.target = some idx →
        r.depthScale = (if fm.feq maxVal minVal then
            fm.sub (describeValue payload tgs.field).maxVal
              (describeValue payload tgs.field).minVal
          else fm.sub maxVal minVal) := by
  refine ⟨_, bindEl_found fm describeValue m payload tg tgs minVal maxVal idx hg ht hidx, rfl,
    hidx, ?_⟩
  intro r hr htgt
  simp only [List.mem_map] at hr
  obtain ⟨r0, _, hr0⟩ := hr
  by_cases h0 : r0.target = some idx
  · rw [if_pos h0] at hr0
    rw [← hr0]
  · rw [if_neg h0] at hr0
    rw [← hr0] at htgt
    exact absurd htgt h0

/-- A loop whose body is defined on every state that satisfies an invariant, and keeps the
invariant, runs to the end and ends in a state that satisfies it. -/
theorem forLoop_total {σ : Type} (body : Nat → σ → Option σ) (P : σ → Prop)
    (hbody : ∀ i st, P st → ∃ st1, body i st = some st1 ∧ P st1) :
    ∀ (cnt i : Nat) (st : σ), P st → ∃ st1, forLoop body i cnt st = some st1 ∧ P st1 := by
  intro cnt
  induction cnt with
  | zero => intro i st hp; exact ⟨st, rfl, hp⟩
  | succ cnt ih =>
    intro i st hp
    obtain ⟨st1, h1, hp1⟩ := hbody i st hp
    obtain ⟨st2, h2, hp2⟩ := ih (i + 1) st1 hp1
    exact ⟨st2, by simp only [forLoop, h1, Option.some_bind, h2], hp2⟩

theorem multichar_proc : multichar 'p' 'r' 'o' 'c' = 1886547811 := by decide

theorem multichar_mix : multichar 'm' 'i' 'x' ' ' = 1835628576 := by decide

theorem multichar_fp : multichar 'f' 'p' ' ' ' ' = 1718624288 := by decide

/-- The element code of float parameter `i`, for every `i` an `int` can hold: `'fp  '` plus
`i + 16`, without wrap-around. -/
theorem fpTid_eq (i : Nat) (hi : i < 2147483648) : fpTid i = 1718624304 + i := by
  have e0 : ('0'.toNat : Int) = 48 := by decide
  have e1 : (' '.toNat : Int) = 32 := by decide
  unfold fpTid toUInt32
  rw [multichar_fp, e0, e1]
  omega

/-- `MappingTarget::bind` returns when its four identifiers are initialised, and gives the
playback-ratio target the depth scale `2 - 0`. -/
theorem MappingTarget_bind_playbackRatio {F : Type} (fm : MatrixFloat F)
    (describeValue : PayloadRef → FieldRef → ParamMetaData F) (t : MappingTarget F)
    (m : Matrix F) (z : Zone F) (idx : Nat)
    (h1 : t.pitchOffsetT.gid ≠ 0 ∧ t.pitchOffsetT.tid ≠ 0)
    (h2 : t.ampT.gid ≠ 0 ∧ t.ampT.tid ≠ 0) (h3 : t.panT.gid ≠ 0 ∧ t.panT.tid ≠ 0)
    (h4 : t.playbackRatioT.gid ≠ 0 ∧ t.playbackRatioT.tid ≠ 0)
    (hidx : m.targetToOutputIndex.lookup t.playbackRatioT = some idx) :
    ∃ m2 t2, MappingTarget.bind fm describeValue t m z = some (m2, t2) ∧
      m2.getTargetValuePointer t.playbackRatioT = some idx ∧
      ∀ r ∈ m2.routingValuePointers, r.target = some idx → r.depthScale = fm.ofInt 2 := by
  obtain ⟨m1, e1, t1⟩ := bindEl_total fm describeValue m .mapping t.pitchOffsetT
    ⟨.pitchOffset, z.mapping.pitchOffset⟩ fm.fltMin fm.fltMin h1.1 h1.2
  obtain ⟨m2, e2, t2⟩ := bindEl_total fm describeValue m1 .mapping t.ampT
    ⟨.amplitude, z.mapping.amplitude⟩ fm.fltMin fm.fltMin h2.1 h2.2
  obtain ⟨m3, e3, t3⟩ := bindEl_total fm describeValue m2 .mapping t.panT
    ⟨.pan, z.mapping.pan⟩ fm.fltMin fm.fltMin h3.1 h3.2
  have hidx3 : m3.targetToOutputIndex.lookup t.playbackRatioT = some idx := by
    rw [t3, t2, t1]; exact hidx
  obtain ⟨m4, e4, _, p4, d4⟩ := bindEl_depthScale fm describeValue m3 .mapping t.playbackRatioT
    ⟨.zeroBase, t.zeroBase⟩ (fm.ofInt 0) (fm.ofInt 2) idx h4.1 h4.2 hidx3
  have hf : fm.feq (fm.ofInt 2) (fm.ofInt 0) = false := by
    rw [fm.feq_ofInt 2 0 (by norm_num) (by norm_num) (by norm_num) (by norm_num)]
    decide
  rw [hf, fm.sub_zero] at d4
  have hb : MappingTarget.bind fm describeValue t m z = some (m4,
      { t with pitchOffsetP := m.getTargetValuePointer t.pitchOffsetT,
               ampP := m1.getTargetValuePointer t.ampT,
               panP := m2.getTargetValuePointer t.panT,
               playbackRatioP := some idx }) := by
    unfold MappingTarget.bind bindElDefault
    rw [e1, Option.some_bind, e2, Option.some_bind, e3, Option.some_bind, e4]
    rfl
  exact ⟨m4, _, hb, p4, fun r hr ht => by simpa using d4 r hr ht⟩

theorem create_fpT_nonzero (p i : Nat) (hi : i < 2147483648) :
    ((ProcessorTarget.create p).fpT i).gid ≠ 0 ∧ ((ProcessorTarget.create p).fpT i).tid ≠ 0 := by
  constructor
  · show multichar 'p' 'r' 'o' 'c' ≠ 0
    rw [multichar_proc]; omega
  · show fpTid i ≠ 0
    rw [fpTid_eq i hi]; omega

theorem create_mixT_nonzero (p : Nat) :
    (ProcessorTarget.create p).mixT.gid ≠ 0 ∧ (ProcessorTarget.create p).mixT.tid ≠ 0 := by
  constructor
  · show multichar 'p' 'r' 'o' 'c' ≠ 0
    rw [multichar_proc]; omega
  · show multichar 'm' 'i' 'x' ' ' ≠ 0
    rw [multichar_mix]; omega

/-- One step of the loop of `ProcessorTarget::bind` returns for a target built by the
constructor, keeps the identifiers and the routing table, and leaves alone every routing that
points at a slot other than the slot of its float parameter. -/
theorem bindFloatParam_step {F : Type} (fm : MatrixFloat F)
    (describeValue : PayloadRef → FieldRef → ParamMetaData F) (z : Zone F) (p i : Nat)
    (hi : i < 2147483648) (st : Matrix F × ProcessorTarget)
    (hidx : st.2.index = p) (hfp : st.2.fpT = (ProcessorTarget.create p).fpT) :
    ∃ st1, ProcessorTarget.bindFloatParam fm describeValue z i st = some st1 ∧
      st1.2.index = p ∧ st1.2.fpT = (ProcessorTarget.create p).fpT ∧
      st1.2.mixT = st.2.mixT ∧ st1.2.mixP = st.2.mixP ∧
      st1.1.targetToOutputIndex = st.1.targetToOutputIndex ∧
      st1.1.routingValuePointers.length = st.1.routingValuePointers.length ∧
      ∀ (j : Nat) (r : RoutingValuePointers F), st.1.routingValuePointers[j]? = some r →
        r.target ≠ st.1.getTargetValuePointer ((ProcessorTarget.create p).fpT i) ∨
          r.target = none →
        st1.1.routingValuePointers[j]? = some r := by
  obtain ⟨hg, ht⟩ := create_fpT_nonzero p i hi
  unfold ProcessorTarget.bindFloatParam
  simp only [hfp, hidx]
  cases hl : st.1.targetToOutputIndex.lookup ((ProcessorTarget.create p).fpT i) with
  | none =>
    rw [bindEl_notFound fm describeValue st.1 _ _ _ _ _ hg ht hl]
    refine ⟨_, rfl, rfl, rfl, rfl, rfl, rfl, rfl, ?_⟩
    intro j r hj _
    exact hj
  | some idx =>
    rw [bindEl_found fm describeValue st.1 _ _ _ _ _ idx hg ht hl]
    refine ⟨_, rfl, rfl, rfl, rfl, rfl, rfl, ?_, ?_⟩
    · simp only [Option.map_some', List.length_map]
    · intro j r hj hne
      simp only [Option.map_some', List.getElem?_map, hj]
      have : r.target ≠ some idx := by
        rcases hne with h | h
        · rwa [Matrix.getTargetValuePointer, hl] at h
        · rw [h]; simp
      simp [this]

/-- `ProcessorTarget::bind` returns for a target built by the constructor (no assertion of
`bindEl` fails), stores the mix pointer, and gives the routings that point at the mix slot the
depth scale `1 - 0`, provided no float parameter of the slot shares the output slot of the
mix target. -/
theorem ProcessorTarget_bind_mix {F : Type} (fm : MatrixFloat F) (mc : ModConsts)
    (describeValue : PayloadRef → FieldRef → ParamMetaData F) (p : Nat) (m : Matrix F)
    (z : Zone F) (hmax : mc.maxProcessorFloatParams < 2147483648) :
    ∃ m2 t2, ProcessorTarget.bind fm mc describeValue (ProcessorTarget.create p) m z =
        some (m2, t2) ∧
      m2.targetToOutputIndex = m.targetToOutputIndex ∧
      t2.mixP = m.getTargetValuePointer (ProcessorTarget.create p).mixT ∧
      ∀ idx, m.targetToOutputIndex.lookup (ProcessorTarget.create p).mixT = some idx →
        (∀ i, i < mc.maxProcessorFloatParams →
          m.targetToOutputIndex.lookup ((ProcessorTarget.create p).fpT i) ≠ some idx) →
        ∀ r ∈ m2.routingValuePointers, r.target = some idx → r.depthScale = fm.ofInt 1 := by
  obtain ⟨hg, ht⟩ := create_mixT_nonzero p
  obtain ⟨m1, e1, t1⟩ := bindEl_total fm describeValue m (.processorStorage p)
    (ProcessorTarget.create p).mixT ⟨.mix, (z.processorStorage p).mix⟩ (fm.ofInt 0) (fm.ofInt 1)
    hg ht
  have hf : fm.feq (fm.ofInt 1) (fm.ofInt 0) = false := by
    rw [fm.feq_ofInt 1 0 (by norm_num) (by norm_num) (by norm_num) (by norm_num)]
    decide
  -- the invariant of the loop
  let P : Matrix F × ProcessorTarget → Prop := fun st =>
    st.2.index = p ∧ st.2.fpT = (ProcessorTarget.create p).fpT ∧
    st.2.mixP = m.getTargetValuePointer (ProcessorTarget.create p).mixT ∧
    st.1.targetToOutputIndex = m.targetToOutputIndex ∧
    ∀ idx, m.targetToOutputIndex.lookup (ProcessorTarget.create p).mixT = some idx →
      (∀ i, i < mc.maxProcessorFloatParams →
          m.targetToOutputIndex.lookup ((ProcessorTarget.create p).fpT i) ≠ some idx) →
      ∀ r ∈ st.1.routingValuePointers, r.target = some idx → r.depthScale = fm.ofInt 1
  have hP0 : P (m1, { ProcessorTarget.create p with
      mixP := m.getTargetValuePointer (ProcessorTarget.create p).mixT }) := by
    refine ⟨rfl, rfl, rfl, t1, ?_⟩
    intro idx hidx _ r hr htgt
    obtain ⟨m1b, e1b, _, _, d1⟩ := bindEl_depthScale fm describeValue m (.processorStorage p)
      (ProcessorTarget.create p).mixT ⟨.mix, (z.processorStorage p).mix⟩ (fm.ofInt 0)
      (fm.ofInt 1) idx hg ht hidx
    rw [e1] at e1b
    simp only [Option.some.injEq, Prod.mk.injEq] at e1b
    rw [← e1b.1] at d1
    have := d1 r hr htgt
    rw [hf, fm.sub_zero] at this
    simpa using this
  -- the loop can only be entered for indices an `int` holds
  have hloop : ∀ (cnt i : Nat) (st : Matrix F × ProcessorTarget), i + cnt ≤ mc.maxProcessorFloatParams →
      P st → ∃ st1, forLoop (ProcessorTarget.bindFloatParam fm describeValue z) i cnt st =
        some st1 ∧ P st1 := by
    intro cnt
    induction cnt with
    | zero => intro i st _ hp; exact ⟨st, rfl, hp⟩
    | succ cnt ih =>
      intro i st hi hp
      obtain ⟨hp1, hp2, hp3, hp4, hp5⟩ := hp
      obtain ⟨st1, hb, q1, q2, _, q4, q5, q6, q7⟩ := bindFloatParam_step fm describeValue z p i
        (by omega) st hp1 hp2
      have hP1 : P st1 := by
        refine ⟨q1, q2, q4.trans hp3, q5.trans hp4, ?_⟩
        intro idx hidx hsep r hr htgt
        obtain ⟨j, hj, hjr⟩ := List.getElem_of_mem hr
        have hj0 : j < st.1.routingValuePointers.length := by rw [← q6]; exact hj
        have hold := q7 j st.1.routingValuePointers[j] (List.getElem?_eq_getElem hj0)
        by_cases hcase : st.1.routingValuePointers[j].target ≠
            st.1.getTargetValuePointer ((ProcessorTarget.create p).fpT i) ∨
            st.1.routingValuePointers[j].target = none
        · have hsame := hold hcase
          rw [List.getElem?_eq_getElem hj, hjr] at hsame
          simp only [Option.some.injEq] at hsame
          rw [hsame] at htgt ⊢
          exact hp5 idx hidx hsep _ (List.getElem_mem hj0) htgt
        · -- the routing pointed at the slot of float parameter `i`, which is not `idx`
          exfalso
          simp only [not_or, not_not] at hcase
          obtain ⟨hc1, hc2⟩ := hcase
          -- targets are kept by the step, so the new routing points at the same slot
          have htk : ∀ (l : List (RoutingValuePointers F)) (q : Option Nat) (rg : F) (a : Nat)
              (ha : a < l.length),
              ((l.map (fun r => if r.target = q then { r with depthScale := rg } else r))[a]?).map
                (fun r => r.target) = some l[a].target := by
            intro l q rg a ha
            rw [List.getElem?_map, List.getElem?_eq_getElem ha]
            by_cases hq : l[a].target = q
            · simp [hq]
            · simp [hq]
          cases hl : st.1.targetToOutputIndex.lookup ((ProcessorTarget.create p).fpT i) with
          | none =>
            rw [Matrix.getTargetValuePointer, hl] at hc1
            exact hc2 hc1
          | some i2 =>
            have hne : i2 ≠ idx := by
              intro h
              have := hsep i (by omega)
              rw [← hp4, hl, h] at this
              exact this rfl
            have hb2 := hb
            unfold ProcessorTarget.bindFloatParam at hb2
            simp only [hp2, hp1] at hb2
            rw [bindEl_found fm describeValue st.1 _ _ _ _ _ i2
              (create_fpT_nonzero p i (by omega)).1 (create_fpT_nonzero p i (by omega)).2 hl]
              at hb2
            simp only [Option.map_some', Option.some.injEq] at hb2
            have hk := htk st.1.routingValuePointers (some i2)
              (if fm.feq ((z.processorDescription p).floatControlDescriptions i).maxVal
                  ((z.processorDescription p).floatControlDescriptions i).minVal = true then
                fm.sub (describeValue (.processorStorage p) (FieldRef.floatParam i)).maxVal
                  (describeValue (.processorStorage p) (FieldRef.floatParam i)).minVal
              else fm.sub ((z.processorDescription p).floatControlDescriptions i).maxVal
                  ((z.processorDescription p).floatControlDescriptions i).minVal) j hj0
            have hst1 : st1.1.routingValuePointers =
                st.1.routingValuePointers.map (fun r => if r.target = some i2 then
                  { r with depthScale :=
                    (if fm.feq ((z.processorDescription p).floatControlDescriptions i).maxVal
                        ((z.processorDescription p).floatControlDescriptions i).minVal = true then
                      fm.sub (describeValue (.processorStorage p) (FieldRef.floatParam i)).maxVal
                        (describeValue (.processorStorage p) (FieldRef.floatParam i)).minVal
                    else fm.sub ((z.processorDescription p).floatControlDescriptions i).maxVal
                        ((z.processorDescription p).floatControlDescriptions i).minVal) }
                  else r) := by
              rw [← hb2]
            rw [← hst1, List.getElem?_eq_getElem hj, hjr] at hk
            simp only [Option.map_some', Option.some.injEq] at hk
            rw [hk, hc1, Matrix.getTargetValuePointer, hl] at htgt
            simp only [Option.some.injEq] at htgt
            exact hne htgt
      obtain ⟨st2, h2, hp2'⟩ := ih (i + 1) st1 (by omega) hP1
      exact ⟨st2, by simp only [forLoop, hb, Option.some_bind, h2], hp2'⟩
  obtain ⟨st2, h2, _, _, q3, q4, q5⟩ := hloop mc.maxProcessorFloatParams 0
    (m1, { ProcessorTarget.create p with
      mixP := m.getTargetValuePointer (ProcessorTarget.create p).mixT }) (by omega) hP0
  refine ⟨st2.1, st2.2, ?_, q4, q3, q5⟩
  unfold ProcessorTarget.bind
  show (bindEl fm describeValue m (.processorStorage p) (ProcessorTarget.create p).mixT
    ⟨.mix, (z.processorStorage p).mix⟩ (fm.ofInt 0) (fm.ofInt 1)).bind _ = _
  rw [e1, Option.some_bind]
  exact h2

/-- C13 (as stated) fails for a pair with `minVal = maxVal`: with the override `(0, 0)` and a
metadata range `[0, 1]`, the routing that points at the target has depth scale `1`, the
metadata range, and not `maxVal - minVal = 0`. -/
theorem bindEl_override_counterexample :
    (bindEl exactMatrixFloat unitMeta demoMatrix .mapping demoTarget ⟨.amplitude, 1⟩
        (0 : ℚ) 0).map (fun r => r.1.depthScalesAt (r.1.getTargetValuePointer demoTarget)) =
      some [1] ∧
    exactMatrixFloat.sub (0 : ℚ) 0 ≠ 1 := by
  constructor
  · rw [bindEl_found exactMatrixFloat unitMeta demoMatrix .mapping demoTarget ⟨.amplitude, 1⟩
      0 0 3 (by decide) (by decide) (by decide)]
    simp [Matrix.depthScalesAt, Matrix.getTargetValuePointer, Matrix.bindTargetBaseValue,
      demoMatrix, exactMatrixFloat, unitMeta, List.lookup]
  · simp [exactMatrixFloat]

/-- C15. Binding is idempotent: when `bindEl` has returned, the same call on the matrix it left
returns the same pointer and leaves that matrix as it is, so every `depthScale` keeps the value
it had after the first call. The call keeps the number of routings and the routing table;
every routing whose target pointer is not the value pointer of the bound target is unchanged,
and when the target is not in the routing table every routing is unchanged. -/
theorem bindEl_idempotent {F : Type} (fm : MatrixFloat F)
    (describeValue : PayloadRef → FieldRef → ParamMetaData F) (m m1 : Matrix F)
    (payload : PayloadRef) (tg : TargetIdentifier) (tgs : FloatRef F) (minVal maxVal : F)
    (p : Option Nat)
    (h : bindEl fm describeValue m payload tg tgs minVal maxVal = some (m1, p)) :
    bindEl fm describeValue m1 payload tg tgs minVal maxVal = some (m1, p) ∧
    m1.routingValuePointers.length = m.routingValuePointers.length ∧
    m1.targetToOutputIndex = m.targetToOutputIndex ∧
    (∀ (j : Nat) (r : RoutingValuePointers F), m.routingValuePointers[j]? = some r →
      r.target ≠ m.getTargetValuePointer tg → m1.routingValuePointers[j]? = some r) ∧
    (m.targetToOutputIndex.lookup tg = none → m1.routingValuePointers = m.routingValuePointers) := by
  obtain ⟨hg, ht, htoi, _, _⟩ := bindEl_some fm describeValue m m1 payload tg tgs minVal maxVal
    p h
  cases hidx : m.targetToOutputIndex.lookup tg with
  | none =>
    have hidx1 : m1.targetToOutputIndex.lookup tg = none := by rw [htoi]; exact hidx
    rw [bindEl_notFound fm describeValue m payload tg tgs minVal maxVal hg ht hidx] at h
    simp only [Option.some.injEq, Prod.mk.injEq] at h
    obtain ⟨h1, h2⟩ := h
    refine ⟨?_, by rw [← h1]; rfl, htoi, fun j r hj _ => by rw [← h1]; exact hj,
      fun _ => by rw [← h1]; rfl⟩
    rw [bindEl_notFound fm describeValue m1 payload tg tgs minVal maxVal hg ht hidx1, ← h2]
    rw [← h1]
    simp [Matrix.bindTargetBaseValue, List.filter_filter]
  | some idx =>
    have hidx1 : m1.targetToOutputIndex.lookup tg = some idx := by rw [htoi]; exact hidx
    rw [bindEl_found fm describeValue m payload tg tgs minVal maxVal idx hg ht hidx] at h
    simp only [Option.some.injEq, Prod.mk.injEq] at h
    obtain ⟨h1, h2⟩ := h
    refine ⟨?_, by rw [← h1]; simp, htoi, ?_, fun hn => by simp at hn⟩
    · rw [bindEl_found fm describeValue m1 payload tg tgs minVal maxVal idx hg ht hidx1, ← h2]
      rw [← h1]
      simp only [Matrix.bindTargetBaseValue, depthScale_assign_idem]
      simp [List.filter_filter]
    · intro j r hj hne
      rw [Matrix.getTargetValuePointer, hidx] at hne
      rw [← h1]
      simp only [List.getElem?_map, hj, Option.map_some', if_neg hne]

/-- An instance of C15: binding `demoTarget` twice with the override `(0, 2)`. -/
theorem bindEl_idempotent_witness :
    ∃ m1 p, bindEl exactMatrixFloat unitMeta demoMatrix .mapping demoTarget ⟨.amplitude, 1⟩
        (0 : ℚ) 2 = some (m1, p) ∧
      bindEl exactMatrixFloat unitMeta m1 .mapping demoTarget ⟨.amplitude, 1⟩ (0 : ℚ) 2 =
        some (m1, p) :=
  ⟨_, _, bindEl_found exactMatrixFloat unitMeta demoMatrix .mapping demoTarget ⟨.amplitude, 1⟩
      0 2 3 (by decide) (by decide) (by decide),
    (bindEl_idempotent exactMatrixFloat unitMeta demoMatrix _ .mapping demoTarget
      ⟨.amplitude, 1⟩ 0 2 _
      (bindEl_found exactMatrixFloat unitMeta demoMatrix .mapping demoTarget ⟨.amplitude, 1⟩
        0 2 3 (by decide) (by decide) (by decide))).1⟩

/-- The character with the code of `'0'` plus `i`: the decimal digit `i` for `i ≤ 9`. -/
theorem digit_char (i : Nat) (hi : i ≤ 9) :
    (Char.ofNat ('0'.toNat + i)).toNat = 48 + i := by
  interval_cases i <;> decide

/-- C16. For every processor slot index `p` and every float-parameter index `i ≤ 9`, the
constructor gives parameter `i` the identifier with group `'proc'`, index `p` and the element
code `'fp  ' + (i + '0' - ' ')`, which is the code of the four characters `f`, `p`, blank and
the decimal digit `i`. Group and element codes of the mix target and of every float parameter
are non-zero, the element codes of the float parameters and of `'mix '` are pairwise distinct,
and for at most ten float parameters `ProcessorTarget::bind` returns for every matrix and
zone: no assertion of `bindEl` fails. -/
theorem ProcessorTarget_identifiers (p i : Nat) (hi : i ≤ 9) :
    (ProcessorTarget.create p).fpT i =
      ⟨multichar 'p' 'r' 'o' 'c', multichar 'f' 'p' ' ' (Char.ofNat ('0'.toNat + i)), p⟩ ∧
    (Char.ofNat ('0'.toNat + i)).toNat = '0'.toNat + i ∧
    ((ProcessorTarget.create p).fpT i).gid ≠ 0 ∧ ((ProcessorTarget.create p).fpT i).tid ≠ 0 ∧
    (ProcessorTarget.create p).mixT = ⟨multichar 'p' 'r' 'o' 'c', multichar 'm' 'i' 'x' ' ', p⟩ ∧
    (ProcessorTarget.create p).mixT.gid ≠ 0 ∧ (ProcessorTarget.create p).mixT.tid ≠ 0 ∧
    ((ProcessorTarget.create p).fpT i).tid ≠ (ProcessorTarget.create p).mixT.tid ∧
    (∀ j, j ≤ 9 → j ≠ i →
      ((ProcessorTarget.create p).fpT j).tid ≠ ((ProcessorTarget.create p).fpT i).tid) ∧
    (∀ {F : Type} (fm : MatrixFloat F) (mc : ModConsts)
      (describeValue : PayloadRef → FieldRef → ParamMetaData F) (m : Matrix F) (z : Zone F),
      mc.maxProcessorFloatParams ≤ 10 →
      (ProcessorTarget.bind fm mc describeValue (ProcessorTarget.create p) m z).isSome = true) := by
  have hfp : fpTid i = 1718624304 + i := fpTid_eq i (by omega)
  have hd := digit_char i hi
  have hmc : multichar 'f' 'p' ' ' (Char.ofNat ('0'.toNat + i)) = 1718624304 + i := by
    unfold multichar
    rw [hd]
    have e0 : 'f'.toNat = 102 := by decide
    have e1 : 'p'.toNat = 112 := by decide
    have e2 : ' '.toNat = 32 := by decide
    rw [e0, e1, e2]
    omega
  refine ⟨?_, ?_, (create_fpT_nonzero p i (by omega)).1, (create_fpT_nonzero p i (by omega)).2,
    rfl, (create_mixT_nonzero p).1, (create_mixT_nonzero p).2, ?_, ?_, ?_⟩
  · show (⟨multichar 'p' 'r' 'o' 'c', fpTid i, p⟩ : TargetIdentifier) = _
    rw [hfp, hmc]
  · rw [hd]
    have e3 : '0'.toNat = 48 := by decide
    rw [e3]
  · show fpTid i ≠ multichar 'm' 'i' 'x' ' '
    rw [hfp, multichar_mix]; omega
  · intro j hj hne
    show fpTid j ≠ fpTid i
    rw [hfp, fpTid_eq j (by omega)]; omega
  · intro F fm mc describeValue m z hmax
    obtain ⟨m2, t2, e, _⟩ := ProcessorTarget_bind_mix fm mc describeValue p m z (by omega)
    rw [e]; rfl

/-- An instance of C16: slot 2, float parameter 7 has the element code of `fp 7`. -/
theorem ProcessorTarget_identifiers_witness :
    (ProcessorTarget.create 2).fpT 7 =
      ⟨multichar 'p' 'r' 'o' 'c', multichar 'f' 'p' ' ' '7', 2⟩ ∧
    (ProcessorTarget.bind exactMatrixFloat demoModConsts unitMeta (ProcessorTarget.create 2)
      demoMatrix demoZone).isSome = true :=
  have h := ProcessorTarget_identifiers 2 7 (by decide)
  ⟨h.1, h.2.2.2.2.2.2.2.2.2 exactMatrixFloat demoModConsts unitMeta demoMatrix demoZone
    (by decide)⟩

/-- What `strictWeakOn` checks, as propositions about the elements of the list. -/
theorem strictWeakOn_iff {α : Type} (lt : α → α → Bool) (l : List α) :
    strictWeakOn lt l = true ↔
      (∀ a ∈ l, lt a a = false) ∧
      (∀ a ∈ l, ∀ b ∈ l, ∀ c ∈ l, lt a b = true → lt b c = true → lt a c = true) ∧
      (∀ a ∈ l, ∀ b ∈ l, ∀ c ∈ l, lt a b = false → lt b a = false → lt b c = false →
        lt c b = false → lt a c = false ∧ lt c a = false) := by
  unfold strictWeakOn
  simp only [Bool.and_eq_true, List.all_eq_true]
  constructor
  · rintro ⟨⟨h1, h2⟩, h3⟩
    refine ⟨fun a ha => by simpa using h1 a ha, ?_, ?_⟩
    · intro a ha b hb c hc hab hbc
      have := h2 a ha b hb c hc
      simpa [hab, hbc] using this
    · intro a ha b hb c hc q1 q2 q3 q4
      have := h3 a ha b hb c hc
      simpa [q1, q2, q3, q4] using this
  · rintro ⟨h1, h2, h3⟩
    refine ⟨⟨fun a ha => by simpa using h1 a ha, ?_⟩, ?_⟩
    · intro a ha b hb c hc
      have := h2 a ha b hb c hc
      cases hab : lt a b <;> cases hbc : lt b c <;> simp_all
    · intro a ha b hb c hc
      have := h3 a ha b hb c hc
      cases q1 : lt a b <;> cases q2 : lt b a <;> cases q3 : lt b c <;> cases q4 : lt c b <;>
        simp_all

theorem mem_orderedInsertBy {α : Type} (lt : α → α → Bool) (x a : α) :
    ∀ l : List α, a ∈ orderedInsertBy lt x l ↔ a = x ∨ a ∈ l := by
  intro l
  induction l with
  | nil => simp [orderedInsertBy]
  | cons y ys ih =>
    unfold orderedInsertBy
    split_ifs
    · simp
    · simp only [List.mem_cons, ih]
      tauto

theorem perm_orderedInsertBy {α : Type} (lt : α → α → Bool) (x : α) :
    ∀ l : List α, (orderedInsertBy lt x l).Perm (x :: l) := by
  intro l
  induction l with
  | nil => exact List.Perm.refl _
  | cons y ys ih =>
    unfold orderedInsertBy
    split_ifs
    · exact List.Perm.refl _
    · exact (List.Perm.cons y ih).trans (List.Perm.swap x y ys)

/-- Insertion sort returns a permutation of its input. -/
theorem perm_insertionSortBy {α : Type} (lt : α → α → Bool) :
    ∀ l : List α, (insertionSortBy lt l).Perm l := by
  intro l
  induction l with
  | nil => exact List.Perm.refl _
  | cons x xs ih =>
    exact (perm_orderedInsertBy lt x _).trans (List.Perm.cons x ih)

/-- In a strict weak ordering, `x < y` puts every `z` above `x` or below `y`. -/
theorem swo_split {α : Type} (lt : α → α → Bool) (S : List α)
    (hS : strictWeakOn lt S = true) (x y z : α) (hx : x ∈ S) (hy : y ∈ S) (hz : z ∈ S)
    (hxy : lt x y = true) : lt x z = true ∨ lt z y = true := by
  obtain ⟨h1, h2, h3⟩ := (strictWeakOn_iff lt S).mp hS
  by_contra hcon
  simp only [not_or, Bool.not_eq_true] at hcon
  obtain ⟨hxz, hzy⟩ := hcon
  have hzx : lt z x = false := by
    by_contra hc
    simp only [Bool.not_eq_false] at hc
    have := h2 z hz x hx y hy hc hxy
    rw [hzy] at this
    exact absurd this (by simp)
  have hyz : lt y z = false := by
    by_contra hc
    simp only [Bool.not_eq_false] at hc
    have := h2 x hx y hy z hz hxy hc
    rw [hxz] at this
    exact absurd this (by simp)
  have := (h3 x hx z hz y hy hxz hzx hzy hyz).1
  rw [hxy] at this
  exact absurd this (by simp)

theorem swo_asymm {α : Type} (lt : α → α → Bool) (S : List α)
    (hS : strictWeakOn lt S = true) (x y : α) (hx : x ∈ S) (hy : y ∈ S)
    (hxy : lt x y = true) : lt y x = false := by
  obtain ⟨h1, h2, _⟩ := (strictWeakOn_iff lt S).mp hS
  by_contra hc
  simp only [Bool.not_eq_false] at hc
  have := h2 x hx y hy x hx hxy hc
  rw [h1 x hx] at this
  exact absurd this (by simp)

theorem pairwise_orderedInsertBy {α : Type} (lt : α → α → Bool) (S : List α)
    (hS : strictWeakOn lt S = true) (x : α) (hx : x ∈ S) :
    ∀ l : List α, (∀ a ∈ l, a ∈ S) → l.Pairwise (fun a b => lt b a = false) →
      (orderedInsertBy lt x l).Pairwise (fun a b => lt b a = false) := by
  intro l
  induction l with
  | nil => intro _ _; simp [orderedInsertBy]
  | cons y ys ih =>
    intro hmem hp
    have hy : y ∈ S := hmem y (List.mem_cons_self _ _)
    have hys : ∀ a ∈ ys, a ∈ S := fun a ha => hmem a (List.mem_cons_of_mem _ ha)
    rw [List.pairwise_cons] at hp
    unfold orderedInsertBy
    by_cases hxy : lt x y = true
    · rw [if_pos hxy]
      rw [List.pairwise_cons]
      refine ⟨?_, List.pairwise_cons.mpr hp⟩
      intro b hb
      rcases List.mem_cons.mp hb with hb | hb
      · rw [hb]; exact swo_asymm lt S hS x y hx hy hxy
      · rcases swo_split lt S hS x y b hx hy (hys b hb) hxy with h | h
        · exact swo_asymm lt S hS x b hx (hys b hb) h
        · rw [hp.1 b hb] at h; exact absurd h (by simp)
    · rw [if_neg hxy]
      rw [List.pairwise_cons]
      refine ⟨?_, ih hys hp.2⟩
      intro b hb
      rcases (mem_orderedInsertBy lt x b ys).mp hb with hb | hb
      · rw [hb]; simpa using hxy
      · exact hp.1 b hb

/-- On a strict weak ordering insertion sort returns a sorted list: no element is less than an
element before it. -/
theorem pairwise_insertionSortBy {α : Type} (lt : α → α → Bool) (S : List α)
    (hS : strictWeakOn lt S = true) :
    ∀ l : List α, (∀ a ∈ l, a ∈ S) →
      (insertionSortBy lt l).Pairwise (fun a b => lt b a = false) := by
  intro l
  induction l with
  | nil => intro _; simp [insertionSortBy]
  | cons x xs ih =>
    intro hmem
    unfold insertionSortBy
    apply pairwise_orderedInsertBy lt S hS x (hmem x (List.mem_cons_self _ _))
    · intro a ha
      exact hmem a (List.mem_cons_of_mem _ ((perm_insertionSortBy lt xs).mem_iff.mp ha))
    · exact ih (fun a ha => hmem a (List.mem_cons_of_mem _ ha))

/-- What `std::sort` guarantees when it is defined: a permutation of the input in which no
element is less than an element before it. -/
theorem stdSort_spec {α : Type} (lt : α → α → Bool) (l out : List α)
    (h : stdSort lt l = some out) :
    strictWeakOn lt l = true ∧ out.Perm l ∧ out.Pairwise (fun a b => lt b a = false) := by
  unfold stdSort at h
  by_cases hs : strictWeakOn lt l = true
  · rw [if_pos hs] at h
    simp only [Option.some.injEq] at h
    subst h
    exact ⟨hs, perm_insertionSortBy lt l, pairwise_insertionSortBy lt l hs l (fun a ha => ha)⟩
  · rw [if_neg hs] at h
    exact absurd h (by simp)

/-- In a sorted list, an element at a smaller index is not greater than one at a larger
index. -/
theorem pairwise_getElem_opt_lt {α : Type} (R : α → α → Prop) (l : List α) (hp : l.Pairwise R)
    (i j : Nat) (a b : α) (hij : i < j) (hi : l[i]? = some a) (hj : l[j]? = some b) : R a b := by
  obtain ⟨hi1, hi2⟩ := List.getElem?_eq_some.mp hi
  obtain ⟨hj1, hj2⟩ := List.getElem?_eq_some.mp hj
  rw [← hi2, ← hj2]
  exact List.pairwise_iff_getElem.mp hp i j hi1 hj1 hij

theorem char_eq_of_toNat_eq (a b : Char) (h : a.toNat = b.toNat) : a = b := by
  rw [← Char.ofNat_toNat a, ← Char.ofNat_toNat b, h]

theorem charsLt_irrefl : ∀ a : List Char, charsLt a a = false := by
  intro a
  induction a with
  | nil => rfl
  | cons x xs ih => simp [charsLt, ih]

theorem charsLt_trans :
    ∀ a b c : List Char, charsLt a b = true → charsLt b c = true → charsLt a c = true := by
  intro a
  induction a with
  | nil =>
    intro b c hab hbc
    cases b with
    | nil => simp [charsLt] at hab
    | cons y ys =>
      cases c with
      | nil => simp [charsLt] at hbc
      | cons z zs => simp [charsLt]
  | cons x xs ih =>
    intro b c hab hbc
    cases b with
    | nil => simp [charsLt] at hab
    | cons y ys =>
      cases c with
      | nil => simp [charsLt] at hbc
      | cons z zs =>
        simp only [charsLt] at hab hbc ⊢
        by_cases h1 : x.toNat < y.toNat
        · by_cases h2 : y.toNat < z.toNat
          · rw [if_pos (by omega)]
          · rw [if_neg h2] at hbc
            by_cases h3 : y.toNat = z.toNat
            · rw [if_pos (by omega)]
            · rw [if_neg h3] at hbc; exact absurd hbc (by simp)
        · rw [if_neg h1] at hab
          by_cases h1' : x.toNat = y.toNat
          · rw [if_pos h1'] at hab
            by_cases h2 : y.toNat < z.toNat
            · rw [if_pos (by omega)]
            · rw [if_neg h2] at hbc
              by_cases h3 : y.toNat = z.toNat
              · rw [if_pos h3] at hbc
                rw [if_neg (by omega), if_pos (by omega)]
                exact ih ys zs hab hbc
              · rw [if_neg h3] at hbc; exact absurd hbc (by simp)
          · rw [if_neg h1'] at hab; exact absurd hab (by simp)

theorem charsLt_total :
    ∀ a b : List Char, charsLt a b = false → charsLt b a = false → a = b := by
  intro a
  induction a with
  | nil =>
    intro b hab _
    cases b with
    | nil => rfl
    | cons y ys => simp [charsLt] at hab
  | cons x xs ih =>
    intro b hab hba
    cases b with
    | nil => simp [charsLt] at hba
    | cons y ys =>
      simp only [charsLt] at hab hba
      by_cases h1 : x.toNat < y.toNat
      · rw [if_pos h1] at hab; exact absurd hab (by simp)
      · rw [if_neg h1] at hab
        by_cases h2 : y.toNat < x.toNat
        · rw [if_pos h2] at hba; exact absurd hba (by simp)
        · rw [if_neg h2] at hba
          have he : x.toNat = y.toNat := by omega
          rw [if_pos he] at hab
          rw [if_pos he.symm] at hba
          rw [char_eq_of_toNat_eq x y he, ih ys hab hba]

theorem stringLt_irrefl (a : String) : stringLt a a = false := charsLt_irrefl _

theorem stringLt_trans (a b c : String) (h1 : stringLt a b = true) (h2 : stringLt b c = true) :
    stringLt a c = true := charsLt_trans _ _ _ h1 h2

theorem stringLt_total (a b : String) (h1 : stringLt a b = false) (h2 : stringLt b a = false) :
    a = b := String.toList_inj.mp (charsLt_total _ _ h1 h2)

theorem stringLt_asymm (a b : String) (h : stringLt a b = true) : stringLt b a = false := by
  by_contra hc
  simp only [Bool.not_eq_false] at hc
  have := stringLt_trans a b a h hc
  rw [stringLt_irrefl] at this
  exact absurd this (by simp)

/-- What `identCmp a b` says: the path of `a` is less, or the paths are equal and the name of
`a` is less, or paths and names are equal and the hash of `a` is less. -/
theorem identCmp_iff {I : Type} (hash : I → Nat) (a b : I × identifierDisplayName_t) :
    identCmp hash a b = true ↔
      stringLt a.2.1 b.2.1 = true ∨
      (a.2.1 = b.2.1 ∧ stringLt a.2.2 b.2.2 = true) ∨
      (a.2.1 = b.2.1 ∧ a.2.2 = b.2.2 ∧ hash a.1 < hash b.1) := by
  unfold identCmp
  simp only
  by_cases h1 : a.2.1 = b.2.1
  · rw [if_pos h1]
    by_cases h2 : a.2.2 = b.2.2
    · rw [if_pos h2]
      simp [h1, h2, stringLt_irrefl]
    · rw [if_neg h2]
      simp [h1, h2, stringLt_irrefl]
  · rw [if_neg h1]
    simp [h1]

/-- Two entries are not ordered by `identCmp` either way exactly when they have the same path,
the same name and the same hash. -/
theorem identCmp_incomparable {I : Type} (hash : I → Nat) (a b : I × identifierDisplayName_t) :
    (identCmp hash a b = false ∧ identCmp hash b a = false) ↔
      (a.2.1 = b.2.1 ∧ a.2.2 = b.2.2 ∧ hash a.1 = hash b.1) := by
  constructor
  · rintro ⟨h1, h2⟩
    have n1 : ¬ identCmp hash a b = true := by rw [h1]; simp
    have n2 : ¬ identCmp hash b a = true := by rw [h2]; simp
    rw [identCmp_iff] at n1 n2
    simp only [not_or, not_and, Bool.not_eq_true] at n1 n2
    have e1 : a.2.1 = b.2.1 := stringLt_total _ _ n1.1 n2.1
    have e2 : a.2.2 = b.2.2 := stringLt_total _ _ (n1.2.1 e1) (n2.2.1 e1.symm)
    have := n1.2.2 e1 e2
    have := n2.2.2 e1.symm e2.symm
    exact ⟨e1, e2, by omega⟩
  · rintro ⟨e1, e2, e3⟩
    have n1 : ¬ identCmp hash a b = true := by
      rw [identCmp_iff, e1, e2, e3]
      simp [stringLt_irrefl]
    have n2 : ¬ identCmp hash b a = true := by
      rw [identCmp_iff, e1, e2, e3]
      simp [stringLt_irrefl]
    exact ⟨by simpa using n1, by simpa using n2⟩

theorem identCmp_trans {I : Type} (hash : I → Nat) (a b c : I × identifierDisplayName_t)
    (h1 : identCmp hash a b = true) (h2 : identCmp hash b c = true) :
    identCmp hash a c = true := by
  rw [identCmp_iff] at h1 h2 ⊢
  rcases h1 with h1 | ⟨e1, h1⟩ | ⟨e1, f1, h1⟩
  · rcases h2 with h2 | ⟨e2, _⟩ | ⟨e2, _, _⟩
    · exact Or.inl (stringLt_trans _ _ _ h1 h2)
    · exact Or.inl (by rw [← e2]; exact h1)
    · exact Or.inl (by rw [← e2]; exact h1)
  · rcases h2 with h2 | ⟨e2, h2⟩ | ⟨e2, f2, _⟩
    · exact Or.inl (by rw [e1]; exact h2)
    · exact Or.inr (Or.inl ⟨e1.trans e2, stringLt_trans _ _ _ h1 h2⟩)
    · exact Or.inr (Or.inl ⟨e1.trans e2, by rw [← f2]; exact h1⟩)
  · rcases h2 with h2 | ⟨e2, h2⟩ | ⟨e2, f2, h2⟩
    · exact Or.inl (by rw [e1]; exact h2)
    · exact Or.inr (Or.inl ⟨e1.trans e2, by rw [f1]; exact h2⟩)
    · exact Or.inr (Or.inr ⟨e1.trans e2, f1.trans f2, by omega⟩)

/-- `identCmp` is a strict weak ordering on every list of entries, for every hash function. -/
theorem identCmp_strictWeakOn {I : Type} (hash : I → Nat)
    (l : List (I × identifierDisplayName_t)) : strictWeakOn (identCmp hash) l = true := by
  rw [strictWeakOn_iff]
  refine ⟨?_, ?_, ?_⟩
  · intro a _
    exact ((identCmp_incomparable hash a a).mpr ⟨rfl, rfl, rfl⟩).1
  · intro a _ b _ c _ h1 h2
    exact identCmp_trans hash a b c h1 h2
  · intro a _ b _ c _ q1 q2 q3 q4
    obtain ⟨e1, e2, e3⟩ := (identCmp_incomparable hash a b).mp ⟨q1, q2⟩
    obtain ⟨f1, f2, f3⟩ := (identCmp_incomparable hash b c).mp ⟨q3, q4⟩
    exact (identCmp_incomparable hash a c).mpr ⟨e1.trans f1, e2.trans f2, e3.trans f3⟩

theorem getVoiceMatrixMetadata_some {Z : Type} (hashT : TargetIdentifier → Nat)
    (hashS : SourceIdentifier → Nat) (mcv : ModulationCurves) (e : Engine Z) (z : Z)
    (md : voiceMatrixMetadata_t)
    (h : getVoiceMatrixMetadata hashT hashS mcv e z = some md) :
    stdSort (tgtCmp hashT) (namedEntries z e.voiceModTargets) = some md.targets ∧
    stdSort (identCmp hashS) (namedEntries z e.voiceModSources) = some md.sources ∧
    curveEntries mcv mcv.allCurves = some md.curves ∧ md.flag = true := by
  unfold getVoiceMatrixMetadata at h
  cases h1 : stdSort (tgtCmp hashT) (namedEntries z e.voiceModTargets) with
  | none => rw [h1] at h; simp at h
  | some tg =>
    cases h2 : stdSort (identCmp hashS) (namedEntries z e.voiceModSources) with
    | none => rw [h1, h2] at h; simp at h
    | some sr =>
      cases h3 : curveEntries mcv mcv.allCurves with
      | none => rw [h1, h2, h3] at h; simp at h
      | some cr =>
        rw [h1, h2, h3] at h
        simp only [Option.some_bind, Option.map_some', Option.some.injEq] at h
        subst h
        exact ⟨rfl, rfl, rfl, rfl⟩

theorem tgtCmp_other_slot (hash : TargetIdentifier → Nat) (p : Nat)
    (a c : TargetIdentifier × identifierDisplayName_t) (ha : inProcSlot p a)
    (hc : ¬ inProcSlot p c) :
    tgtCmp hash a c = identCmp hash a c ∧ tgtCmp hash c a = identCmp hash c a := by
  unfold inProcSlot at ha hc
  unfold tgtCmp
  simp only
  constructor
  · rw [if_neg]
    rintro ⟨h1, h2, h3⟩
    exact hc ⟨by rw [h2, h1], by rw [h3, ha.2]⟩
  · rw [if_neg]
    rintro ⟨h1, _, h3⟩
    exact hc ⟨h1, by rw [← h3, ha.2]⟩

theorem tgtCmp_same_slot (hash : TargetIdentifier → Nat) (p : Nat)
    (a b : TargetIdentifier × identifierDisplayName_t) (ha : inProcSlot p a)
    (hb : inProcSlot p b) : tgtCmp hash a b = decide (a.1.tid < b.1.tid) := by
  unfold inProcSlot at ha hb
  unfold tgtCmp
  simp only
  rw [if_pos ⟨ha.1, by rw [hb.1, ha.1], by rw [hb.2, ha.2]⟩]

theorem nodup_getElem_opt_inj {α : Type} (l : List α) (hn : l.Nodup) (i j : Nat) (a : α)
    (hi : l[i]? = some a) (hj : l[j]? = some a) : i = j := by
  obtain ⟨hi1, hi2⟩ := List.getElem?_eq_some.mp hi
  obtain ⟨hj1, hj2⟩ := List.getElem?_eq_some.mp hj
  exact (List.Nodup.getElem_inj_iff hn).mp (hi2.trans hj2.symm)

theorem namedEntries_keys {Z I : Type} (z : Z) (regs : List (I × DisplayFn Z I × DisplayFn Z I)) :
    (namedEntries z regs).map (fun a => a.1) = regs.map (fun r => r.1) := by
  simp [namedEntries]

theorem identCmp_false_iff {I : Type} (hash : I → Nat) (a b : I × identifierDisplayName_t) :
    identCmp hash b a = false ↔ DisplayLe hash a b := by
  unfold DisplayLe
  constructor
  · intro h
    have n : ¬ identCmp hash b a = true := by rw [h]; simp
    rw [identCmp_iff] at n
    simp only [not_or, not_and, Bool.not_eq_true] at n
    refine ⟨n.1, fun e => n.2.1 e.symm, fun e1 e2 => ?_⟩
    have := n.2.2 e1.symm e2.symm
    omega
  · rintro ⟨h1, h2, h3⟩
    have n : ¬ identCmp hash b a = true := by
      rw [identCmp_iff]
      simp only [not_or, not_and, Bool.not_eq_true]
      refine ⟨h1, fun e => h2 e.symm, fun e1 e2 => ?_⟩
      have := h3 e1.symm e2.symm
      omega
    simpa using n

theorem tgtCmp_not_same_slot (hash : TargetIdentifier → Nat)
    (a b : TargetIdentifier × identifierDisplayName_t) (h : ¬ SameProcSlot a b) :
    tgtCmp hash b a = identCmp hash b a := by
  unfold SameProcSlot at h
  unfold tgtCmp
  simp only
  rw [if_neg]
  rintro ⟨h1, h2, h3⟩
  exact h ⟨by rw [h2, h1], h1, h3⟩

/-- C18 (as stated) fails: with a source of group code 1 and path `"B"` and a source of group
code 2 and path `"A"`, and two targets that are not processor targets with the same codes and
paths, both returned lists have the entry of group code 2 first. -/
theorem metadata_display_order_counterexample :
    ∃ md, getVoiceMatrixMetadata demoTargetHash demoSourceHash demoCurves swappedEngine () =
        some md ∧
      md.sources.map (fun a => (a.1.gid, a.2.1)) = [(2, "A"), (1, "B")] ∧
      md.targets.map (fun a => (a.1.gid, a.2.1)) = [(2, "A"), (1, "B")] :=
  ⟨_, rfl, by decide, by decide⟩

theorem curveEntries_spec (mcv : ModulationCurves) :
    ∀ (l : List Nat) (cr : List (Nat × identifierDisplayName_t)),
      curveEntries mcv l = some cr →
      cr.map (fun x => x.1) = l ∧
      ∀ x ∈ cr, x.2.1 = "" ∧ mcv.curveNames.lookup x.1 = some x.2.2 := by
  intro l
  induction l with
  | nil =>
    intro cr h
    simp only [curveEntries, Option.some.injEq] at h
    subst h
    simp
  | cons k ks ih =>
    intro cr h
    simp only [curveEntries] at h
    cases hk : mcv.curveNames.lookup k with
    | none => rw [hk] at h; simp at h
    | some n =>
      rw [hk] at h
      cases hr : curveEntries mcv ks with
      | none => rw [hr] at h; simp at h
      | some rest =>
        rw [hr] at h
        simp only [Option.map_some', Option.some.injEq] at h
        subst h
        obtain ⟨i1, i2⟩ := ih rest hr
        refine ⟨by simp [i1], ?_⟩
        intro x hx
        rcases List.mem_cons.mp hx with hx | hx
        · subst hx; exact ⟨rfl, hk⟩
        · exact i2 x hx

theorem curveEntries_total (mcv : ModulationCurves) :
    ∀ l : List Nat, (∀ k ∈ l, (mcv.curveNames.lookup k).isSome = true) →
      ∃ cr, curveEntries mcv l = some cr := by
  intro l
  induction l with
  | nil => intro _; exact ⟨[], rfl⟩
  | cons k ks ih =>
    intro h
    obtain ⟨rest, hr⟩ := ih (fun x hx => h x (List.mem_cons_of_mem _ hx))
    obtain ⟨n, hn⟩ := Option.isSome_iff_exists.mp (h k (List.mem_cons_self _ _))
    exact ⟨(k, ("", n)) :: rest, by simp [curveEntries, hn, hr]⟩

theorem routingPredicate_false_iff {S D C F : Type} [DecidableEq S] [DecidableEq D]
    [DecidableEq C] (fm : MatrixFloat F) (nn : NoneSentinels S D C) (r : Routing S D C F) :
    routingPredicate fm nn r = false ↔
      (r.dst = nn.vmd_none ∧ r.src = nn.vms_none ∧ fm.feq r.depth (fm.ofInt 0) = true ∧
        r.active = true ∧ r.curve = nn.vmc_none) := by
  unfold routingPredicate
  simp only [Bool.or_eq_false_iff, decide_eq_false_iff_not, ne_eq, not_not,
    Bool.not_eq_false', and_assoc]

/-- C20 (amended). When a zone is streamed, the persisted `routingTable` array holds entry `r`
with index `i` exactly when `r` is entry `i` of the table and is not a default entry; an entry
is omitted exactly when its target and its source are both the none sentinel, its depth compares
equal to 0, its active flag is true and its curve is the none sentinel. So every inactive entry,
every entry with a source, a target or a curve, and every entry with a depth other than 0 is
persisted. -/
theorem routingTable_streamed {S D C F : Type} [DecidableEq S] [DecidableEq D] [DecidableEq C]
    (fm : MatrixFloat F) (nn : NoneSentinels S D C) (table : List (Routing S D C F))
    (i : Nat) (r : Routing S D C F) :
    ((i, r) ∈ assignRoutingTable fm nn table ↔
      table[i]? = some r ∧
        ¬ (r.dst = nn.vmd_none ∧ r.src = nn.vms_none ∧ fm.feq r.depth (fm.ofInt 0) = true ∧
          r.active = true ∧ r.curve = nn.vmc_none)) ∧
    (table[i]? = some r → r.active = false → (i, r) ∈ assignRoutingTable fm nn table) ∧
    (table[i]? = some r → (r.src ≠ nn.vms_none ∨ r.dst ≠ nn.vmd_none ∨ r.curve ≠ nn.vmc_none) →
      (i, r) ∈ assignRoutingTable fm nn table) ∧
    (table[i]? = some r → fm.feq r.depth (fm.ofInt 0) = false →
      (i, r) ∈ assignRoutingTable fm nn table) := by
  have key : (i, r) ∈ assignRoutingTable fm nn table ↔
      table[i]? = some r ∧
        ¬ (r.dst = nn.vmd_none ∧ r.src = nn.vms_none ∧ fm.feq r.depth (fm.ofInt 0) = true ∧
          r.active = true ∧ r.curve = nn.vmc_none) := by
    unfold assignRoutingTable toIndexedArrayIf
    rw [List.mem_filter, List.mk_mem_enum_iff_getElem?, ← routingPredicate_false_iff]
    simp
  refine ⟨key, ?_, ?_, ?_⟩
  · intro h1 h2
    exact key.mpr ⟨h1, fun h => by rw [h.2.2.2.1] at h2; exact absurd h2 (by simp)⟩
  · intro h1 h2
    refine key.mpr ⟨h1, fun h => ?_⟩
    rcases h2 with h2 | h2 | h2
    · exact h2 h.2.1
    · exact h2 h.1
    · exact h2 h.2.2.2.2
  · intro h1 h2
    exact key.mpr ⟨h1, fun h => by rw [h.2.2.1] at h2; exact absurd h2 (by simp)⟩

/-- C20 (as stated) fails: of a table with an inactive entry, an active entry with zero depth
from source 1 to target 2, an active entry with depth 1 whose source and target are both the
none sentinel, and a default entry, the persisted array omits only the default entry: the other
three are streamed, with the indices 0, 1 and 2. -/
theorem routingTable_streamed_counterexample :
    assignRoutingTable exactMatrixFloat demoSentinels demoRoutingTable =
      [(0, ⟨false, 1, 2, 0, 1⟩), (1, ⟨true, 1, 2, 0, 0⟩), (2, ⟨true, 0, 0, 0, 1⟩)] := by
  simp [assignRoutingTable, toIndexedArrayIf, routingPredicate, demoRoutingTable, demoSentinels,
    exactMatrixFloat, exactOps, List.enum, List.enumFrom]

theorem fromIndexedArray_length {α : Type} :
    ∀ (arr : List (Nat × α)) (t : List α), (fromIndexedArray arr t).length = t.length := by
  intro arr
  induction arr with
  | nil => intro t; rfl
  | cons x rest ih =>
    intro t
    show (fromIndexedArray rest (t.set x.1 x.2)).length = t.length
    rw [ih, List.length_set]

theorem fromIndexedArray_untouched {α : Type} :
    ∀ (arr : List (Nat × α)) (t : List α) (i : Nat), (∀ x ∈ arr, x.1 ≠ i) →
      (fromIndexedArray arr t)[i]? = t[i]? := by
  intro arr
  induction arr with
  | nil => intro t i _; rfl
  | cons x rest ih =>
    intro t i h
    show (fromIndexedArray rest (t.set x.1 x.2))[i]? = t[i]?
    rw [ih _ i (fun y hy => h y (List.mem_cons_of_mem _ hy)),
      List.getElem?_set_ne (h x (List.mem_cons_self _ _))]

theorem fromIndexedArray_written {α : Type} :
    ∀ (arr : List (Nat × α)) (t : List α) (i : Nat) (v : α), (i, v) ∈ arr →
      (arr.map (fun x => x.1)).Nodup → i < t.length →
      (fromIndexedArray arr t)[i]? = some v := by
  intro arr
  induction arr with
  | nil => intro t i v h; simp at h
  | cons x rest ih =>
    intro t i v hmem hnd hi
    rw [List.map_cons, List.nodup_cons] at hnd
    show (fromIndexedArray rest (t.set x.1 x.2))[i]? = some v
    rcases List.mem_cons.mp hmem with hx | hx
    · subst hx
      rw [fromIndexedArray_untouched rest _ i]
      · exact List.getElem?_set_self hi
      · intro y hy hyi
        exact hnd.1 (List.mem_map.mpr ⟨y, hy, hyi⟩)
    · exact ih _ i v hx hnd.2 (by rw [List.length_set]; exact hi)

theorem assignRoutingTable_nodup {S D C F : Type} [DecidableEq S] [DecidableEq D]
    [DecidableEq C] (fm : MatrixFloat F) (nn : NoneSentinels S D C)
    (table : List (Routing S D C F)) :
    ((assignRoutingTable fm nn table).map (fun x => x.1)).Nodup := by
  unfold assignRoutingTable toIndexedArrayIf
  have h1 : ((table.enum.filter (fun x => routingPredicate fm nn x.2)).map
      (fun x => x.1)).Sublist (table.enum.map (fun x => x.1)) :=
    List.Sublist.map _ (List.filter_sublist _)
  have h2 : table.enum.map (fun x => x.1) = List.range table.length := List.enum_map_fst table
  rw [h2] at h1
  exact h1.nodup (List.nodup_range _)

theorem assignRoutingTable_mem {S D C F : Type} [DecidableEq S] [DecidableEq D]
    [DecidableEq C] (fm : MatrixFloat F) (nn : NoneSentinels S D C)
    (table : List (Routing S D C F)) (i : Nat) (r : Routing S D C F) :
    (i, r) ∈ assignRoutingTable fm nn table ↔
      table[i]? = some r ∧ routingPredicate fm nn r = true := by
  unfold assignRoutingTable toIndexedArrayIf
  rw [List.mem_filter, List.mk_mem_enum_iff_getElem?]

/-- What streaming and then unstreaming leaves in slot `i` of the routing table. -/
theorem toRoutingTable_assign_getElem {S D C F : Type} [DecidableEq S] [DecidableEq D]
    [DecidableEq C] (fm : MatrixFloat F) (nn : NoneSentinels S D C)
    (table old : List (Routing S D C F)) (hlen : old.length = table.length)
    (i : Nat) (r : Routing S D C F) (hr : table[i]? = some r) :
    (toRoutingTable fm nn (assignRoutingTable fm nn table) old)[i]? =
      some (if routingPredicate fm nn r then r else defaultRouting fm nn) := by
  have hi : i < table.length := (List.getElem?_eq_some.mp hr).1
  unfold toRoutingTable
  by_cases hp : routingPredicate fm nn r = true
  · rw [if_pos hp]
    exact fromIndexedArray_written _ _ i r
      ((assignRoutingTable_mem fm nn table i r).mpr ⟨hr, hp⟩)
      (assignRoutingTable_nodup fm nn table) (by rw [List.length_map, hlen]; exact hi)
  · rw [if_neg hp, fromIndexedArray_untouched]
    · rw [List.getElem?_map, List.getElem?_eq_getElem (by rw [hlen]; exact hi)]
      rfl
    · intro x hx hxi
      have hx2 : (i, x.2) ∈ assignRoutingTable fm nn table := by rw [← hxi]; exact hx
      obtain ⟨e1, e2⟩ := (assignRoutingTable_mem fm nn table i x.2).mp hx2
      rw [hr] at e1
      have e3 : r = x.2 := Option.some.inj e1
      rw [← e3] at e2
      exact hp e2

/-- C21 (amended). Streaming a routing table and unstreaming the result into a table of the
same size: the entries that the streaming filter leaves out are those that are default on all
five members (source none, target none, depth comparing equal to 0, active, curve none);
unstreaming resets every slot to the default `Routing` and writes each persisted entry to the
slot of its index; so slot `i` ends with the entry it had when the filter kept it and with the
default `Routing` otherwise: it has the source, target, curve and active flag it had, and the
depth it had, or the depth 0 when its depth compared equal to 0. The restored table is the
streamed table exactly when every entry that is left out has the depth 0 itself, not only a
depth that compares equal to 0; this is so for every table when the comparison with 0 holds for
the value 0 only. -/
theorem routingTable_roundtrip {S D C F : Type} [DecidableEq S] [DecidableEq D]
    [DecidableEq C] (fm : MatrixFloat F) (nn : NoneSentinels S D C)
    (table old : List (Routing S D C F)) (hlen : old.length = table.length) :
    (toRoutingTable fm nn (assignRoutingTable fm nn table) old).length = table.length ∧
    (∀ (i : Nat) (r : Routing S D C F), table[i]? = some r →
      ((i, r) ∉ assignRoutingTable fm nn table ↔
        (r.src = nn.vms_none ∧ r.dst = nn.vmd_none ∧ fm.feq r.depth (fm.ofInt 0) = true ∧
          r.active = true ∧ r.curve = nn.vmc_none))) ∧
    (∀ (i : Nat) (r : Routing S D C F), table[i]? = some r →
      (toRoutingTable fm nn (assignRoutingTable fm nn table) old)[i]? =
        some (if routingPredicate fm nn r then r else defaultRouting fm nn) ∧
      ∃ r2, (toRoutingTable fm nn (assignRoutingTable fm nn table) old)[i]? = some r2 ∧
        r2.src = r.src ∧ r2.dst = r.dst ∧ r2.curve = r.curve ∧ r2.active = r.active ∧
        (r2.depth = r.depth ∨
          (fm.feq r.depth (fm.ofInt 0) = true ∧ r2.depth = fm.ofInt 0))) ∧
    (toRoutingTable fm nn (assignRoutingTable fm nn table) old = table ↔
      ∀ r ∈ table, r.src = nn.vms_none → r.dst = nn.vmd_none →
        fm.feq r.depth (fm.ofInt 0) = true → r.active = true → r.curve = nn.vmc_none →
        r.depth = fm.ofInt 0) ∧
    ((∀ x : F, fm.feq x (fm.ofInt 0) = true → x = fm.ofInt 0) →
      toRoutingTable fm nn (assignRoutingTable fm nn table) old = table) := by
  have hL : (toRoutingTable fm nn (assignRoutingTable fm nn table) old).length =
      table.length := by
    unfold toRoutingTable
    rw [fromIndexedArray_length, List.length_map, hlen]
  have hiff : toRoutingTable fm nn (assignRoutingTable fm nn table) old = table ↔
      ∀ r ∈ table, r.src = nn.vms_none → r.dst = nn.vmd_none →
        fm.feq r.depth (fm.ofInt 0) = true → r.active = true → r.curve = nn.vmc_none →
        r.depth = fm.ofInt 0 := by
    constructor
    · intro heq r hr b a c d e
      obtain ⟨i, hi, hri⟩ := List.getElem_of_mem hr
      have hr2 : table[i]? = some r := by rw [List.getElem?_eq_getElem hi, hri]
      have h1 := toRoutingTable_assign_getElem fm nn table old hlen i r hr2
      rw [heq, hr2] at h1
      have hp := (routingPredicate_false_iff fm nn r).mpr ⟨a, b, c, d, e⟩
      rw [hp] at h1
      simp only [Bool.false_eq_true, if_false, Option.some.injEq] at h1
      rw [h1]
      rfl
    · intro hall
      apply List.ext_getElem?
      intro i
      by_cases hi : i < table.length
      · have hr : table[i]? = some table[i] := List.getElem?_eq_getElem hi
        rw [toRoutingTable_assign_getElem fm nn table old hlen i _ hr, hr]
        cases hp : routingPredicate fm nn table[i] with
        | true => simp
        | false =>
          obtain ⟨a, b, c, d, e⟩ := (routingPredicate_false_iff fm nn _).mp hp
          have c2 := hall _ (List.getElem_mem hi) b a c d e
          simp only [Bool.false_eq_true, if_false, defaultRouting, Option.some.injEq]
          cases hx : table[i] with
          | mk ac sr ds cu de =>
            rw [hx] at a b c2 d e
            simp only at a b c2 d e
            rw [a, b, c2, d, e]
      · rw [List.getElem?_eq_none (by omega), List.getElem?_eq_none (by omega)]
  refine ⟨hL, ?_, ?_, hiff, ?_⟩
  · intro i r hr
    constructor
    · intro hnot
      have hp : routingPredicate fm nn r = false := by
        cases h : routingPredicate fm nn r with
        | false => rfl
        | true => exact absurd ((assignRoutingTable_mem fm nn table i r).mpr ⟨hr, h⟩) hnot
      obtain ⟨a, b, c, d, e⟩ := (routingPredicate_false_iff fm nn r).mp hp
      exact ⟨b, a, c, d, e⟩
    · rintro ⟨b, a, c, d, e⟩ hmem
      have hp := (routingPredicate_false_iff fm nn r).mpr ⟨a, b, c, d, e⟩
      rw [((assignRoutingTable_mem fm nn table i r).mp hmem).2] at hp
      exact absurd hp (by simp)
  · intro i r hr
    refine ⟨toRoutingTable_assign_getElem fm nn table old hlen i r hr,
      _, toRoutingTable_assign_getElem fm nn table old hlen i r hr, ?_⟩
    cases hp : routingPredicate fm nn r with
    | true => simp
    | false =>
      obtain ⟨a, b, c, d, e⟩ := (routingPredicate_false_iff fm nn r).mp hp
      simp [defaultRouting, a, b, c, d, e]
  · intro hz
    exact hiff.mpr (fun r _ _ _ c _ _ => hz _ c)

/-- An instance of C21 (amended), in arithmetic with a signed zero: a table with an inactive
entry and a default entry of depth positive zero is restored as it was. -/
theorem routingTable_roundtrip_witness :
    toRoutingTable signedZeroFloat demoSentinels
        (assignRoutingTable signedZeroFloat demoSentinels posZeroTable)
        [⟨false, 9, 9, 9, (9, false)⟩, ⟨false, 9, 9, 9, (9, false)⟩] = posZeroTable :=
  (routingTable_roundtrip signedZeroFloat demoSentinels posZeroTable
    [⟨false, 9, 9, 9, (9, false)⟩, ⟨false, 9, 9, 9, (9, false)⟩] rfl).2.2.2.1.mpr
    (by
      intro r hr _ _ _ _ _
      simp only [posZeroTable, List.mem_cons, List.mem_singleton, List.mem_nil_iff,
        or_false] at hr
      rcases hr with h | h
      · subst h; simp_all [demoSentinels]
      · subst h; rfl)

/-- C21 (as stated) fails in arithmetic with a signed zero: an entry that is default on source,
target, curve and active flag and has the depth negative zero compares equal to 0, is left out
by the filter, and is restored with the depth positive zero; the restored table is not the
streamed one. -/
theorem routingTable_roundtrip_counterexample :
    signedZeroFloat.feq (0, true) (signedZeroFloat.ofInt 0) = true ∧
    assignRoutingTable signedZeroFloat demoSentinels negZeroTable = [] ∧
    toRoutingTable signedZeroFloat demoSentinels
        (assignRoutingTable signedZeroFloat demoSentinels negZeroTable) negZeroTable =
      [⟨true, 0, 0, 0, (0, false)⟩] ∧
    toRoutingTable signedZeroFloat demoSentinels
        (assignRoutingTable signedZeroFloat demoSentinels negZeroTable) negZeroTable ≠
      negZeroTable := by
  have h1 : assignRoutingTable signedZeroFloat demoSentinels negZeroTable = [] := by
    simp [assignRoutingTable, toIndexedArrayIf, negZeroTable, routingPredicate, demoSentinels,
      signedZeroFloat, List.enum, List.enumFrom]
  refine ⟨by simp [signedZeroFloat], h1, ?_, ?_⟩
  · rw [h1]
    simp [toRoutingTable, fromIndexedArray, negZeroTable, defaultRouting, demoSentinels,
      signedZeroFloat]
  · rw [h1]
    simp [toRoutingTable, fromIndexedArray, negZeroTable, defaultRouting, demoSentinels,
      signedZeroFloat]

theorem bindEl_binds {F : Type} (fm : MatrixFloat F)
    (describeValue : PayloadRef → FieldRef → ParamMetaData F) (m m1 : Matrix F)
    (payload : PayloadRef) (tg : TargetIdentifier) (tgs : FloatRef F) (minVal maxVal : F)
    (p : Option Nat) (h : bindEl fm describeValue m payload tg tgs minVal maxVal = some (m1, p)) :
    tg ∈ m1.boundTargets ∧ (∀ t ∈ m.boundTargets, t ∈ m1.boundTargets) ∧
    m1.routingValuePointers.map (fun r => r.target) =
      m.routingValuePointers.map (fun r => r.target) := by
  obtain ⟨hg, ht, _, _, hb⟩ := bindEl_some fm describeValue m m1 payload tg tgs minVal maxVal p h
  refine ⟨?_, ?_, ?_⟩
  · unfold Matrix.boundTargets
    rw [hb]
    simp [Matrix.bindTargetBaseValue]
  · intro t htm
    unfold Matrix.boundTargets at htm ⊢
    rw [hb]
    obtain ⟨x, hx, hxt⟩ := List.mem_map.mp htm
    by_cases hc : t = tg
    · rw [hc]; simp [Matrix.bindTargetBaseValue]
    · simp only [Matrix.bindTargetBaseValue, List.map_cons, List.mem_cons, List.mem_map,
        List.mem_filter, decide_eq_true_eq]
      exact Or.inr ⟨x, ⟨hx, by rw [hxt]; exact hc⟩, hxt⟩
  · cases hl : m.targetToOutputIndex.lookup tg with
    | none =>
      rw [bindEl_notFound fm describeValue m payload tg tgs minVal maxVal hg ht hl] at h
      simp only [Option.some.injEq, Prod.mk.injEq] at h
      rw [← h.1]
      rfl
    | some idx =>
      rw [bindEl_found fm describeValue m payload tg tgs minVal maxVal idx hg ht hl] at h
      simp only [Option.some.injEq, Prod.mk.injEq] at h
      rw [← h.1]
      simp only [List.map_map]
      apply List.map_congr_left
      intro r _
      simp only [Function.comp]
      split <;> rfl

theorem bindFloatParam_binds {F : Type} (fm : MatrixFloat F)
    (describeValue : PayloadRef → FieldRef → ParamMetaData F) (z : Zone F) (i : Nat)
    (st st1 : Matrix F × ProcessorTarget)
    (h : ProcessorTarget.bindFloatParam fm describeValue z i st = some st1) :
    st1.2.fpT = st.2.fpT ∧ st.2.fpT i ∈ st1.1.boundTargets ∧
    (∀ t ∈ st.1.boundTargets, t ∈ st1.1.boundTargets) ∧
    st1.1.routingValuePointers.map (fun r => r.target) =
      st.1.routingValuePointers.map (fun r => r.target) := by
  unfold ProcessorTarget.bindFloatParam at h
  simp only at h
  cases hb : bindEl fm describeValue st.1 (.processorStorage st.2.index) (st.2.fpT i)
      ⟨.floatParam i, (z.processorStorage st.2.index).floatParams i⟩
      ((z.processorDescription st.2.index).floatControlDescriptions i).minVal
      ((z.processorDescription st.2.index).floatControlDescriptions i).maxVal with
  | none => rw [hb] at h; simp at h
  | some r =>
    rw [hb] at h
    simp only [Option.map_some', Option.some.injEq] at h
    obtain ⟨b1, b2, b3⟩ := bindEl_binds fm describeValue st.1 r.1 _ _ _ _ _ r.2 hb
    rw [← h]
    exact ⟨rfl, b1, b2, b3⟩

theorem forLoop_bindFloatParam_binds {F : Type} (fm : MatrixFloat F)
    (describeValue : PayloadRef → FieldRef → ParamMetaData F) (z : Zone F) :
    ∀ (cnt i : Nat) (st st1 : Matrix F × ProcessorTarget),
      forLoop (ProcessorTarget.bindFloatParam fm describeValue z) i cnt st = some st1 →
      st1.2.fpT = st.2.fpT ∧
      (∀ j, i ≤ j → j < i + cnt → st.2.fpT j ∈ st1.1.boundTargets) ∧
      (∀ t ∈ st.1.boundTargets, t ∈ st1.1.boundTargets) ∧
      st1.1.routingValuePointers.map (fun r => r.target) =
        st.1.routingValuePointers.map (fun r => r.target) := by
  intro cnt
  induction cnt with
  | zero =>
    intro i st st1 h
    simp only [forLoop, Option.some.injEq] at h
    subst h
    exact ⟨rfl, fun j h1 h2 => by omega, fun t ht => ht, rfl⟩
  | succ cnt ih =>
    intro i st st1 h
    simp only [forLoop] at h
    cases hb : ProcessorTarget.bindFloatParam fm describeValue z i st with
    | none => rw [hb] at h; simp at h
    | some s2 =>
      rw [hb] at h
      simp only [Option.some_bind] at h
      obtain ⟨a1, a2, a3, a4⟩ := bindFloatParam_binds fm describeValue z i st s2 hb
      obtain ⟨c1, c2, c3, c4⟩ := ih (i + 1) s2 st1 h
      refine ⟨c1.trans a1, ?_, fun t ht => c3 t (a3 t ht), c4.trans a4⟩
      intro j h1 h2
      by_cases hj : j = i
      · rw [hj]; exact c3 _ a2
      · rw [← a1]; exact c2 j (by omega) (by omega)

/-- What `ProcessorTarget::bind` does for a target built by the constructor, whatever the type
of the processor slot: it returns, binds a base value for the mix target and for every float
parameter, keeps the target pointers of the routings, gives the routings that point at the mix
slot the depth scale 1, and does not read the type of the slot. -/
theorem ProcessorTarget_bind_binds {F : Type} (fm : MatrixFloat F) (mc : ModConsts)
    (describeValue : PayloadRef → FieldRef → ParamMetaData F) (p : Nat) (m : Matrix F)
    (z : Zone F) (hmax : mc.maxProcessorFloatParams < 2147483648) :
    (∃ m2 t2, ProcessorTarget.bind fm mc describeValue (ProcessorTarget.create p) m z =
        some (m2, t2) ∧
      (ProcessorTarget.create p).mixT ∈ m2.boundTargets ∧
      (∀ i, i < mc.maxProcessorFloatParams →
        (ProcessorTarget.create p).fpT i ∈ m2.boundTargets) ∧
      m2.routingValuePointers.map (fun r => r.target) =
        m.routingValuePointers.map (fun r => r.target) ∧
      ∀ idx, m.targetToOutputIndex.lookup (ProcessorTarget.create p).mixT = some idx →
        (∀ i, i < mc.maxProcessorFloatParams →
          m.targetToOutputIndex.lookup ((ProcessorTarget.create p).fpT i) ≠ some idx) →
        ∀ r ∈ m2.routingValuePointers, r.target = some idx → r.depthScale = fm.ofInt 1) ∧
    (∀ (ty : Nat → Nat) (nm : Nat → String),
      ProcessorTarget.bind fm mc describeValue (ProcessorTarget.create p) m
          (z.withProcessorTypes ty nm) =
        ProcessorTarget.bind fm mc describeValue (ProcessorTarget.create p) m z) := by
  constructor
  · obtain ⟨m2, t2, e, _, _, q3⟩ := ProcessorTarget_bind_mix fm mc describeValue p m z hmax
    refine ⟨m2, t2, e, ?_, ?_, ?_, q3⟩
    all_goals
      unfold ProcessorTarget.bind at e
      simp only at e
      cases hb : bindEl fm describeValue m (.processorStorage (ProcessorTarget.create p).index)
          (ProcessorTarget.create p).mixT
          ⟨.mix, (z.processorStorage (ProcessorTarget.create p).index).mix⟩
          (fm.ofInt 0) (fm.ofInt 1) with
      | none => rw [hb] at e; simp at e
      | some r =>
        rw [hb] at e
        simp only [Option.some_bind] at e
        obtain ⟨b1, b2, b3⟩ := bindEl_binds fm describeValue m r.1 _ _ _ _ _ r.2 hb
        obtain ⟨c1, c2, c3, c4⟩ := forLoop_bindFloatParam_binds fm describeValue z _ _ _ _ e
        first
          | exact c3 _ b1
          | exact c4.trans b3
          | (intro i hi; exact c2 i (Nat.zero_le _) (by omega))
  · intro ty nm
    rfl

/-- C22 (as stated) fails: in a zone whose processor slot 0 has type none, `bind` for slot 0
binds a base value for the mix target and for float parameter 0, and the routing that points at
the mix target, which had depth scale 7, has depth scale 1 afterwards. -/
theorem ProcessorTarget_bind_ignores_type_counterexample :
    (demoZone.processorDescription 0).type = demoModConsts.proct_none ∧
    procMatrix.boundTargets = [] ∧
    procMatrix.routingValuePointers.map (fun r => r.depthScale) = [7] ∧
    ∃ m2 t2, ProcessorTarget.bind exactMatrixFloat demoModConsts unitMeta
        (ProcessorTarget.create 0) procMatrix demoZone = some (m2, t2) ∧
      (ProcessorTarget.create 0).mixT ∈ m2.boundTargets ∧
      (ProcessorTarget.create 0).fpT 0 ∈ m2.boundTargets ∧
      m2.routingValuePointers.map (fun r => r.depthScale) = [1] := by
  refine ⟨rfl, rfl, rfl, ?_⟩
  obtain ⟨⟨m2, t2, e, b1, b2, b3, b4⟩, _⟩ := ProcessorTarget_bind_binds exactMatrixFloat
    demoModConsts unitMeta 0 procMatrix demoZone (by decide)
  refine ⟨m2, t2, e, b1, b2 0 (by decide), ?_⟩
  have h4 := b4 3 (by decide) (by decide)
  have h3 : m2.routingValuePointers.map (fun r => r.target) = [some 3] := b3
  cases hl : m2.routingValuePointers with
  | nil => rw [hl] at h3; simp at h3
  | cons r rest =>
    rw [hl] at h3 h4
    simp only [List.map_cons, List.cons.injEq, List.map_eq_nil_iff] at h3
    obtain ⟨h3a, h3b⟩ := h3
    subst h3b
    have := h4 r (List.mem_cons_self _ _) h3a
    simp [this, exactMatrixFloat, exactOps]

/-- C23. The processor registry is one-to-one: the 22 `DEFINE_PROC` registrations have pairwise
distinct type ids and pairwise distinct streaming names, so two registrations have the same
streaming name exactly when they have the same type id, and then they are the same
registration; and every registration pairs an implementation with `SCXTVFXConfig<1>` with one
with `SCXTVFXConfig<2>` of the same effect template and further template arguments. -/
theorem procRegistrations_one_to_one :
    procRegistrations.length = 22 ∧
    (procRegistrations.map (fun r => r.typeId)).Nodup ∧
    (procRegistrations.map (fun r => r.streamingName)).Nodup ∧
    (∀ r1 ∈ procRegistrations, ∀ r2 ∈ procRegistrations,
      (r1.streamingName = r2.streamingName ↔ r1.typeId = r2.typeId) ∧
      (r1.typeId = r2.typeId → r1 = r2)) ∧
    (∀ r ∈ procRegistrations, r.pairsVariants = true) := by
  refine ⟨rfl, by decide, by decide, by decide, by decide⟩

theorem Impl_initLoop_spec {F St : Type} (T : EffectClass F St) :
    ∀ (fuel i : Nat) (values : List F), values.length = maxPartEffectParams →
      maxPartEffectParams < fuel + i → i ≤ maxPartEffectParams →
      ∃ v1, Impl.initLoop T fuel i values = some v1 ∧ v1.length = maxPartEffectParams ∧
        (∀ j : Nat, i ≤ j → (j : Int) < T.numParams → j < maxPartEffectParams →
          v1[j]? = some (T.paramAt j).defaultVal) ∧
        (∀ j : Nat, j < i → v1[j]? = values[j]?) ∧
        (∀ j : Nat, T.numParams ≤ (j : Int) → v1[j]? = values[j]?) := by
  intro fuel
  induction fuel with
  | zero =>
    intro i values hlen hf hi
    omega
  | succ fuel ih =>
    intro i values hlen hf hi
    unfold Impl.initLoop
    by_cases hc : (i : Int) < T.numParams ∧ i < maxPartEffectParams
    · rw [if_pos hc]
      have hs : storeValue values i (T.paramAt i).defaultVal =
          some (values.set i (T.paramAt i).defaultVal) := by
        unfold storeValue
        rw [if_pos (by omega)]
      rw [hs, Option.some_bind]
      obtain ⟨v1, e1, l1, a1, b1, c1⟩ := ih (i + 1) (values.set i (T.paramAt i).defaultVal)
        (by rw [List.length_set]; exact hlen) (by omega) (by omega)
      refine ⟨v1, e1, l1, ?_, ?_, ?_⟩
      · intro j hj1 hj2 hj3
        by_cases hji : j = i
        · subst hji
          rw [b1 j (by omega)]
          exact List.getElem?_set_self (by omega)
        · exact a1 j (by omega) hj2 hj3
      · intro j hj
        rw [b1 j (by omega), List.getElem?_set_ne (by omega)]
      · intro j hj
        rw [c1 j hj, List.getElem?_set_ne (by omega)]
    · rw [if_neg hc]
      refine ⟨values, rfl, hlen, ?_, fun j _ => rfl, fun j _ => rfl⟩
      intro j hj1 hj2 hj3
      exfalso
      apply hc
      constructor
      · omega
      · omega

/-- C24. For every part effect `T` with `numParams ≤ 12` and every values array of 12
elements, `Impl<T>::init` returns; when its loop has ended, before `T::initialize` runs,
`values[i] = paramAt(i).defaultVal` for every `i < numParams` and `values[i]` is unchanged for
every `i` with `numParams ≤ i < 12`; `T::initialize` is then applied to that array. -/
theorem Impl_init_loads_defaults {F St : Type} (T : EffectClass F St) (st : St)
    (values : List F) (hlen : values.length = maxPartEffectParams)
    (hnum : T.numParams ≤ (maxPartEffectParams : Int)) :
    ∃ v1, Impl.initLoop T (maxPartEffectParams + 1) 0 values = some v1 ∧
      Impl.init T st values = some (T.initializeEffect (st, v1)) ∧
      v1.length = maxPartEffectParams ∧
      (∀ i : Nat, (i : Int) < T.numParams → v1[i]? = some (T.paramAt i).defaultVal) ∧
      (∀ i : Nat, T.numParams ≤ (i : Int) → i < maxPartEffectParams → v1[i]? = values[i]?) := by
  obtain ⟨v1, e1, l1, a1, _, c1⟩ := Impl_initLoop_spec T (maxPartEffectParams + 1) 0 values hlen
    (by omega) (by omega)
  refine ⟨v1, e1, ?_, l1, ?_, fun i hi _ => c1 i hi⟩
  · unfold Impl.init
    rw [e1]
    rfl
  · intro i hi
    exact a1 i (Nat.zero_le _) hi (by omega)

theorem Impl_init_loads_defaults_witness :
    ∃ v1, Impl.initLoop demoEffect (maxPartEffectParams + 1) 0
        [1, 2, 3, 4, 5, 6, 7, 8, 9, 10, 11, 12] = some v1 ∧
      Impl.init demoEffect () [1, 2, 3, 4, 5, 6, 7, 8, 9, 10, 11, 12] =
        some (demoEffect.initializeEffect ((), v1)) ∧
      v1.length = maxPartEffectParams ∧
      (∀ i : Nat, (i : Int) < demoEffect.numParams →
        v1[i]? = some (demoEffect.paramAt i).defaultVal) ∧
      (∀ i : Nat, demoEffect.numParams ≤ (i : Int) → i < maxPartEffectParams →
        v1[i]? = ([1, 2, 3, 4, 5, 6, 7, 8, 9, 10, 11, 12] : List ℚ)[i]?) :=
  Impl_init_loads_defaults demoEffect () [1, 2, 3, 4, 5, 6, 7, 8, 9, 10, 11, 12] rfl
    (by decide)

/-- C25 (the code at the failing input). For every engine and storage, `createEffect` returns
for `reverb1` a non-null `Impl<Reverb1<Config>>` built from the engine, the storage and the
storage's `params`, and for `flanger` the null pointer. The result is a function of the
arguments of the call. -/
theorem createEffect_result {E P : Type} (e : E) (s : P) :
    createEffect AvailablePartEffects.reverb1 e s =
      some ⟨"sst::effects::Reverb1<dtl::Config>", e, s, s⟩ ∧
    createEffect AvailablePartEffects.flanger e s = none ∧
    (∀ p : AvailablePartEffects, (createEffect p e s).isSome = true ↔ p = .reverb1) := by
  refine ⟨rfl, rfl, ?_⟩
  intro p
  cases p <;> simp [createEffect]

/-- C26 (the code at the failing input). `Config::sampleRate` returns 48000 for every engine,
while `EngineBiquadAdapter::sampleRateInv` returns the engine's own inverse rate; for an engine
running at 44100 Hz the product of the two is `160 / 147` in exact arithmetic, not 1. -/
theorem Config_sampleRate_constant {E F : Type} (fo : FloatOps F) (getSampleRateInv : E → F)
    (e : E) :
    Config.sampleRate fo e = fo.ofInt 48000 ∧
    EngineBiquadAdapter.sampleRateInv getSampleRateInv e = getSampleRateInv e ∧
    exactOps.mul (Config.sampleRate exactOps e)
        (EngineBiquadAdapter.sampleRateInv (fun _ : E => (1 : ℚ) / 44100) e) = 160 / 147 ∧
    (160 : ℚ) / 147 ≠ 1 := by
  refine ⟨rfl, rfl, ?_, by norm_num⟩
  simp only [Config.sampleRate, EngineBiquadAdapter.sampleRateInv, exactOps]
  norm_num

theorem AssociatedSample_roundtrip {V ID : Type} (st : SampleTraits V ID)
    (hst : st.Lossless) (s s0 : AssociatedSample ID) :
    AssociatedSample.to st (AssociatedSample.assign st s) s0 = some s := by
  obtain ⟨h1, h2, h3, h4, h5, h6, h7⟩ := hst
  have k1 : findOrSet st.bool (AssociatedSample.assign st s) "active" false =
      some s.active := h1 _
  have k2 : findIf st.sampleID (AssociatedSample.assign st s) "id" s0.sampleID =
      some s.sampleID := h4 _
  have k3 : findOrSet st.int64 (AssociatedSample.assign st s) "startSample" (-1) =
      some s.startSample := h2 _
  have k4 : findOrSet st.int64 (AssociatedSample.assign st s) "endSample" (-1) =
      some s.endSample := h2 _
  have k5 : findOrSet st.int64 (AssociatedSample.assign st s) "startLoop" (-1) =
      some s.startLoop := h2 _
  have k6 : findOrSet st.int64 (AssociatedSample.assign st s) "endLoop" (-1) =
      some s.endLoop := h2 _
  have k7 : findOrSet st.playMode (AssociatedSample.assign st s) "playMode" PlayMode.NORMAL =
      some s.playMode := h5 _
  have k8 : findOrSet st.bool (AssociatedSample.assign st s) "loopActive" false =
      some s.loopActive := h1 _
  have k9 : findOrSet st.bool (AssociatedSample.assign st s) "playReverse" false =
      some s.playReverse := h1 _
  have k10 : findOrSet st.loopMode (AssociatedSample.assign st s) "loopMode"
      LoopMode.LOOP_DURING_VOICE = some s.loopMode := h6 _
  have k11 : findOrSet st.loopDirection (AssociatedSample.assign st s) "loopDirection"
      LoopDirection.FORWARD_ONLY = some s.loopDirection := h7 _
  have k12 : findOrSet st.int64 (AssociatedSample.assign st s) "loopFade" 0 =
      some s.loopFade := h2 _
  have k13 : findOrSet st.int (AssociatedSample.assign st s) "loopCountWhenCounted" 0 =
      some s.loopCountWhenCounted := h3 _
  unfold AssociatedSample.to
  rw [k1, k2, k3, k4, k5, k6, k7, k8, k9, k10, k11, k12, k13]
  rfl

theorem AssociatedSample_to_fields {V ID : Type} (st : SampleTraits V ID) (v : Document V)
    (s0 s1 : AssociatedSample ID) (h : AssociatedSample.to st v s0 = some s1) :
    findOrSet st.int64 v "startSample" (-1) = some s1.startSample ∧
    findOrSet st.int64 v "endSample" (-1) = some s1.endSample ∧
    findOrSet st.int64 v "startLoop" (-1) = some s1.startLoop ∧
    findOrSet st.int64 v "endLoop" (-1) = some s1.endLoop ∧
    findOrSet st.bool v "loopActive" false = some s1.loopActive := by
  unfold AssociatedSample.to at h
  simp only [Option.bind_eq_some, Option.map_eq_some'] at h
  obtain ⟨a1, _, a2, _, a3, e3, a4, e4, a5, e5, a6, e6, a7, _, a8, e8, a9, _, a10, _, a11, _,
    a12, _, a13, _, hs⟩ := h
  subst hs
  exact ⟨e3, e4, e5, e6, e8⟩

theorem AssociatedSample_to_empty {V ID : Type} (st : SampleTraits V ID)
    (s0 : AssociatedSample ID) :
    AssociatedSample.to st [] s0 = some (AssociatedSample.create s0.sampleID) := rfl

/-- C27 (amended). A default-constructed `AssociatedSample` satisfies the loop invariant.
Unstreaming makes no check: whenever it returns, `startSample`, `endSample`, `startLoop`,
`endLoop` and `loopActive` are the values the document stores under these keys (`-1`, and
`false` for `loopActive`, when the key is missing); so for a document written by streaming a
sample `s`, the unstreamed sample satisfies the invariant exactly when `s` does. -/
theorem AssociatedSample_to_keeps_offsets {V ID : Type} (st : SampleTraits V ID)
    (hst : st.Lossless) :
    (∀ sid : ID, LoopInvariant (AssociatedSample.create sid)) ∧
    (∀ (v : Document V) (s0 s1 : AssociatedSample ID), AssociatedSample.to st v s0 = some s1 →
      findOrSet st.int64 v "startSample" (-1) = some s1.startSample ∧
      findOrSet st.int64 v "endSample" (-1) = some s1.endSample ∧
      findOrSet st.int64 v "startLoop" (-1) = some s1.startLoop ∧
      findOrSet st.int64 v "endLoop" (-1) = some s1.endLoop ∧
      findOrSet st.bool v "loopActive" false = some s1.loopActive) ∧
    (∀ s s0 : AssociatedSample ID,
      ∃ s1, AssociatedSample.to st (AssociatedSample.assign st s) s0 = some s1 ∧
        (LoopInvariant s1 ↔ LoopInvariant s)) := by
  refine ⟨?_, ?_, ?_⟩
  · intro sid h
    simp [AssociatedSample.create] at h
  · intro v s0 s1 h
    exact AssociatedSample_to_fields st v s0 s1 h
  · intro s s0
    exact ⟨s, AssociatedSample_roundtrip st hst s s0, Iff.rfl⟩

theorem demoSampleTraits_lossless : demoSampleTraits.Lossless := by
  refine ⟨?_, ?_, ?_, ?_, ?_, ?_, ?_⟩
  · intro x; rfl
  · intro x; rfl
  · intro x; rfl
  · intro x; rfl
  · intro x; cases x <;> rfl
  · intro x; cases x <;> rfl
  · intro x; cases x <;> rfl

theorem AssociatedSample_to_keeps_offsets_witness :
    ∃ s1, AssociatedSample.to demoSampleTraits
        (AssociatedSample.assign demoSampleTraits loopedSample)
        (AssociatedSample.create 0) = some s1 ∧
      (LoopInvariant s1 ↔ LoopInvariant loopedSample) :=
  (AssociatedSample_to_keeps_offsets demoSampleTraits demoSampleTraits_lossless).2.2
    loopedSample (AssociatedSample.create 0)

/-- C27 (as stated) fails: unstreaming the document that stores only `loopActive = true` and
`startLoop = 5` gives a sample with an active loop, `startLoop = 5` and `endLoop = -1`. -/
theorem AssociatedSample_to_keeps_offsets_counterexample :
    ∃ s1, AssociatedSample.to demoSampleTraits loopDocument (AssociatedSample.create 0) =
        some s1 ∧
      s1.loopActive = true ∧ s1.startSample = -1 ∧ s1.startLoop = 5 ∧ s1.endLoop = -1 ∧
      s1.endSample = -1 ∧ ¬ LoopInvariant s1 := by
  refine ⟨_, rfl, rfl, rfl, rfl, rfl, rfl, ?_⟩
  intro h
  have := (h rfl).2.1
  revert this
  decide

/-- C29. Streaming an `AssociatedSample` and unstreaming the document into any
`AssociatedSample` gives back the streamed value, in all thirteen members, when the JSON
traits of the member types read back what they wrote; and unstreaming a document with no keys
gives the default-constructed value in every member except `sampleID`, which is left as it
was. -/
theorem AssociatedSample_stream_roundtrip {V ID : Type} (st : SampleTraits V ID)
    (hst : st.Lossless) (s s0 : AssociatedSample ID) :
    AssociatedSample.to st (AssociatedSample.assign st s) s0 = some s ∧
    AssociatedSample.to st [] s0 = some (AssociatedSample.create s0.sampleID) ∧
    (AssociatedSample.create s0.sampleID).sampleID = s0.sampleID ∧
    (∀ sid : ID, AssociatedSample.create s0.sampleID =
      { AssociatedSample.create sid with sampleID := s0.sampleID }) :=
  ⟨AssociatedSample_roundtrip st hst s s0, AssociatedSample_to_empty st s0, rfl,
    fun _ => rfl⟩

theorem AssociatedSample_stream_roundtrip_witness :
    AssociatedSample.to demoSampleTraits
        (AssociatedSample.assign demoSampleTraits loopedSample) (AssociatedSample.create 0) =
      some loopedSample ∧
    AssociatedSample.to demoSampleTraits [] loopedSample =
      some (AssociatedSample.create 7) :=
  ⟨(AssociatedSample_stream_roundtrip demoSampleTraits demoSampleTraits_lossless loopedSample
      (AssociatedSample.create 0)).1,
   (AssociatedSample_stream_roundtrip demoSampleTraits demoSampleTraits_lossless loopedSample
      loopedSample).2.1⟩

theorem SameProcSlot_symm (a b : TargetIdentifier × identifierDisplayName_t)
    (h : SameProcSlot a b) : SameProcSlot b a :=
  ⟨h.2.1, h.1, h.2.2.symm⟩

theorem SameProcSlot_trans (a b c : TargetIdentifier × identifierDisplayName_t)
    (h1 : SameProcSlot a b) (h2 : SameProcSlot b c) : SameProcSlot a c :=
  ⟨h1.1, h2.2.1, h1.2.2.trans h2.2.2⟩

theorem tgtCmp_of_same (hash : TargetIdentifier → Nat)
    (a b : TargetIdentifier × identifierDisplayName_t) (h : SameProcSlot a b) :
    tgtCmp hash a b = decide (a.1.tid < b.1.tid) := by
  unfold tgtCmp
  simp only
  rw [if_pos ⟨h.1, by rw [h.2.1, h.1], h.2.2.symm⟩]

theorem tgtCmp_of_not_same (hash : TargetIdentifier → Nat)
    (a b : TargetIdentifier × identifierDisplayName_t) (h : ¬ SameProcSlot a b) :
    tgtCmp hash a b = identCmp hash a b :=
  tgtCmp_not_same_slot hash b a (fun h2 => h (SameProcSlot_symm b a h2))

theorem identCmp_path_of_ne {I : Type} (hash : I → Nat) (a b : I × identifierDisplayName_t)
    (h : identCmp hash a b = true) (hne : a.2.1 ≠ b.2.1) : stringLt a.2.1 b.2.1 = true := by
  rw [identCmp_iff] at h
  rcases h with h | ⟨e, _⟩ | ⟨e, _⟩
  · exact h
  · exact absurd e hne
  · exact absurd e hne

theorem identCmp_of_path {I : Type} (hash : I → Nat) (a b : I × identifierDisplayName_t)
    (h : stringLt a.2.1 b.2.1 = true) : identCmp hash a b = true :=
  (identCmp_iff hash a b).mpr (Or.inl h)

/-- The comparison `tgtCmp` is a strict weak ordering on every list in which the targets of
each processor slot have a display path of their own, for every hash. -/
theorem tgtCmp_strictWeakOn_of_separate (hash : TargetIdentifier → Nat)
    (l : List (TargetIdentifier × identifierDisplayName_t)) (hsep : SlotPathsSeparate l) :
    strictWeakOn (tgtCmp hash) l = true := by
  rw [strictWeakOn_iff]
  refine ⟨?_, ?_, ?_⟩
  · intro a _
    by_cases hs : SameProcSlot a a
    · rw [tgtCmp_of_same hash a a hs]; simp
    · rw [tgtCmp_of_not_same hash a a hs]
      exact ((identCmp_incomparable hash a a).mpr ⟨rfl, rfl, rfl⟩).1
  · intro a ha b hb c hc hab hbc
    by_cases s1 : SameProcSlot a b
    · rw [tgtCmp_of_same hash a b s1] at hab
      have t1 : a.1.tid < b.1.tid := by simpa using hab
      have pab : a.2.1 = b.2.1 := (hsep a ha b hb s1.1).mp s1
      by_cases s2 : SameProcSlot b c
      · rw [tgtCmp_of_same hash b c s2] at hbc
        have t2 : b.1.tid < c.1.tid := by simpa using hbc
        rw [tgtCmp_of_same hash a c (SameProcSlot_trans a b c s1 s2)]
        simp only [decide_eq_true_eq]
        omega
      · rw [tgtCmp_of_not_same hash b c s2] at hbc
        have pbc : b.2.1 ≠ c.2.1 := fun e => s2 ((hsep b hb c hc s1.2.1).mpr e)
        have hlt := identCmp_path_of_ne hash b c hbc pbc
        have s3 : ¬ SameProcSlot a c := fun h =>
          s2 (SameProcSlot_trans b a c (SameProcSlot_symm a b s1) h)
        rw [tgtCmp_of_not_same hash a c s3]
        exact identCmp_of_path hash a c (by rw [pab]; exact hlt)
    · rw [tgtCmp_of_not_same hash a b s1] at hab
      by_cases s2 : SameProcSlot b c
      · have pbc : b.2.1 = c.2.1 := (hsep b hb c hc s2.1).mp s2
        have pab : a.2.1 ≠ b.2.1 := fun e =>
          s1 (SameProcSlot_symm b a ((hsep b hb a ha s2.1).mpr e.symm))
        have hlt := identCmp_path_of_ne hash a b hab pab
        have s3 : ¬ SameProcSlot a c := fun h =>
          s1 (SameProcSlot_trans a c b h (SameProcSlot_symm b c s2))
        rw [tgtCmp_of_not_same hash a c s3]
        exact identCmp_of_path hash a c (by rw [← pbc]; exact hlt)
      · rw [tgtCmp_of_not_same hash b c s2] at hbc
        by_cases s3 : SameProcSlot a c
        · exfalso
          have pac : a.2.1 = c.2.1 := (hsep a ha c hc s3.1).mp s3
          have pab : a.2.1 ≠ b.2.1 := fun e => s1 ((hsep a ha b hb s3.1).mpr e)
          have pbc : b.2.1 ≠ c.2.1 := fun e =>
            s2 (SameProcSlot_symm c b ((hsep c hc b hb s3.2.1).mpr e.symm))
          have l1 := identCmp_path_of_ne hash a b hab pab
          have l2 := identCmp_path_of_ne hash b c hbc pbc
          rw [← pac] at l2
          have := stringLt_asymm _ _ l1
          rw [l2] at this
          exact absurd this (by simp)
        · rw [tgtCmp_of_not_same hash a c s3]
          exact identCmp_trans hash a b c hab hbc
  · intro a ha b hb c hc q1 q2 q3 q4
    by_cases s1 : SameProcSlot a b
    · by_cases s2 : SameProcSlot b c
      · rw [tgtCmp_of_same hash a b s1] at q1
        rw [tgtCmp_of_same hash b a (SameProcSlot_symm a b s1)] at q2
        rw [tgtCmp_of_same hash b c s2] at q3
        rw [tgtCmp_of_same hash c b (SameProcSlot_symm b c s2)] at q4
        have s3 := SameProcSlot_trans a b c s1 s2
        rw [tgtCmp_of_same hash a c s3, tgtCmp_of_same hash c a (SameProcSlot_symm a c s3)]
        simp only [decide_eq_false_iff_not, Nat.not_lt] at q1 q2 q3 q4 ⊢
        constructor <;> omega
      · exfalso
        rw [tgtCmp_of_not_same hash b c s2] at q3
        rw [tgtCmp_of_not_same hash c b (fun h => s2 (SameProcSlot_symm c b h))] at q4
        obtain ⟨e, _, _⟩ := (identCmp_incomparable hash b c).mp ⟨q3, q4⟩
        exact s2 ((hsep b hb c hc s1.2.1).mpr e)
    · rw [tgtCmp_of_not_same hash a b s1] at q1
      rw [tgtCmp_of_not_same hash b a (fun h => s1 (SameProcSlot_symm b a h))] at q2
      obtain ⟨e1, e2, e3⟩ := (identCmp_incomparable hash a b).mp ⟨q1, q2⟩
      by_cases s2 : SameProcSlot b c
      · exfalso
        exact s1 (SameProcSlot_symm b a ((hsep b hb a ha s2.1).mpr e1.symm))
      · rw [tgtCmp_of_not_same hash b c s2] at q3
        rw [tgtCmp_of_not_same hash c b (fun h => s2 (SameProcSlot_symm c b h))] at q4
        obtain ⟨f1, f2, f3⟩ := (identCmp_incomparable hash b c).mp ⟨q3, q4⟩
        have s3 : ¬ SameProcSlot a c := fun h => s1 ((hsep a ha b hb h.1).mpr e1)
        rw [tgtCmp_of_not_same hash a c s3,
          tgtCmp_of_not_same hash c a (fun h => s3 (SameProcSlot_symm c a h))]
        exact (identCmp_incomparable hash a c).mpr ⟨e1.trans f1, e2.trans f2, e3.trans f3⟩

/-- C28 (amended). For every zone and every identifier hash, `tgtCmp` is a strict weak
ordering on the registered targets (irreflexive, transitive, with transitive incomparability)
when the targets of each processor slot have a display path that no target outside the slot
has, as the path functions give for slots whose type is not none; `std::sort` of the targets is
then defined. The comparison `identCmp` of the sources is a strict weak ordering for every zone
and every hash. -/
theorem tgtCmp_strictWeakOn {Z : Type} (hashT : TargetIdentifier → Nat)
    (hashS : SourceIdentifier → Nat) (e : Engine Z) (z : Z)
    (hsep : SlotPathsSeparate (namedEntries z e.voiceModTargets)) :
    strictWeakOn (tgtCmp hashT) (namedEntries z e.voiceModTargets) = true ∧
    (stdSort (tgtCmp hashT) (namedEntries z e.voiceModTargets)).isSome = true ∧
    strictWeakOn (identCmp hashS) (namedEntries z e.voiceModSources) = true := by
  have h := tgtCmp_strictWeakOn_of_separate hashT _ hsep
  refine ⟨h, ?_, identCmp_strictWeakOn hashS _⟩
  unfold stdSort
  rw [if_pos h]
  rfl

theorem tgtCmp_strictWeakOn_witness :
    SlotPathsSeparate (namedEntries filterZone (twoSlotEngine demoModConsts).voiceModTargets) ∧
    strictWeakOn (tgtCmp xorHash)
      (namedEntries filterZone (twoSlotEngine demoModConsts).voiceModTargets) = true :=
  ⟨by decide,
    (tgtCmp_strictWeakOn xorHash demoSourceHash (twoSlotEngine demoModConsts) filterZone
      (by decide)).1⟩

/-- C28 (as stated) fails: with processor slots 0 and 1 of type none and the hash
`gid ^ tid ^ index`, float parameter 0 of slot 1 comes before float parameter 0 of slot 0
(hashes), which comes before float parameter 1 of slot 0 (element codes), while float
parameter 0 of slot 1 and float parameter 1 of slot 0 have equal hashes and are not ordered:
`tgtCmp` is not transitive on the registered targets, and the enumeration is undefined. -/
theorem tgtCmp_strictWeakOn_counterexample :
    (demoZone.processorDescription 0).type = demoModConsts.proct_none ∧
    (demoZone.processorDescription 1).type = demoModConsts.proct_none ∧
    tgtCmp xorHash ((ProcessorTarget.create 1).fpT 0, ("", ""))
      ((ProcessorTarget.create 0).fpT 0, ("", "")) = true ∧
    tgtCmp xorHash ((ProcessorTarget.create 0).fpT 0, ("", ""))
      ((ProcessorTarget.create 0).fpT 1, ("", "")) = true ∧
    tgtCmp xorHash ((ProcessorTarget.create 1).fpT 0, ("", ""))
      ((ProcessorTarget.create 0).fpT 1, ("", "")) = false ∧
    ((ProcessorTarget.create 1).fpT 0, ("", "")) ∈
      namedEntries demoZone (twoSlotEngine demoModConsts).voiceModTargets ∧
    ((ProcessorTarget.create 0).fpT 0, ("", "")) ∈
      namedEntries demoZone (twoSlotEngine demoModConsts).voiceModTargets ∧
    ((ProcessorTarget.create 0).fpT 1, ("", "")) ∈
      namedEntries demoZone (twoSlotEngine demoModConsts).voiceModTargets ∧
    strictWeakOn (tgtCmp xorHash)
      (namedEntries demoZone (twoSlotEngine demoModConsts).voiceModTargets) = false ∧
    getVoiceMatrixMetadata xorHash demoSourceHash demoCurves (twoSlotEngine demoModConsts)
      demoZone = none := by
  refine ⟨rfl, rfl, by decide, by decide, by decide, by decide, by decide, by decide,
    by decide, ?_⟩
  have h : strictWeakOn (tgtCmp xorHash)
      (namedEntries demoZone (twoSlotEngine demoModConsts).voiceModTargets) = false := by
    decide
  unfold getVoiceMatrixMetadata stdSort
  rw [h]
  rfl

theorem blockOf_full {α : Type} (k : Consts) (z : α) (mid : List (Option α))
    (hk : k.FIRipol_N = 2 * k.FIRoffset) :
    blockOf k z mid =
      List.replicate k.FIRoffset (some z) ++ (mid ++ List.replicate k.FIRoffset (some z)) := by
  unfold blockOf
  rw [hk, Nat.sub_self]
  simp

/-- C30. Given `FIRipol_N = 2 * FIRoffset`, for every frame count `n` whose buffer size fits
`int`: the two `memset` calls of the allocation are inside the block of `n + FIRipol_N`
elements and clear the elements `[0, FIRoffset)` and `[n + FIRoffset, n + 2 * FIRoffset)`;
`GetSamplePtrI16` / `GetSamplePtrF32` point at element `FIRoffset`; every loader returns, so
each of its `n` stores is inside the block, and the block then consists of the `FIRoffset`
cleared elements, the `n` frames and the `FIRoffset` cleared elements, with no element left
unwritten; the three index ranges lie below `n + FIRipol_N`, are pairwise disjoint and cover
the block. -/
theorem load_stays_in_buffer {F : Type} (fo : FloatOps F) (k : Consts) (s : Sample F)
    (ch n : Nat) (hch : ch < 2) (hk : k.FIRipol_N = 2 * k.FIRoffset)
    (hn : n + k.FIRipol_N < 2147483648) :
    (∀ (β : Type) (z : β),
      clearedBlock k z ((n : Int) + k.FIRipol_N) n =
        some (List.replicate k.FIRoffset (some z) ++
          (List.replicate n none ++ List.replicate k.FIRoffset (some z)))) ∧
    (∀ r, allocateI16 k true s ch (toInt32 n) = some r →
      GetSamplePtrI16 k r.2 ch = some ⟨ch, k.FIRoffset⟩) ∧
    (∀ r, allocateF32 fo k true s ch (toInt32 n) = some r →
      GetSamplePtrF32 k r.2 ch = some ⟨ch, k.FIRoffset⟩) ∧
    (∀ (conv : Bytes → Nat → Int) (data : Bytes) (stride : Nat),
      ∃ s2, loadI16With conv k true s ch data n stride = some (true, s2) ∧
        s2.cellsI16 ch = some (List.replicate k.FIRoffset (some 0) ++
          (framesOf conv data n stride ++ List.replicate k.FIRoffset (some 0)))) ∧
    (∀ (conv : Bytes → Nat → F) (data : Bytes) (stride : Nat),
      ∃ s2, loadF32With fo conv k true s ch data n stride = some (true, s2) ∧
        s2.cellsF32 ch = some (List.replicate k.FIRoffset (some fo.zero) ++
          (framesOf conv data n stride ++ List.replicate k.FIRoffset (some fo.zero)))) ∧
    (∀ (data : Bytes) (stride : Nat),
      ∃ s2 cells, load_data_ui8 k true s ch data n stride = some (true, s2) ∧
        s2.cellsI16 ch = some cells ∧ cells.length = n + k.FIRipol_N ∧
        ∀ j, j < n + k.FIRipol_N → ∃ v, cells[j]? = some (some v)) ∧
    (∀ j, j < n + k.FIRipol_N ↔
      (j < k.FIRoffset ∨ (k.FIRoffset ≤ j ∧ j < k.FIRoffset + n) ∨
        (n + k.FIRoffset ≤ j ∧ j < n + 2 * k.FIRoffset))) ∧
    (∀ j, ¬ (j < k.FIRoffset ∧ k.FIRoffset ≤ j ∧ j < k.FIRoffset + n) ∧
      ¬ (j < k.FIRoffset ∧ n + k.FIRoffset ≤ j ∧ j < n + 2 * k.FIRoffset) ∧
      ¬ ((k.FIRoffset ≤ j ∧ j < k.FIRoffset + n) ∧
        n + k.FIRoffset ≤ j ∧ j < n + 2 * k.FIRoffset)) := by
  have hk2 : 2 * k.FIRoffset ≤ k.FIRipol_N := by omega
  have hI : ∀ (conv : Bytes → Nat → Int) (data : Bytes) (stride : Nat),
      ∃ s2, loadI16With conv k true s ch data n stride = some (true, s2) ∧
        s2.cellsI16 ch = some (List.replicate k.FIRoffset (some 0) ++
          (framesOf conv data n stride ++ List.replicate k.FIRoffset (some 0))) := by
    intro conv data stride
    obtain ⟨s2, e1, e2⟩ := loadI16With_spec conv k s ch data n stride hch hk2 hn
    refine ⟨s2, e1, ?_⟩
    rw [Sample.cellsI16_setData _ s2 ch _ e2, blockOf_full k 0 _ hk]
  refine ⟨?_, ?_, ?_, hI, ?_, ?_, ?_, ?_⟩
  · intro β z
    rw [clearedBlock_eq k z n hk2, blockOf_full k z _ hk]
  · intro r hr
    rw [allocateI16_eq k s ch n hk2 hn] at hr
    simp only [Option.map_eq_some'] at hr
    obtain ⟨s1, hs1, hr1⟩ := hr
    rw [← hr1]
    have hu := Sample.setData_UseInt16 _ s1 ch _ hs1
    unfold GetSamplePtrI16
    simp [hu]
  · intro r hr
    rw [allocateF32_eq fo k s ch n hk2 hn] at hr
    simp only [Option.map_eq_some'] at hr
    obtain ⟨s1, hs1, hr1⟩ := hr
    rw [← hr1]
    have hu := Sample.setData_UseInt16 _ s1 ch _ hs1
    unfold GetSamplePtrF32
    simp [hu]
  · intro conv data stride
    obtain ⟨s2, e1, e2⟩ := loadF32With_spec fo conv k s ch data n stride hch hk2 hn
    refine ⟨s2, e1, ?_⟩
    rw [Sample.cellsF32_setData _ s2 ch _ e2, blockOf_full k fo.zero _ hk]
  · intro data stride
    obtain ⟨s2, e1, e2⟩ := hI conv_ui8 data stride
    refine ⟨s2, _, e1, e2, ?_, ?_⟩
    · simp only [List.length_append, List.length_replicate, framesOf_length]
      omega
    · intro j hj
      have hlen : j < (List.replicate k.FIRoffset (some (0 : Int)) ++
          (framesOf conv_ui8 data n stride ++
            List.replicate k.FIRoffset (some (0 : Int)))).length := by
        simp only [List.length_append, List.length_replicate, framesOf_length]
        omega
      have hall : ∀ x ∈ (List.replicate k.FIRoffset (some (0 : Int)) ++
          (framesOf conv_ui8 data n stride ++
            List.replicate k.FIRoffset (some (0 : Int)))), ∃ v, x = some v := by
        intro x hx
        simp only [List.mem_append, List.mem_replicate, framesOf, List.mem_map] at hx
        rcases hx with ⟨_, h⟩ | ⟨_, _, h⟩ | ⟨_, h⟩
        · exact ⟨0, h⟩
        · exact ⟨_, h.symm⟩
        · exact ⟨0, h⟩
      obtain ⟨v, hv⟩ := hall _ (List.getElem_mem hlen)
      exact ⟨v, by rw [List.getElem?_eq_getElem hlen, hv]⟩
  · intro j
    omega
  · intro j
    omega

theorem load_stays_in_buffer_witness :
    consts16.FIRipol_N = 2 * consts16.FIRoffset ∧
    ∃ s2 cells, load_data_ui8 consts16 true blankSample 0 rampBytes 3 1 = some (true, s2) ∧
      s2.cellsI16 0 = some cells ∧ cells.length = 3 + consts16.FIRipol_N ∧
      ∀ j, j < 3 + consts16.FIRipol_N → ∃ v, cells[j]? = some (some v) :=
  ⟨rfl, (load_stays_in_buffer exactOps consts16 blankSample 0 3 (by decide) rfl
    (by decide)).2.2.2.2.2.1 rampBytes 1⟩

/-! ## Depth scales after binding, routing by routing -/

/-- When the target pointers of two routing lists agree position by position and every routing of
the second list that points at `t` has depth scale `d`, the routing at each position of the
first list that points at `t` has, at the same position of the second, depth scale `d`. -/
theorem routings_tie {F : Type} (l1 l2 : List (RoutingValuePointers F)) (t : Option Nat) (d : F)
    (hmap : l2.map (fun r => r.target) = l1.map (fun r => r.target))
    (hd : ∀ r ∈ l2, r.target = t → r.depthScale = d) :
    ∀ (k : Nat) (r : RoutingValuePointers F), l1[k]? = some r → r.target = t →
      ∃ r2, l2[k]? = some r2 ∧ r2.target = t ∧ r2.depthScale = d := by
  intro k r hk ht
  have h1 : (l1.map (fun r => r.target))[k]? = some r.target := by
    rw [List.getElem?_map, hk]; rfl
  rw [← hmap, List.getElem?_map] at h1
  cases h2 : l2[k]? with
  | none => rw [h2] at h1; simp at h1
  | some r2 =>
    rw [h2] at h1
    simp only [Option.map_some', Option.some.injEq] at h1
    exact ⟨r2, rfl, h1.trans ht, hd r2 (List.getElem?_mem h2) (h1.trans ht)⟩

/-- When the routings that point at `t` are the same at every position of two lists with the same
target pointers, every routing of the second list that points at `t` is in the first. -/
theorem mem_of_positions {F : Type} (l1 l2 : List (RoutingValuePointers F)) (t : Option Nat)
    (hmap : l2.map (fun r => r.target) = l1.map (fun r => r.target))
    (hpos : ∀ (k : Nat) (r : RoutingValuePointers F), l1[k]? = some r → r.target = t →
      l2[k]? = some r) :
    ∀ r ∈ l2, r.target = t → r ∈ l1 := by
  intro r hr ht
  obtain ⟨k, hk⟩ := List.mem_iff_getElem?.mp hr
  have h1 : (l2.map (fun r => r.target))[k]? = some r.target := by
    rw [List.getElem?_map, hk]; rfl
  rw [hmap, List.getElem?_map] at h1
  cases h2 : l1[k]? with
  | none => rw [h2] at h1; simp at h1
  | some r1 =>
    rw [h2] at h1
    simp only [Option.map_some', Option.some.injEq] at h1
    have := hpos k r1 h2 (h1.trans ht)
    rw [hk] at this
    rw [Option.some.inj this]
    exact List.getElem?_mem h2

/-- A routing that does not point at the output slot of the bound target is left as it is by
`bindEl`, position by position. -/
theorem bindEl_routings {F : Type} (fm : MatrixFloat F)
    (describeValue : PayloadRef → FieldRef → ParamMetaData F) (m m1 : Matrix F)
    (payload : PayloadRef) (tg : TargetIdentifier) (tgs : FloatRef F) (minVal maxVal : F)
    (p : Option Nat) (h : bindEl fm describeValue m payload tg tgs minVal maxVal = some (m1, p)) :
    ∀ (k : Nat) (r : RoutingValuePointers F), m.routingValuePointers[k]? = some r →
      (r.target = none ∨ r.target ≠ m.targetToOutputIndex.lookup tg) →
      m1.routingValuePointers[k]? = some r := by
  obtain ⟨hg, ht, _, _, _⟩ := bindEl_some fm describeValue m m1 payload tg tgs minVal maxVal p h
  intro k r hk hne
  cases hl : m.targetToOutputIndex.lookup tg with
  | none =>
    rw [bindEl_notFound fm describeValue m payload tg tgs minVal maxVal hg ht hl] at h
    simp only [Option.some.injEq, Prod.mk.injEq] at h
    rw [← h.1]
    exact hk
  | some idx =>
    rw [bindEl_found fm describeValue m payload tg tgs minVal maxVal idx hg ht hl] at h
    simp only [Option.some.injEq, Prod.mk.injEq] at h
    rw [← h.1]
    simp only [List.getElem?_map, hk, Option.map_some']
    have hn : r.target ≠ some idx := by
      rcases hne with h0 | h0
      · rw [h0]; simp
      · rw [hl] at h0; exact h0
    rw [if_neg hn]

/-- One step of the loop of `ProcessorTarget::bind`, routing by routing: the routings that do
not point at the output slot of float parameter `i` are unchanged, the others keep their
target and get the range of the parameter as depth scale. -/
theorem bindFloatParam_depth {F : Type} (fm : MatrixFloat F)
    (describeValue : PayloadRef → FieldRef → ParamMetaData F) (z : Zone F) (p i : Nat)
    (hi : i < 2147483648) (st st1 : Matrix F × ProcessorTarget)
    (hidx : st.2.index = p) (hfp : st.2.fpT = (ProcessorTarget.create p).fpT) (idx : Nat)
    (hl : st.1.targetToOutputIndex.lookup ((ProcessorTarget.create p).fpT i) = some idx)
    (h : ProcessorTarget.bindFloatParam fm describeValue z i st = some st1) :
    ∀ r ∈ st1.1.routingValuePointers, r.target = some idx →
      r.depthScale = floatParamRange fm describeValue z p i := by
  obtain ⟨hg, ht⟩ := create_fpT_nonzero p i hi
  unfold ProcessorTarget.bindFloatParam at h
  simp only [hidx, hfp] at h
  obtain ⟨m1, e1, _, _, d1⟩ := bindEl_depthScale fm describeValue st.1 (.processorStorage p)
    ((ProcessorTarget.create p).fpT i) ⟨.floatParam i, (z.processorStorage p).floatParams i⟩
    ((z.processorDescription p).floatControlDescriptions i).minVal
    ((z.processorDescription p).floatControlDescriptions i).maxVal idx hg ht hl
  rw [e1] at h
  simp only [Option.map_some', Option.some.injEq] at h
  rw [← h]
  intro r hr htg
  exact d1 r hr htg

/-- The loop of `ProcessorTarget::bind`, routing by routing. -/
theorem forLoop_bindFloatParam_depth {F : Type} (fm : MatrixFloat F)
    (describeValue : PayloadRef → FieldRef → ParamMetaData F) (z : Zone F) (p : Nat)
    (T0 : List (TargetIdentifier × Nat)) :
    ∀ (cnt i0 : Nat) (st st1 : Matrix F × ProcessorTarget), i0 + cnt < 2147483648 →
      st.2.index = p → st.2.fpT = (ProcessorTarget.create p).fpT →
      st.1.targetToOutputIndex = T0 →
      forLoop (ProcessorTarget.bindFloatParam fm describeValue z) i0 cnt st = some st1 →
      (∀ (k : Nat) (r : RoutingValuePointers F), st.1.routingValuePointers[k]? = some r →
        (r.target = none ∨ ∀ j, i0 ≤ j → j < i0 + cnt →
          r.target ≠ T0.lookup ((ProcessorTarget.create p).fpT j)) →
        st1.1.routingValuePointers[k]? = some r) ∧
      (∀ (i idx : Nat), i0 ≤ i → i < i0 + cnt →
        T0.lookup ((ProcessorTarget.create p).fpT i) = some idx →
        (∀ j, i < j → j < i0 + cnt →
          T0.lookup ((ProcessorTarget.create p).fpT j) ≠ some idx) →
        ∀ r ∈ st1.1.routingValuePointers, r.target = some idx →
          r.depthScale = floatParamRange fm describeValue z p i) := by
  intro cnt
  induction cnt with
  | zero =>
    intro i0 st st1 _ _ _ _ h
    simp only [forLoop, Option.some.injEq] at h
    subst h
    exact ⟨fun k r hk _ => hk, fun i idx h1 h2 => by omega⟩
  | succ cnt ih =>
    intro i0 st st1 hb hp1 hp2 hT h
    simp only [forLoop] at h
    obtain ⟨s2, hs2, q1, q2, _, _, q5, _, q7⟩ := bindFloatParam_step fm describeValue z p i0
      (by omega) st hp1 hp2
    rw [hs2, Option.some_bind] at h
    have hT2 : s2.1.targetToOutputIndex = T0 := q5.trans hT
    obtain ⟨u1, d1⟩ := ih (i0 + 1) s2 st1 (by omega) q1 q2 hT2 h
    obtain ⟨_, _, _, c4⟩ := forLoop_bindFloatParam_binds fm describeValue z cnt (i0 + 1) s2 st1 h
    constructor
    · intro k r hk hcond
      apply u1 k r
      · apply q7 k r hk
        rcases hcond with h0 | h0
        · exact Or.inr h0
        · left
          have := h0 i0 (Nat.le_refl _) (by omega)
          rw [Matrix.getTargetValuePointer, hT]
          exact this
      · rcases hcond with h0 | h0
        · exact Or.inl h0
        · exact Or.inr (fun j hj1 hj2 => h0 j (by omega) (by omega))
    · intro i idx hi1 hi2 hl hlater r hr htg
      by_cases hii : i = i0
      · subst hii
        have hd := bindFloatParam_depth fm describeValue z p i (by omega) st s2 hp1 hp2 idx
          (by rw [hT]; exact hl) hs2
        have hmem := mem_of_positions s2.1.routingValuePointers st1.1.routingValuePointers
          (some idx) c4
          (fun k r0 hk h0 => u1 k r0 hk (Or.inr (fun j hj1 hj2 => by
            rw [h0]
            exact fun e => hlater j (by omega) (by omega) e.symm)))
          r hr htg
        exact hd r hmem htg
      · exact d1 i idx (by omega) (by omega) hl
          (fun j hj1 hj2 => hlater j hj1 (by omega)) r hr htg

/-- What `ProcessorTarget::bind` leaves in the routings: depth scale 1 on the routings to the mix
target, the range of float parameter `i` on the routings to that parameter, each when no target
bound later in the call shares the output slot, and every routing that points at none of the
slot's targets unchanged. -/
theorem ProcessorTarget_bind_routings {F : Type} (fm : MatrixFloat F) (mc : ModConsts)
    (describeValue : PayloadRef → FieldRef → ParamMetaData F) (p : Nat) (m : Matrix F)
    (z : Zone F) (hmax : mc.maxProcessorFloatParams < 2147483648) :
    ∃ m2 t2, ProcessorTarget.bind fm mc describeValue (ProcessorTarget.create p) m z =
        some (m2, t2) ∧
      (∀ idx, m.targetToOutputIndex.lookup (ProcessorTarget.create p).mixT = some idx →
        (∀ i, i < mc.maxProcessorFloatParams →
          m.targetToOutputIndex.lookup ((ProcessorTarget.create p).fpT i) ≠ some idx) →
        ∀ (k : Nat) (r : RoutingValuePointers F), m.routingValuePointers[k]? = some r →
          r.target = some idx →
          ∃ r2, m2.routingValuePointers[k]? = some r2 ∧ r2.target = some idx ∧
            r2.depthScale = fm.ofInt 1) ∧
      (∀ i idx, i < mc.maxProcessorFloatParams →
        m.targetToOutputIndex.lookup ((ProcessorTarget.create p).fpT i) = some idx →
        (∀ j, i < j → j < mc.maxProcessorFloatParams →
          m.targetToOutputIndex.lookup ((ProcessorTarget.create p).fpT j) ≠ some idx) →
        ∀ (k : Nat) (r : RoutingValuePointers F), m.routingValuePointers[k]? = some r →
          r.target = some idx →
          ∃ r2, m2.routingValuePointers[k]? = some r2 ∧ r2.target = some idx ∧
            r2.depthScale = floatParamRange fm describeValue z p i) ∧
      (∀ (k : Nat) (r : RoutingValuePointers F), m.routingValuePointers[k]? = some r →
        (r.target = none ∨
          (r.target ≠ m.targetToOutputIndex.lookup (ProcessorTarget.create p).mixT ∧
            ∀ i, i < mc.maxProcessorFloatParams →
              r.target ≠ m.targetToOutputIndex.lookup ((ProcessorTarget.create p).fpT i))) →
        m2.routingValuePointers[k]? = some r) := by
  obtain ⟨⟨m2, t2, e, _, _, b3, b4⟩, _⟩ :=
    ProcessorTarget_bind_binds fm mc describeValue p m z hmax
  refine ⟨m2, t2, e, ?_, ?_, ?_⟩
  · intro idx hidx hsep
    exact routings_tie _ _ (some idx) _ b3 (b4 idx hidx hsep)
  all_goals
    unfold ProcessorTarget.bind at e
    simp only at e
    cases hb : bindEl fm describeValue m (.processorStorage (ProcessorTarget.create p).index)
        (ProcessorTarget.create p).mixT
        ⟨.mix, (z.processorStorage (ProcessorTarget.create p).index).mix⟩
        (fm.ofInt 0) (fm.ofInt 1) with
    | none => rw [hb] at e; simp at e
    | some r1 =>
      rw [hb] at e
      simp only [Option.some_bind] at e
      obtain ⟨_, _, hT1, _, _⟩ := bindEl_some fm describeValue m r1.1 _ _ _ _ _ r1.2 hb
      obtain ⟨u1, d1⟩ := forLoop_bindFloatParam_depth fm describeValue z p m.targetToOutputIndex
        mc.maxProcessorFloatParams 0 (r1.1, { ProcessorTarget.create p with mixP := r1.2 })
        (m2, t2) (by omega) rfl rfl hT1 e
      first
        | (intro i idx hi hl hlater
           exact routings_tie _ _ (some idx) _ b3
             (d1 i idx (Nat.zero_le _) (by omega) hl (fun j h1 h2 => hlater j h1 (by omega))))
        | (intro k r hk hcond
           apply u1 k r
           · apply bindEl_routings fm describeValue m r1.1 _ _ _ _ _ r1.2 hb k r hk
             rcases hcond with h0 | h0
             · exact Or.inl h0
             · exact Or.inr h0.1
           · rcases hcond with h0 | h0
             · exact Or.inl h0
             · exact Or.inr (fun j _ hj2 => h0.2 j (by omega)))

/-- The call `MappingTarget::bind` keeps the target pointer of every routing. -/
theorem MappingTarget_bind_keeps_targets {F : Type} (fm : MatrixFloat F)
    (describeValue : PayloadRef → FieldRef → ParamMetaData F) (t t2 : MappingTarget F)
    (m m2 : Matrix F) (z : Zone F)
    (h : MappingTarget.bind fm describeValue t m z = some (m2, t2)) :
    m2.routingValuePointers.map (fun r => r.target) =
      m.routingValuePointers.map (fun r => r.target) := by
  unfold MappingTarget.bind bindElDefault at h
  simp only [Option.bind_eq_some, Option.map_eq_some'] at h
  obtain ⟨r1, e1, r2, e2, r3, e3, r4, e4, hr⟩ := h
  simp only [Prod.mk.injEq] at hr
  have a1 := (bindEl_binds fm describeValue m r1.1 _ _ _ _ _ r1.2 e1).2.2
  have a2 := (bindEl_binds fm describeValue r1.1 r2.1 _ _ _ _ _ r2.2 e2).2.2
  have a3 := (bindEl_binds fm describeValue r2.1 r3.1 _ _ _ _ _ r3.2 e3).2.2
  have a4 := (bindEl_binds fm describeValue r3.1 r4.1 _ _ _ _ _ r4.2 e4).2.2
  rw [← hr.1]
  exact a4.trans (a3.trans (a2.trans a1))

/-- C13 (amended). For every target of the routing table (with the non-zero codes that `bindEl`
asserts) and every pair `(minVal, maxVal)`: when `maxVal == minVal` is false, `bindEl` returns
the matrix it was given with the base value bound and with the depth scale `maxVal - minVal` on
every routing that points at the output slot of the target, every other routing being as it
was, and the result is the same for every `describeValue`: the metadata is not consulted. When
`maxVal == minVal` is true the pair is not an override: the depth scale set is the metadata
range `describeValue(...).maxVal - describeValue(...).minVal`. Position by position, a routing
of the matrix that points at the target's output slot is, after the call, a routing to the same
slot with that depth scale, and a routing that points elsewhere is unchanged; the routing table
and the number of routings are kept. `MappingTarget::bind` gives every routing to the
playback-ratio target the depth scale `2`, and `ProcessorTarget::bind` gives every routing to
the mix target of its slot the depth scale `1` when no float parameter of the slot shares the
output slot of the mix target. -/
theorem bindEl_override {F : Type} (fm : MatrixFloat F)
    (describeValue : PayloadRef → FieldRef → ParamMetaData F) (m : Matrix F)
    (payload : PayloadRef) (tg : TargetIdentifier) (tgs : FloatRef F) (minVal maxVal : F)
    (idx : Nat) (hg : tg.gid ≠ 0) (ht : tg.tid ≠ 0)
    (hidx : m.targetToOutputIndex.lookup tg = some idx) :
    (fm.feq maxVal minVal = false →
      bindEl fm describeValue m payload tg tgs minVal maxVal =
        some ({ m.bindTargetBaseValue tg tgs with
          routingValuePointers :=
            m.routingValuePointers.map (setDepthScale idx (fm.sub maxVal minVal)) },
          some idx) ∧
      ∀ describeValue2 : PayloadRef → FieldRef → ParamMetaData F,
        bindEl fm describeValue2 m payload tg tgs minVal maxVal =
          bindEl fm describeValue m payload tg tgs minVal maxVal) ∧
    (fm.feq maxVal minVal = true →
      bindEl fm describeValue m payload tg tgs minVal maxVal =
        some ({ m.bindTargetBaseValue tg tgs with
          routingValuePointers :=
            m.routingValuePointers.map (setDepthScale idx
              (fm.sub (describeValue payload tgs.field).maxVal
                (describeValue payload tgs.field).minVal)) },
          some idx)) ∧
    (∃ m1, bindEl fm describeValue m payload tg tgs minVal maxVal = some (m1, some idx) ∧
      m1.getTargetValuePointer tg = some idx ∧
      m1.targetToOutputIndex = m.targetToOutputIndex ∧
      m1.routingValuePointers.length = m.routingValuePointers.length ∧
      ∀ (k : Nat) (r : RoutingValuePointers F), m.routingValuePointers[k]? = some r →
        (r.target = some idx →
          ∃ r2, m1.routingValuePointers[k]? = some r2 ∧ r2.target = some idx ∧
            (fm.feq maxVal minVal = false → r2.depthScale = fm.sub maxVal minVal) ∧
            (fm.feq maxVal minVal = true →
              r2.depthScale = fm.sub (describeValue payload tgs.field).maxVal
                (describeValue payload tgs.field).minVal)) ∧
        (r.target ≠ some idx → m1.routingValuePointers[k]? = some r)) ∧
    (∀ (t : MappingTarget F) (z : Zone F) (j : Nat),
      t.pitchOffsetT.gid ≠ 0 ∧ t.pitchOffsetT.tid ≠ 0 → t.ampT.gid ≠ 0 ∧ t.ampT.tid ≠ 0 →
      t.panT.gid ≠ 0 ∧ t.panT.tid ≠ 0 → t.playbackRatioT.gid ≠ 0 ∧ t.playbackRatioT.tid ≠ 0 →
      m.targetToOutputIndex.lookup t.playbackRatioT = some j →
      ∃ m2 t2, MappingTarget.bind fm describeValue t m z = some (m2, t2) ∧
        m2.getTargetValuePointer t.playbackRatioT = some j ∧
        ∀ (k : Nat) (r : RoutingValuePointers F), m.routingValuePointers[k]? = some r →
          r.target = some j →
          ∃ r2, m2.routingValuePointers[k]? = some r2 ∧ r2.target = some j ∧
            r2.depthScale = fm.ofInt 2) ∧
    (∀ (mc : ModConsts) (p : Nat) (z : Zone F) (j : Nat),
      mc.maxProcessorFloatParams < 2147483648 →
      m.targetToOutputIndex.lookup (ProcessorTarget.create p).mixT = some j →
      (∀ i, i < mc.maxProcessorFloatParams →
        m.targetToOutputIndex.lookup ((ProcessorTarget.create p).fpT i) ≠ some j) →
      ∃ m2 t2, ProcessorTarget.bind fm mc describeValue (ProcessorTarget.create p) m z =
          some (m2, t2) ∧
        ∀ (k : Nat) (r : RoutingValuePointers F), m.routingValuePointers[k]? = some r →
          r.target = some j →
          ∃ r2, m2.routingValuePointers[k]? = some r2 ∧ r2.target = some j ∧
            r2.depthScale = fm.ofInt 1) := by
  have hfound := bindEl_found fm describeValue m payload tg tgs minVal maxVal idx hg ht hidx
  refine ⟨?_, ?_, ?_, ?_, ?_⟩
  · intro hne
    constructor
    · rw [hfound, hne]
      rfl
    · intro d2
      rw [bindEl_found fm d2 m payload tg tgs minVal maxVal idx hg ht hidx, hfound, hne]
      simp
  · intro heq
    rw [hfound, heq]
    rfl
  · refine ⟨_, hfound, ?_, rfl, ?_, ?_⟩
    · simp only [Matrix.getTargetValuePointer, Matrix.bindTargetBaseValue]
      exact hidx
    · simp [Matrix.bindTargetBaseValue]
    · intro k r hk
      constructor
      · intro htg
        refine ⟨{ r with depthScale :=
            (if fm.feq maxVal minVal = true then
              fm.sub (describeValue payload tgs.field).maxVal
                (describeValue payload tgs.field).minVal
            else fm.sub maxVal minVal) }, ?_, ?_, ?_, ?_⟩
        · simp only [Matrix.bindTargetBaseValue, List.getElem?_map, hk, Option.map_some']
          rw [if_pos htg]
        · exact htg
        · intro hne
          show (if fm.feq maxVal minVal = true then _ else _) = _
          rw [hne]; rfl
        · intro heq
          show (if fm.feq maxVal minVal = true then _ else _) = _
          rw [heq]; rfl
      · intro htg
        simp only [Matrix.bindTargetBaseValue, List.getElem?_map, hk, Option.map_some']
        rw [if_neg htg]
  · intro t z j h1 h2 h3 h4 hj
    obtain ⟨m2, t2, e, q1, q2⟩ := MappingTarget_bind_playbackRatio fm describeValue t m z j
      h1 h2 h3 h4 hj
    exact ⟨m2, t2, e, q1, routings_tie _ _ (some j) _
      (MappingTarget_bind_keeps_targets fm describeValue t t2 m m2 z e) q2⟩
  · intro mc p z j hmax hj hsep
    obtain ⟨m2, t2, e, q1, _, _⟩ := ProcessorTarget_bind_routings fm mc describeValue p m z hmax
    exact ⟨m2, t2, e, q1 j hj hsep⟩

/-- An instance of C13 (amended): the override pair `(0, 2)` on a target of the table; the
routing to the playback-ratio target after `MappingTarget::bind`, with depth scale 2; and the
routing to the mix target after `ProcessorTarget::bind`, with depth scale 1. -/
theorem bindEl_override_witness :
    exactMatrixFloat.feq (2 : ℚ) 0 = false ∧
    bindEl exactMatrixFloat unitMeta demoMatrix .mapping demoTarget ⟨.amplitude, 1⟩ (0 : ℚ) 2 =
      some ({ demoMatrix.bindTargetBaseValue demoTarget ⟨.amplitude, 1⟩ with
        routingValuePointers :=
          demoMatrix.routingValuePointers.map (setDepthScale 3 (exactMatrixFloat.sub 2 0)) },
        some 3) ∧
    (∃ m2 t2, MappingTarget.bind exactMatrixFloat unitMeta demoMappingTarget mappingMatrix
        demoZone = some (m2, t2) ∧
      ∃ r2, m2.routingValuePointers[0]? = some r2 ∧ r2.target = some 2 ∧ r2.depthScale = 2) ∧
    (∃ m2 t2, ProcessorTarget.bind exactMatrixFloat demoModConsts unitMeta
        (ProcessorTarget.create 0) slotMatrix wideZone = some (m2, t2) ∧
      ∃ r2, m2.routingValuePointers[0]? = some r2 ∧ r2.target = some 3 ∧ r2.depthScale = 1) := by
  refine ⟨by simp [exactMatrixFloat],
    ((bindEl_override exactMatrixFloat unitMeta demoMatrix .mapping demoTarget ⟨.amplitude, 1⟩
      (0 : ℚ) 2 3 (by decide) (by decide) (by decide)).1 (by simp [exactMatrixFloat])).1, ?_, ?_⟩
  · obtain ⟨m2, t2, e, _, q⟩ :=
      (bindEl_override exactMatrixFloat unitMeta mappingMatrix .mapping
        demoMappingTarget.playbackRatioT ⟨.zeroBase, 0⟩ (0 : ℚ) 2 2 (by decide) (by decide)
        (by decide)).2.2.2.1 demoMappingTarget demoZone 2 (by decide) (by decide) (by decide)
        (by decide) (by decide)
    obtain ⟨r2, a, b, c⟩ := q 0 ⟨some 2, 9⟩ rfl rfl
    exact ⟨m2, t2, e, r2, a, b, by rw [c]; simp [exactMatrixFloat, exactOps]⟩
  · obtain ⟨m2, t2, e, q⟩ :=
      (bindEl_override exactMatrixFloat unitMeta slotMatrix (.processorStorage 0)
        (ProcessorTarget.create 0).mixT ⟨.mix, 1⟩ (0 : ℚ) 1 3 (by decide) (by decide)
        (by decide)).2.2.2.2 demoModConsts 0 wideZone 3 (by decide) (by decide) (by decide)
    obtain ⟨r2, a, b, c⟩ := q 0 ⟨some 3, 9⟩ rfl rfl
    exact ⟨m2, t2, e, r2, a, b, by rw [c]; simp [exactMatrixFloat, exactOps]⟩

/-- C14. For every target of the routing table (with the non-zero codes that `bindEl` asserts),
the call of `bindEl` with the default `minVal` and `maxVal` returns the matrix it was given
with the base value bound and with the depth scale `metadata.maxVal - metadata.minVal` on every
routing that points at the output slot of the target, `metadata` being `describeValue` of the
payload and the bound field, every other routing being as it was. Position by position, a
routing of the matrix that points at the target's output slot is, after the call, a routing to
the same slot with that depth scale, and a routing that points elsewhere is unchanged; the
routing table and the number of routings are kept. The routings, the routing table and the
stored pointer are the same whatever base value the field holds, also with another metadata
function that gives the field the same range: the base value enters the result at most through
the range that `describeValue` reports. -/
theorem bindEl_default_range {F : Type} (fm : MatrixFloat F)
    (describeValue : PayloadRef → FieldRef → ParamMetaData F) (m : Matrix F)
    (payload : PayloadRef) (tg : TargetIdentifier) (tgs : FloatRef F) (idx : Nat)
    (hg : tg.gid ≠ 0) (ht : tg.tid ≠ 0)
    (hidx : m.targetToOutputIndex.lookup tg = some idx) :
    bindElDefault fm describeValue m payload tg tgs =
      some ({ m.bindTargetBaseValue tg tgs with
        routingValuePointers :=
          m.routingValuePointers.map (setDepthScale idx
            (fm.sub (describeValue payload tgs.field).maxVal
              (describeValue payload tgs.field).minVal)) },
        some idx) ∧
    (∃ m1, bindElDefault fm describeValue m payload tg tgs = some (m1, some idx) ∧
      m1.getTargetValuePointer tg = some idx ∧
      m1.targetToOutputIndex = m.targetToOutputIndex ∧
      m1.routingValuePointers.length = m.routingValuePointers.length ∧
      ∀ (k : Nat) (r : RoutingValuePointers F), m.routingValuePointers[k]? = some r →
        (r.target = some idx →
          ∃ r2, m1.routingValuePointers[k]? = some r2 ∧ r2.target = some idx ∧
            r2.depthScale = fm.sub (describeValue payload tgs.field).maxVal
              (describeValue payload tgs.field).minVal) ∧
        (r.target ≠ some idx → m1.routingValuePointers[k]? = some r)) ∧
    (∀ v : F,
      (bindElDefault fm describeValue m payload tg ⟨tgs.field, v⟩).map
          (fun r => (r.1.routingValuePointers, r.1.targetToOutputIndex, r.2)) =
        (bindElDefault fm describeValue m payload tg tgs).map
          (fun r => (r.1.routingValuePointers, r.1.targetToOutputIndex, r.2))) ∧
    (∀ (describeValue2 : PayloadRef → FieldRef → ParamMetaData F) (v : F),
      fm.sub (describeValue2 payload tgs.field).maxVal
          (describeValue2 payload tgs.field).minVal =
        fm.sub (describeValue payload tgs.field).maxVal
          (describeValue payload tgs.field).minVal →
      (bindElDefault fm describeValue2 m payload tg ⟨tgs.field, v⟩).map
          (fun r => (r.1.routingValuePointers, r.1.targetToOutputIndex, r.2)) =
        (bindElDefault fm describeValue m payload tg tgs).map
          (fun r => (r.1.routingValuePointers, r.1.targetToOutputIndex, r.2))) := by
  have hfound : bindElDefault fm describeValue m payload tg tgs =
      some ({ m.bindTargetBaseValue tg tgs with
        routingValuePointers :=
          m.routingValuePointers.map (setDepthScale idx
            (fm.sub (describeValue payload tgs.field).maxVal
              (describeValue payload tgs.field).minVal)) },
        some idx) := by
    unfold bindElDefault
    rw [bindEl_found fm describeValue m payload tg tgs _ _ idx hg ht hidx, fm.feq_fltMin]
    rfl
  refine ⟨hfound, ?_, ?_, ?_⟩
  rotate_right
  · intro d2 v hrange
    unfold bindElDefault
    rw [bindEl_found fm d2 m payload tg ⟨tgs.field, v⟩ _ _ idx hg ht hidx,
      bindEl_found fm describeValue m payload tg tgs _ _ idx hg ht hidx, fm.feq_fltMin]
    simp only [if_true, Option.map_some', Option.some.injEq, Prod.mk.injEq, and_true]
    refine ⟨?_, rfl⟩
    show List.map _ _ = List.map _ _
    rw [hrange]
  · refine ⟨_, hfound, ?_, rfl, ?_, ?_⟩
    · simp only [Matrix.getTargetValuePointer, Matrix.bindTargetBaseValue]
      exact hidx
    · simp [Matrix.bindTargetBaseValue]
    · intro k r hk
      constructor
      · intro htg
        refine ⟨{ r with depthScale := (fm.sub (describeValue payload tgs.field).maxVal
            (describeValue payload tgs.field).minVal) }, ?_, htg, rfl⟩
        simp only [Matrix.bindTargetBaseValue, List.getElem?_map, hk, Option.map_some',
          setDepthScale]
        rw [if_pos htg]
      · intro htg
        simp only [Matrix.bindTargetBaseValue, List.getElem?_map, hk, Option.map_some',
          setDepthScale]
        rw [if_neg htg]
  · intro v
    unfold bindElDefault
    rw [bindEl_found fm describeValue m payload tg ⟨tgs.field, v⟩ _ _ idx hg ht hidx,
      bindEl_found fm describeValue m payload tg tgs _ _ idx hg ht hidx]
    rfl

/-- An instance of C14: the default call on a target of the table, metadata range `[0, 1]`. -/
theorem bindEl_default_range_witness :
    bindElDefault exactMatrixFloat unitMeta demoMatrix .mapping demoTarget ⟨.amplitude, 1⟩ =
      some ({ demoMatrix.bindTargetBaseValue demoTarget ⟨.amplitude, 1⟩ with
        routingValuePointers :=
          demoMatrix.routingValuePointers.map (setDepthScale 3
            (exactMatrixFloat.sub (unitMeta .mapping .amplitude).maxVal
              (unitMeta .mapping .amplitude).minVal)) },
        some 3) :=
  (bindEl_default_range exactMatrixFloat unitMeta demoMatrix .mapping demoTarget
    ⟨.amplitude, 1⟩ 3 (by decide) (by decide) (by decide)).1

/-- C22 (amended). `ProcessorTarget::bind` for slot `p` does not look at the type of the slot:
for every zone, also one whose slot `p` has type none, it returns and binds a base value for the
mix target and for each of the `maxProcessorFloatParams` float-parameter targets of the slot. It
keeps the target pointer of every routing; every routing that points at the output slot of the
mix target gets the depth scale 1 when no float parameter of the slot shares that output slot;
every routing that points at the output slot of float parameter `i` gets the range of that
parameter (`maxVal - minVal` of its float control description, or the metadata range when these
two compare equal) when no float parameter with a larger index shares that output slot; and a
routing that points at none of these output slots is unchanged. The result is the same when the
types and type names of the zone's processor slots are replaced by any others. -/
theorem ProcessorTarget_bind_ignores_type {F : Type} (fm : MatrixFloat F) (mc : ModConsts)
    (describeValue : PayloadRef → FieldRef → ParamMetaData F) (p : Nat) (m : Matrix F)
    (z : Zone F) (hmax : mc.maxProcessorFloatParams < 2147483648) :
    (∃ m2 t2, ProcessorTarget.bind fm mc describeValue (ProcessorTarget.create p) m z =
        some (m2, t2) ∧
      (ProcessorTarget.create p).mixT ∈ m2.boundTargets ∧
      (∀ i, i < mc.maxProcessorFloatParams →
        (ProcessorTarget.create p).fpT i ∈ m2.boundTargets) ∧
      m2.routingValuePointers.map (fun r => r.target) =
        m.routingValuePointers.map (fun r => r.target) ∧
      (∀ idx, m.targetToOutputIndex.lookup (ProcessorTarget.create p).mixT = some idx →
        (∀ i, i < mc.maxProcessorFloatParams →
          m.targetToOutputIndex.lookup ((ProcessorTarget.create p).fpT i) ≠ some idx) →
        ∀ (k : Nat) (r : RoutingValuePointers F), m.routingValuePointers[k]? = some r →
          r.target = some idx →
          ∃ r2, m2.routingValuePointers[k]? = some r2 ∧ r2.target = some idx ∧
            r2.depthScale = fm.ofInt 1) ∧
      (∀ i idx, i < mc.maxProcessorFloatParams →
        m.targetToOutputIndex.lookup ((ProcessorTarget.create p).fpT i) = some idx →
        (∀ j, i < j → j < mc.maxProcessorFloatParams →
          m.targetToOutputIndex.lookup ((ProcessorTarget.create p).fpT j) ≠ some idx) →
        ∀ (k : Nat) (r : RoutingValuePointers F), m.routingValuePointers[k]? = some r →
          r.target = some idx →
          ∃ r2, m2.routingValuePointers[k]? = some r2 ∧ r2.target = some idx ∧
            r2.depthScale = floatParamRange fm describeValue z p i) ∧
      (∀ (k : Nat) (r : RoutingValuePointers F), m.routingValuePointers[k]? = some r →
        (r.target = none ∨
          (r.target ≠ m.targetToOutputIndex.lookup (ProcessorTarget.create p).mixT ∧
            ∀ i, i < mc.maxProcessorFloatParams →
              r.target ≠ m.targetToOutputIndex.lookup ((ProcessorTarget.create p).fpT i))) →
        m2.routingValuePointers[k]? = some r)) ∧
    (∀ (ty : Nat → Nat) (nm : Nat → String),
      ProcessorTarget.bind fm mc describeValue (ProcessorTarget.create p) m
          (z.withProcessorTypes ty nm) =
        ProcessorTarget.bind fm mc describeValue (ProcessorTarget.create p) m z) := by
  obtain ⟨⟨m2, t2, e, b1, b2, b3, _⟩, hty⟩ :=
    ProcessorTarget_bind_binds fm mc describeValue p m z hmax
  obtain ⟨m3, t3, e3, q1, q2, q3⟩ := ProcessorTarget_bind_routings fm mc describeValue p m z hmax
  rw [e] at e3
  simp only [Option.some.injEq, Prod.mk.injEq] at e3
  obtain ⟨em, _⟩ := e3
  subst em
  exact ⟨⟨m2, t2, e, b1, b2, b3, q1, q2, q3⟩, hty⟩

/-- An instance of C22 (amended): in a matrix with a routing to the mix target of slot 0, one to
its float parameter 0 and one elsewhere, all with depth scale 9, and a zone whose float controls
have the range `[2, 7]`, the three routings end with the depth scales 1, 5 and 9; and the result
is the same when every slot is given the type none. -/
theorem ProcessorTarget_bind_ignores_type_witness :
    demoModConsts.maxProcessorFloatParams < 2147483648 ∧
    (∃ m2 t2, ProcessorTarget.bind exactMatrixFloat demoModConsts unitMeta
        (ProcessorTarget.create 0) slotMatrix wideZone = some (m2, t2) ∧
      (∃ r2, m2.routingValuePointers[0]? = some r2 ∧ r2.target = some 3 ∧ r2.depthScale = 1) ∧
      (∃ r2, m2.routingValuePointers[1]? = some r2 ∧ r2.target = some 4 ∧ r2.depthScale = 5) ∧
      m2.routingValuePointers[2]? = some ⟨some 5, 9⟩) ∧
    ProcessorTarget.bind exactMatrixFloat demoModConsts unitMeta (ProcessorTarget.create 0)
        slotMatrix (wideZone.withProcessorTypes (fun _ => 0) (fun _ => "")) =
      ProcessorTarget.bind exactMatrixFloat demoModConsts unitMeta (ProcessorTarget.create 0)
        slotMatrix wideZone := by
  obtain ⟨⟨m2, t2, e, _, _, _, q1, q2, q3⟩, hty⟩ :=
    ProcessorTarget_bind_ignores_type exactMatrixFloat demoModConsts unitMeta 0 slotMatrix
      wideZone (by decide)
  refine ⟨by decide, ⟨m2, t2, e, ?_, ?_, ?_⟩, hty (fun _ => 0) (fun _ => "")⟩
  · obtain ⟨r2, a, b, c⟩ := q1 3 (by decide) (by decide) 0 ⟨some 3, 9⟩ rfl rfl
    exact ⟨r2, a, b, by rw [c]; simp [exactMatrixFloat, exactOps]⟩
  · obtain ⟨r2, a, b, c⟩ := q2 0 4 (by decide) (by decide)
      (by intro j h1 h2
          have h3 : j < 9 := h2
          interval_cases j <;> decide) 1 ⟨some 4, 9⟩ rfl rfl
    refine ⟨r2, a, b, ?_⟩
    rw [c]
    simp [floatParamRange, wideZone, exactMatrixFloat]
    norm_num
  · refine q3 2 ⟨some 5, 9⟩ rfl (Or.inr ⟨by decide, ?_⟩)
    intro i hi
    have h3 : i < 9 := hi
    interval_cases i <;> decide

/-! ## The enumeration: when it is defined, and what it returns -/

/-- The hash does not enter the comparison of two targets of one processor slot, of two entries
with different display names, or of an entry with itself. -/
theorem tgtCmp_hash_irrelevant (h1 h2 : TargetIdentifier → Nat)
    (a b : TargetIdentifier × identifierDisplayName_t)
    (hab : SameProcSlot a b ∨ a.2 ≠ b.2 ∨ a.1 = b.1) :
    tgtCmp h1 a b = tgtCmp h2 a b := by
  by_cases hs : SameProcSlot a b
  · rw [tgtCmp_of_same h1 a b hs, tgtCmp_of_same h2 a b hs]
  · rw [tgtCmp_of_not_same h1 a b hs, tgtCmp_of_not_same h2 a b hs]
    rcases hab with h | h | h
    · exact absurd h hs
    · unfold identCmp
      simp only
      by_cases e1 : a.2.1 = b.2.1
      · by_cases e2 : a.2.2 = b.2.2
        · exact absurd (Prod.ext e1 e2) h
        · rw [if_pos e1, if_neg e2, if_pos e1, if_neg e2]
      · rw [if_neg e1, if_neg e1]
    · unfold identCmp
      simp only
      rw [h]
      simp

theorem orderedInsertBy_congr {α : Type} (lt lt2 : α → α → Bool) (x : α) :
    ∀ l : List α, (∀ b ∈ l, lt x b = lt2 x b) →
      orderedInsertBy lt x l = orderedInsertBy lt2 x l := by
  intro l
  induction l with
  | nil => intro _; rfl
  | cons y ys ih =>
    intro h
    unfold orderedInsertBy
    rw [h y (List.mem_cons_self _ _), ih (fun b hb => h b (List.mem_cons_of_mem _ hb))]

/-- Insertion sort gives the same list with two comparisons that agree on the elements. -/
theorem insertionSortBy_congr {α : Type} (lt lt2 : α → α → Bool) :
    ∀ l : List α, (∀ a ∈ l, ∀ b ∈ l, lt a b = lt2 a b) →
      insertionSortBy lt l = insertionSortBy lt2 l := by
  intro l
  induction l with
  | nil => intro _; rfl
  | cons x xs ih =>
    intro h
    unfold insertionSortBy
    rw [ih (fun a ha b hb => h a (List.mem_cons_of_mem _ ha) b (List.mem_cons_of_mem _ hb))]
    apply orderedInsertBy_congr
    intro b hb
    exact h x (List.mem_cons_self _ _) b
      (List.mem_cons_of_mem _ ((perm_insertionSortBy lt2 xs).mem_iff.mp hb))

/-- Two comparisons that agree on the elements of a list are strict weak orderings on it
together. -/
theorem strictWeakOn_congr {α : Type} (lt lt2 : α → α → Bool) (l : List α)
    (h : ∀ a ∈ l, ∀ b ∈ l, lt a b = lt2 a b) : strictWeakOn lt l = strictWeakOn lt2 l := by
  have key : ∀ (f g : α → α → Bool), (∀ a ∈ l, ∀ b ∈ l, f a b = g a b) →
      strictWeakOn f l = true → strictWeakOn g l = true := by
    intro f g hfg hf
    rw [strictWeakOn_iff] at hf ⊢
    obtain ⟨p1, p2, p3⟩ := hf
    refine ⟨?_, ?_, ?_⟩
    · intro a ha
      rw [← hfg a ha a ha]; exact p1 a ha
    · intro a ha b hb c hc
      rw [← hfg a ha b hb, ← hfg b hb c hc, ← hfg a ha c hc]
      exact p2 a ha b hb c hc
    · intro a ha b hb c hc
      rw [← hfg a ha b hb, ← hfg b hb a ha, ← hfg b hb c hc, ← hfg c hc b hb,
        ← hfg a ha c hc, ← hfg c hc a ha]
      exact p3 a ha b hb c hc
  cases h1 : strictWeakOn lt l with
  | true => exact (key lt lt2 h h1).symm
  | false =>
    cases h2 : strictWeakOn lt2 l with
    | false => rfl
    | true =>
      have := key lt2 lt (fun a ha b hb => (h a ha b hb).symm) h2
      rw [h1] at this
      exact absurd this (by simp)

/-- Where two comparisons agree on the elements of the list, `std::sort` does the same with
either. -/
theorem stdSort_congr {α : Type} (lt lt2 : α → α → Bool) (l : List α)
    (h : ∀ a ∈ l, ∀ b ∈ l, lt a b = lt2 a b) : stdSort lt l = stdSort lt2 l := by
  unfold stdSort
  rw [strictWeakOn_congr lt lt2 l h, insertionSortBy_congr lt lt2 l h]

/-- The enumeration returns whenever the comparison of targets is a strict weak ordering on
the zone's targets and every curve has a name; the lists it returns are the sorted lists. -/
theorem getVoiceMatrixMetadata_defined {Z : Type} (hashT : TargetIdentifier → Nat)
    (hashS : SourceIdentifier → Nat) (mcv : ModulationCurves) (e : Engine Z) (z : Z)
    (hsort : strictWeakOn (tgtCmp hashT) (namedEntries z e.voiceModTargets) = true)
    (hnames : ∀ k ∈ mcv.allCurves, (mcv.curveNames.lookup k).isSome = true) :
    ∃ md, getVoiceMatrixMetadata hashT hashS mcv e z = some md ∧
      stdSort (tgtCmp hashT) (namedEntries z e.voiceModTargets) = some md.targets ∧
      stdSort (identCmp hashS) (namedEntries z e.voiceModSources) = some md.sources ∧
      curveEntries mcv mcv.allCurves = some md.curves ∧ md.flag = true := by
  obtain ⟨cr, hcr⟩ := curveEntries_total mcv mcv.allCurves hnames
  have hT : stdSort (tgtCmp hashT) (namedEntries z e.voiceModTargets) =
      some (insertionSortBy (tgtCmp hashT) (namedEntries z e.voiceModTargets)) := by
    unfold stdSort
    rw [if_pos hsort]
  have hS : stdSort (identCmp hashS) (namedEntries z e.voiceModSources) =
      some (insertionSortBy (identCmp hashS) (namedEntries z e.voiceModSources)) := by
    unfold stdSort
    rw [if_pos (identCmp_strictWeakOn hashS _)]
  refine ⟨⟨true, insertionSortBy (identCmp hashS) (namedEntries z e.voiceModSources),
    insertionSortBy (tgtCmp hashT) (namedEntries z e.voiceModTargets), cr⟩, ?_, hT, hS, hcr, rfl⟩
  unfold getVoiceMatrixMetadata
  rw [hT, hS, hcr]
  rfl

/-- The enumeration returns only when the comparison of targets is a strict weak ordering on
the zone's targets and every curve has a name. -/
theorem getVoiceMatrixMetadata_defined_only {Z : Type} (hashT : TargetIdentifier → Nat)
    (hashS : SourceIdentifier → Nat) (mcv : ModulationCurves) (e : Engine Z) (z : Z)
    (md : voiceMatrixMetadata_t)
    (h : getVoiceMatrixMetadata hashT hashS mcv e z = some md) :
    strictWeakOn (tgtCmp hashT) (namedEntries z e.voiceModTargets) = true :=
  (stdSort_spec _ _ _ (getVoiceMatrixMetadata_some hashT hashS mcv e z md h).1).1

/-- C18 (amended). Whenever the call is defined (the comparison of targets is a strict weak
ordering on the zone's targets, as `std::sort` requires, and every curve of `allCurves` has a
name), `getVoiceMatrixMetadata` returns a target list and a source list that are permutations
of the zone's named targets and sources, in which any two sources, and any two targets that are
not in the same processor slot, appear in increasing order of display path; entries with the
same path in increasing order of display name; and entries with the same path and name in
increasing order of the hash of their identifier. Group codes are not compared. -/
theorem metadata_display_order {Z : Type} (hashT : TargetIdentifier → Nat)
    (hashS : SourceIdentifier → Nat) (mcv : ModulationCurves) (e : Engine Z) (z : Z)
    (hsort : strictWeakOn (tgtCmp hashT) (namedEntries z e.voiceModTargets) = true)
    (hnames : ∀ k ∈ mcv.allCurves, (mcv.curveNames.lookup k).isSome = true) :
    ∃ md, getVoiceMatrixMetadata hashT hashS mcv e z = some md ∧
      md.targets.Perm (namedEntries z e.voiceModTargets) ∧
      md.sources.Perm (namedEntries z e.voiceModSources) ∧
      DisplaySorted hashS md.sources ∧
      ∀ (i j : Nat) a b, i < j → md.targets[i]? = some a → md.targets[j]? = some b →
        ¬ SameProcSlot a b → DisplayLe hashT a b := by
  obtain ⟨md, hmd, ht, hs, _, _⟩ :=
    getVoiceMatrixMetadata_defined hashT hashS mcv e z hsort hnames
  obtain ⟨_, hpT, hsortedT⟩ := stdSort_spec _ _ _ ht
  obtain ⟨_, hpS, hsortedS⟩ := stdSort_spec _ _ _ hs
  refine ⟨md, hmd, hpT, hpS, ?_, ?_⟩
  · intro i j a b hij hi hj
    exact (identCmp_false_iff hashS a b).mp
      (pairwise_getElem_opt_lt _ _ hsortedS i j a b hij hi hj)
  · intro i j a b hij hi hj hns
    have h1 := pairwise_getElem_opt_lt _ _ hsortedT i j a b hij hi hj
    rw [tgtCmp_not_same_slot hashT a b hns] at h1
    exact (identCmp_false_iff hashT a b).mp h1

/-- An instance of C18 (amended): two targets and two sources whose paths are in the opposite
order of their group codes. -/
theorem metadata_display_order_witness :
    ∃ md, getVoiceMatrixMetadata demoTargetHash demoSourceHash demoCurves swappedEngine () =
        some md ∧
      md.targets.Perm (namedEntries () swappedEngine.voiceModTargets) ∧
      md.sources.Perm (namedEntries () swappedEngine.voiceModSources) ∧
      DisplaySorted demoSourceHash md.sources ∧
      ∀ (i j : Nat) a b, i < j → md.targets[i]? = some a → md.targets[j]? = some b →
        ¬ SameProcSlot a b → DisplayLe demoTargetHash a b :=
  metadata_display_order demoTargetHash demoSourceHash demoCurves swappedEngine ()
    (by decide) (by decide)

end scxt
